import Mathlib

/-! Stack-to-geometry synthesis: a shallow embedding of `cells/stk_layout.cc`.

The development embeds the stack layout engine of the layout generator:

* `getwidth`, `getlength`      (stk_layout.cc 240-256)
* `update_bbox`                (stk_layout.cc 259-296)
* `locate_fetedge`             (stk_layout.cc 303-389)
* `emit_rectangle`             (stk_layout.cc 396-624)
* `print_dualstack`            (stk_layout.cc 626-820)
* `print_singlestack`          (stk_layout.cc 823-890)

Modelling conventions.

* C `int` values are modelled by `Int`.  Signed overflow is undefined behaviour
  in C++, so every statement below is about runs whose coordinates stay inside
  the range of `int`.
* Pointers that the source tests against `NULL` are `Option` values; pointer
  equality on nodes is equality of the `id` field, which stands for the address.
* `Assert` failures and dereferences of a null pointer are fatal: the embedded
  functions return `Except Fatal _`.
* The technology rule tables (`DiffMat`, `FetMat`, `PolyMat`), the `EDGE_WIDTH`
  macro and the drawing primitives of `Layout` are declared outside this file of
  the repository.  The rule tables and `EDGE_WIDTH` are parameters (`Env`);
  the drawing primitives are recorded as a log of `Draw` requests.  The rule
  tables are total: a missing material (a null `DiffMat`, `FetMat` or `PolyMat`,
  which the printers assert against) is outside the model.
* `emit_rectangle` is embedded in two parts that meet at its assertion:
  `emit_transition` (the case analysis before `Assert (rect > 0)`) and
  `emit_draw` (the drawing after it).
-/

namespace StkLayout

/-! ## Data model -/

/-- Reasons for which the pass stops: a failed `Assert`, a null dereference or a
call of `fatal_error`. -/
inductive Fatal where
  | assertPrev      -- Assert (prev, "Hmm")
  | assertRect      -- Assert (rect > 0, "FIX FOR FINFETS!")
  | assertHmm       -- the other Assert (..., "Hmm") checks
  | assertEh        -- Assert (li && !list_next (li), "Eh?")
  | assertWhat      -- Assert (tmp->basepair, "What?")
  | nullDeref       -- dereference of a NULL pointer or of an ill-typed list cell
  | assertProblem   -- Assert (av, "Problem..")
  | fatalError      -- a call of fatal_error (...)
  deriving DecidableEq, Repr

/-- Device polarity: `EDGE_NFET`, `EDGE_PFET`. -/
inductive EdgeType where
  | EDGE_NFET
  | EDGE_PFET
  deriving DecidableEq, Repr

/-- A stack node (`node_t`): `id` stands for its address, `contact` is the
contact bit. -/
structure node_t where
  id : Nat
  contact : Bool
  deriving DecidableEq, Repr

/-- A device edge (`edge_t`): gate `g`, terminals `a` and `b`, electrical width
`w` and length `l`, device flavor and polarity. -/
structure edge_t where
  g : node_t
  a : node_t
  b : node_t
  w : Int
  l : Int
  flavor : Nat
  type : EdgeType
  deriving DecidableEq, Repr

/-- Diffusion rules (`DiffMat`): `effOverhang (w, hasvia)`, `getNotchSpacing ()`,
`viaSpaceMid ()`, `getOppDiffSpacing (flavor)`.  The one-argument call
`effOverhang (w)` of the source is `effOverhang w false`. -/
structure DiffMat where
  effOverhang : Int → Bool → Int
  getNotchSpacing : Int
  viaSpaceMid : Int
  getOppDiffSpacing : Nat → Int

/-- Transistor rules (`FetMat`): `getSpacing (length)`. -/
structure FetMat where
  getSpacing : Int → Int

/-- Polysilicon rules (`PolyMat`): `getSpacing`, `getOverhang`,
`getNotchOverhang`, all by length, and the end-of-line rule `getEol ()`. -/
structure PolyMat where
  getSpacing : Int → Int
  getOverhang : Int → Int
  getNotchOverhang : Int → Int
  getEol : Int

/-- Everything the stack engine reads from its surroundings: the rule tables
reached through `L->getDiff`, `L->getFet`, `L->getPoly`, the file-level scale
`_lambda_to_scale`, and the `EDGE_WIDTH (e, idx)` macro of the netlist header
(width of fold `idx` of edge `e`). -/
structure Env where
  getDiff : EdgeType → Nat → DiffMat
  getFet : EdgeType → Nat → FetMat
  getPoly : PolyMat
  _lambda_to_scale : Int
  EDGE_WIDTH : edge_t → Int → Int

/-- One rectangle of a bounding box. -/
structure Rect where
  llx : Int
  lly : Int
  urx : Int
  ury : Int
  deriving DecidableEq, Repr

/-- The accumulator `struct BBox`: the flavor and one rectangle per polarity. -/
structure BBox where
  flavor : Nat
  p : Rect
  n : Rect
  deriving DecidableEq, Repr

/-- A drawing request issued to the geometry store, with its arguments in the
order of the source: `(flavor, type, x, y, width, height, net)`. -/
inductive Draw where
  | DrawDiff (flavor : Nat) (type : EdgeType) (x y wx wy : Int) (net : Option node_t)
  | DrawFet (flavor : Nat) (type : EdgeType) (x y wx wy : Int) (net : Option node_t)
  | DrawPoly (x y wx wy : Int) (net : Option node_t)
  deriving DecidableEq, Repr

/-- The macro `MAX(a,b) ((a) > (b) ? (a) : (b))`. -/
def MAX (a b : Int) : Int := if a > b then a else b

/-- The macro `MIN(a,b) ((a) < (b) ? (a) : (b))`. -/
def MIN (a b : Int) : Int := if a < b then a else b

/-- Flag bit `EDGE_FLAGS_LEFT 0x1`. -/
def EDGE_FLAGS_LEFT : Nat := 0x1

/-- Flag bit `EDGE_FLAGS_RIGHT 0x2`. -/
def EDGE_FLAGS_RIGHT : Nat := 0x2

/-- Actual edge width: `EDGE_WIDTH (e,idx)*_lambda_to_scale` (both branches of
the source agree). -/
def getwidth (C : Env) (idx : Int) (e : edge_t) : Int :=
  match e.type with
  | .EDGE_NFET => C.EDGE_WIDTH e idx * C._lambda_to_scale
  | .EDGE_PFET => C.EDGE_WIDTH e idx * C._lambda_to_scale

/-- Actual edge length: `e->l*_lambda_to_scale`. -/
def getlength (C : Env) (e : edge_t) : Int :=
  e.l * C._lambda_to_scale

/-- Extension of one rectangle of the accumulator by the corners `(x,y)`,
`(rx,ry)`: the body shared by the two branches of `update_bbox`. -/
def update_rect (r : Rect) (x y rx ry : Int) : Rect :=
  if r.llx ≥ r.urx ∨ r.lly ≥ r.ury then
    { llx := MIN x rx, lly := MIN y ry, urx := MAX x rx, ury := MAX y ry }
  else
    { llx := MIN (MIN r.llx x) rx,
      lly := MIN (MIN r.lly y) ry,
      urx := MAX (MAX r.urx x) rx,
      ury := MAX (MAX r.ury y) ry }

/-- The function `update_bbox (cur, type, x, y, rx, ry)`. -/
def update_bbox (cur : BBox) (type : EdgeType) (x y rx ry : Int) : BBox :=
  if type = .EDGE_PFET then
    { cur with p := update_rect cur.p x y rx ry }
  else
    { cur with n := update_rect cur.n x y rx ry }

/-! ## The edge-transition resolver -/

/-- The function `locate_fetedge (L, dx, flags, prev, previdx, left, e, eidx)`.
The edge width is read at fold index `0` (`getwidth (0, e)`), as in the source;
the parameter `eidx` is not used by the body. -/
def locate_fetedge (C : Env) (dx : Int) (flags : Nat)
    (prev : Option edge_t) (previdx : Int)
    (left : node_t) (e : edge_t) (_eidx : Int) : Except Fatal Int :=
  let e_w := getwidth C 0 e
  let d := C.getDiff e.type e.flavor
  let f := C.getFet e.type e.flavor
  let p := C.getPoly
  let spc : Int :=
    match prev with
    | some pe => MAX (f.getSpacing (getlength C pe)) (p.getSpacing (getlength C pe))
    | none => 0
  let spc : Int := MAX (MAX spc (f.getSpacing (getlength C e))) (p.getSpacing (getlength C e))
  -- (fet_type, rect) after the first case analysis
  let first : Except Fatal (Int × Int) :=
    if flags &&& EDGE_FLAGS_LEFT ≠ 0 then
      .ok (0, d.effOverhang e_w left.contact)
    else
      match prev with
      | none => .error .assertPrev
      | some pe =>
        let prev_w := getwidth C previdx pe
        if prev_w = e_w then
          .ok (0, if left.contact then MAX spc d.viaSpaceMid else spc)
        else if prev_w < e_w then
          let rect := d.getNotchSpacing
          let rect := if left.contact then MAX rect (d.viaSpaceMid - d.effOverhang e_w false) else rect
          .ok (1, MAX rect spc)
        else
          .ok (-1, d.effOverhang e_w false)
  match first with
  | .error err => .error err
  | .ok (fet_type, rect) =>
    -- Assert (rect > 0, "FIX FOR FINFETS!")
    if rect > 0 then
      let dx := dx + rect
      if fet_type ≠ 0 then
        let rect : Int :=
          if fet_type < 0 then
            let rect := d.getNotchSpacing
            if left.contact then MAX rect (d.viaSpaceMid - d.effOverhang e_w false) else rect
          else
            d.effOverhang e_w false
        .ok (dx + rect)
      else
        .ok dx
    else .error .assertRect

/-! ## The rectangle emitter -/

/-- What one call of `emit_rectangle` produces: the returned cursor, the
accumulator written back through `ret` (when `ret` is not `NULL`), and the
drawing requests issued, in order. -/
structure EmitResult where
  dx : Int
  ret : Option BBox
  drawn : List Draw
  deriving DecidableEq, Repr

/-- The first case analysis of `emit_rectangle` (stk_layout.cc 450-483): the
transition kind `fet_type` (`-1` downward notch, `+1` upward notch, `0` same
width), the length `rect` of the first diffusion rectangle and `prev_w`. -/
def emit_transition (C : Env) (flags : Nat) (prev : Option edge_t) (previdx : Int)
    (left : node_t) (e : edge_t) (e_w spc : Int) : Except Fatal (Int × Int × Int) :=
  let d := C.getDiff e.type e.flavor
  if flags &&& EDGE_FLAGS_LEFT ≠ 0 then
    .ok (0, d.effOverhang e_w left.contact, 0)
  else
    match prev with
    | none => .error .assertPrev
    | some pe =>
      let prev_w := getwidth C previdx pe
      if prev_w = e_w then
        .ok (0, (if left.contact then MAX spc d.viaSpaceMid else spc), prev_w)
      else if prev_w < e_w then
        let rect := d.getNotchSpacing
        let rect := if left.contact then MAX rect (d.viaSpaceMid - d.effOverhang e_w false) else rect
        .ok (1, MAX rect spc, prev_w)
      else
        .ok (-1, d.effOverhang e_w false, prev_w)

/-- The drawing part of `emit_rectangle` (stk_layout.cc 487-623), entered once
`Assert (rect > 0)` has passed, with the accumulator `b` in hand: the final
cursor, the final accumulator and the drawing requests in order. -/
def emit_draw (C : Env) (pad dx dy : Int) (flags : Nat) (left : node_t) (e : edge_t)
    (eopp : Option edge_t) (oup : Int) (e_w : Int) (yup : Int) (b : BBox)
    (fet_type rect prev_w : Int) : Int × BBox × List Draw :=
  let d := C.getDiff e.type e.flavor
  let p := C.getPoly
  -- if (fet_type != -1) { rect += pad; pad = 0; }
  let rect : Int := if fet_type ≠ -1 then rect + pad else rect
  let pad : Int := if fet_type ≠ -1 then 0 else pad
  let leftnet : Option node_t := if left.contact then some left else none
  -- first diffusion rectangle
  let drawn1 : List Draw :=
    if fet_type = 0 then
      if yup < 0 then
        [.DrawDiff e.flavor e.type dx (dy + yup * e_w) rect (-yup * e_w) leftnet]
      else
        [.DrawDiff e.flavor e.type dx dy rect (yup * e_w) leftnet]
    else
      if yup < 0 then
        [.DrawDiff e.flavor e.type dx (dy + yup * prev_w) rect (-yup * prev_w) leftnet]
      else
        [.DrawDiff e.flavor e.type dx dy rect (yup * prev_w) leftnet]
  let b : BBox :=
    if fet_type = 0 then
      update_bbox b e.type dx dy (dx + rect) (dy + yup * e_w)
    else
      update_bbox b e.type dx dy (dx + rect) (dy + yup * prev_w)
  let dx : Int := dx + rect
  -- second diffusion rectangle of a notch
  let rect2 : Int :=
    (if fet_type < 0 then
      (if left.contact then
        MAX d.getNotchSpacing (d.viaSpaceMid - d.effOverhang e_w false)
      else d.getNotchSpacing)
    else
      d.effOverhang e_w false) + pad
  let drawn2 : List Draw :=
    if fet_type ≠ 0 then
      if yup < 0 then
        [.DrawDiff e.flavor e.type dx (dy + yup * e_w) rect2 (-yup * e_w) none]
      else
        [.DrawDiff e.flavor e.type dx dy rect2 (yup * e_w) none]
    else []
  let b : BBox :=
    if fet_type ≠ 0 then update_bbox b e.type dx dy (dx + rect2) (dy + yup * e_w) else b
  let dx : Int := if fet_type ≠ 0 then dx + rect2 else dx
  -- now print fet
  let drawnFet : List Draw :=
    if yup < 0 then
      [.DrawFet e.flavor e.type dx (dy + yup * e_w) (getlength C e) (-yup * e_w) none]
    else
      [.DrawFet e.flavor e.type dx dy (getlength C e) (yup * e_w) none]
  let poverhang : Int := p.getOverhang (getlength C e)
  let uoverhang : Int :=
    if fet_type ≠ 0 then MAX poverhang (p.getNotchOverhang (getlength C e)) else poverhang
  -- now print poly edges
  let drawnPoly : List Draw :=
    if yup < 0 then
      [.DrawPoly dx dy (getlength C e) (-yup * poverhang) (some e.g),
       .DrawPoly dx (dy + yup * (e_w + uoverhang)) (getlength C e) (-yup * uoverhang) none]
    else
      let oppoverhang : Int :=
        match eopp with
        | some eo => p.getOverhang (getlength C eo)
        | none => -1
      let facing : Draw :=
        if eopp.isSome = true ∧ oup + oppoverhang + poverhang ≥ dy then
          let endpoly := oppoverhang + oup
          let ht := dy - endpoly
          .DrawPoly dx endpoly (getlength C e) ht (some e.g)
        else
          .DrawPoly dx (dy - yup * poverhang) (getlength C e) (yup * poverhang) (some e.g)
      [facing, .DrawPoly dx (dy + yup * e_w) (getlength C e) (yup * uoverhang) none]
  let dx : Int := dx + getlength C e
  -- closing diffusion on the right boundary
  let right : node_t := if left.id = e.a.id then e.b else e.a
  let rectR : Int := d.effOverhang e_w right.contact
  let drawnR : List Draw :=
    if flags &&& EDGE_FLAGS_RIGHT ≠ 0 then
      if yup < 0 then
        [.DrawDiff e.flavor e.type dx (dy + yup * e_w) rectR (-yup * e_w) (some right)]
      else
        [.DrawDiff e.flavor e.type dx dy rectR (yup * e_w) (some right)]
    else []
  let b : BBox :=
    if flags &&& EDGE_FLAGS_RIGHT ≠ 0 then
      update_bbox b e.type dx dy (dx + rectR) (dy + yup * e_w)
    else b
  let dx : Int := if flags &&& EDGE_FLAGS_RIGHT ≠ 0 then dx + rectR else dx
  (dx, b, drawn1 ++ drawn2 ++ drawnFet ++ drawnPoly ++ drawnR)

/-- The function `emit_rectangle (L, pad, dx, dy, flags, prev, previdx, left, e,
eopp, oup, eidx, yup, ret)`: the set-up of lines 414-447, the case analysis
`emit_transition`, the assertion of line 485 and the drawing `emit_draw`; the
accumulator is written back through `ret` when it is not `NULL`. -/
def emit_rectangle (C : Env) (pad dx dy : Int) (flags : Nat)
    (prev : Option edge_t) (previdx : Int)
    (left : node_t) (e : edge_t) (eopp : Option edge_t) (oup : Int)
    (eidx : Int) (yup : Int) (ret : Option BBox) : Except Fatal EmitResult :=
  let e_w := getwidth C eidx e
  let b : BBox :=
    match ret with
    | some r => r
    | none => { flavor := 0, p := ⟨0, 0, 0, 0⟩, n := ⟨0, 0, 0, 0⟩ }
  let f := C.getFet e.type e.flavor
  let p := C.getPoly
  let b : BBox := { b with flavor := e.flavor }
  let spc : Int :=
    match prev with
    | some pe => MAX (f.getSpacing (getlength C pe)) (p.getSpacing (getlength C pe))
    | none => 0
  let spc : Int := MAX (MAX spc (f.getSpacing (getlength C e))) (p.getSpacing (getlength C e))
  match emit_transition C flags prev previdx left e e_w spc with
  | .error err => .error err
  | .ok (fet_type, rect, prev_w) =>
    -- Assert (rect > 0, "FIX FOR FINFETS!")
    if rect > 0 then
      let out := emit_draw C pad dx dy flags left e eopp oup e_w yup b fet_type rect prev_w
      .ok { dx := out.1, ret := ret.map (fun _ => out.2.1), drawn := out.2.2 }
    else .error .assertRect

/-! ## The stack assembler: single stacks -/

/-- A cell of the stack list handed to `print_singlestack`: the list alternates
`node, edge, idx, node, edge, idx, ..., node`. -/
inductive StkItem where
  | node (n : node_t)
  | edge (e : edge_t)
  | idx (i : Int)
  deriving DecidableEq, Repr

/-- The state of a stack walk when it stops: the accumulator `b`, the cursor
`xpos` and the drawing requests issued. -/
structure StackResult where
  b : BBox
  xpos : Int
  drawn : List Draw
  deriving DecidableEq, Repr

/-- The accumulator as the stack printers initialise it (all corners `0`; the
`flavor` field is not initialised by the source and is `0` here). -/
def zeroBBox : BBox := { flavor := 0, p := ⟨0, 0, 0, 0⟩, n := ⟨0, 0, 0, 0⟩ }

/-- The `while` loop of `print_singlestack` (stk_layout.cc 864-887) from the
cell `li` on; `first` says that `li == list_first (l)`.  The loop runs while
three cells are present, reads the fourth (`m`), and stops with the final
`Assert (li && !list_next (li), "Eh?")`. -/
def singlestack_loop (C : Env) (first : Bool) (prev : Option edge_t) (previdx : Int)
    (xpos : Int) (b : BBox) (drawn : List Draw) :
    List StkItem → Except Fatal StackResult
  | [] => .error .assertEh
  | [_] => .ok { b := b, xpos := xpos, drawn := drawn }
  | [_, _] => .error .assertEh
  | [_, _, _] => .error .nullDeref
  | .node n :: .edge e :: .idx idx :: m :: rest =>
    let flags : Nat :=
      (if first then EDGE_FLAGS_LEFT else 0) |||
      (if rest.isEmpty then EDGE_FLAGS_RIGHT else 0)
    match emit_rectangle C 0 xpos 0 flags prev previdx n e none 0 idx 1 (some b) with
    | .error err => .error err
    | .ok r =>
      singlestack_loop C false (some e) idx r.dx (r.ret.getD b) (drawn ++ r.drawn) (m :: rest)
  | _ :: _ :: _ :: _ :: _ => .error .nullDeref

/-- The body of `print_singlestack (L, l)` with the final cursor and the drawing
log kept next to the returned accumulator. -/
def print_singlestack_run (C : Env) (l : List StkItem) : Except Fatal StackResult :=
  if l.length < 4 then .ok { b := zeroBBox, xpos := 0, drawn := [] }
  else singlestack_loop C true none 0 0 zeroBBox [] l

/-- The function `print_singlestack (L, l)`: the accumulator it returns. -/
def print_singlestack (C : Env) (l : List StkItem) : Except Fatal BBox :=
  match print_singlestack_run C l with
  | .error err => .error err
  | .ok r => .ok r.b

/-! ## The stack assembler: dual stacks -/

/-- A gate pair (`struct gate_pairs`): a base pair with its optional N and P
edge, left nodes and fold indices, or a composite list of gate pairs with its
left nodes. -/
inductive gate_pairs where
  | basepair (n p : Option edge_t) (l_n l_p : Option node_t) (n_start p_start : Int)
  | composite (gp : List gate_pairs) (l_n l_p : Option node_t)

/-- The field `u.e.n` (absent on a composite). -/
def gate_pairs.e_n : gate_pairs → Option edge_t
  | .basepair n _ _ _ _ _ => n
  | .composite _ _ _ => none

/-- The field `u.e.p` (absent on a composite). -/
def gate_pairs.e_p : gate_pairs → Option edge_t
  | .basepair _ p _ _ _ _ => p
  | .composite _ _ _ => none

/-- The field `l.n`. -/
def gate_pairs.l_n : gate_pairs → Option node_t
  | .basepair _ _ l _ _ _ => l
  | .composite _ l _ => l

/-- The field `l.p`. -/
def gate_pairs.l_p : gate_pairs → Option node_t
  | .basepair _ _ _ l _ _ => l
  | .composite _ _ l => l

/-- The local variables of `print_dualstack` that live across base pairs. -/
structure DualState where
  xpos : Int
  xpos_p : Int
  b : BBox
  firstp : Bool
  firstn : Bool
  prevp : Option edge_t
  prevn : Option edge_t
  prevpidx : Int
  prevnidx : Int
  leftp : Option node_t
  leftn : Option node_t
  drawn : List Draw
  deriving DecidableEq, Repr

/-- Advance of a row's left node (stk_layout.cc 744-758 for N, 759-773 for P):
on the first edge of the row it is the left node of the stack, afterwards the
terminal of the previous edge that is not the previous left node. -/
def advance_left (hasEdge : Bool) (left gp_l : Option node_t) (prev : Option edge_t) :
    Except Fatal (Option node_t) :=
  if hasEdge then
    match left with
    | none => .ok gp_l
    | some ln =>
      match prev with
      | none => .error .assertHmm
      | some pe =>
        if pe.a.id = ln.id then .ok (some pe.b)
        else if pe.b.id = ln.id then .ok (some pe.a)
        else .error .assertHmm
  else .ok left

/-- The call `locate_fetedge (L, dx, flags, prev, previdx, left, e, eidx)` with a
left node that may be `NULL`. -/
def locate_fetedge_at (C : Env) (dx : Int) (flags : Nat) (prev : Option edge_t)
    (previdx : Int) (left : Option node_t) (e : edge_t) (eidx : Int) : Except Fatal Int :=
  match left with
  | none => .error .nullDeref
  | some ln => locate_fetedge C dx flags prev previdx ln e eidx

/-- The call `emit_rectangle (...)` with a left node that may be `NULL`. -/
def emit_rectangle_at (C : Env) (pad dx dy : Int) (flags : Nat) (prev : Option edge_t)
    (previdx : Int) (left : Option node_t) (e : edge_t) (eopp : Option edge_t) (oup : Int)
    (eidx : Int) (yup : Int) (ret : Option BBox) : Except Fatal EmitResult :=
  match left with
  | none => .error .nullDeref
  | some ln => emit_rectangle C pad dx dy flags prev previdx ln e eopp oup eidx yup ret

/-- The padding of a base pair (stk_layout.cc 683-690 and 776-791): `(padn, padp)`
from the two planned gate positions. -/
def compute_pad (fposn fposp : Int) : Int × Int :=
  if fposn > fposp then (0, 0 + fposn - fposp) else (0 + fposp - fposn, 0)

/-- One iteration of the `for` loop of `print_dualstack` (stk_layout.cc 714-817)
on the base pair `tmp`; `next` is the following list cell, if any. -/
def dualstack_step (C : Env) (gp_l_n gp_l_p : Option node_t) (yn yp : Int)
    (s : DualState) (tmp : gate_pairs) (next : Option gate_pairs) :
    Except Fatal DualState :=
  match tmp with
  | .composite _ _ _ => .error .assertHmm
  | .basepair en ep _ _ n_start p_start =>
    -- boundary flags, lines 716-742
    let flagsp : Nat := if s.firstp = true ∧ ep.isSome = true then 0 ||| EDGE_FLAGS_LEFT else 0
    let firstp : Bool := if s.firstp = true ∧ ep.isSome = true then false else s.firstp
    let flagsn : Nat := if s.firstn = true ∧ en.isSome = true then 0 ||| EDGE_FLAGS_LEFT else 0
    let firstn : Bool := if s.firstn = true ∧ en.isSome = true then false else s.firstn
    let flagsp : Nat :=
      match next with
      | none => flagsp ||| EDGE_FLAGS_RIGHT
      | some tnext => if tnext.e_p.isNone = true then flagsp ||| EDGE_FLAGS_RIGHT else flagsp
    let flagsn : Nat :=
      match next with
      | none => flagsn ||| EDGE_FLAGS_RIGHT
      | some tnext => if tnext.e_n.isNone = true then flagsn ||| EDGE_FLAGS_RIGHT else flagsn
    -- left nodes, lines 744-773
    match advance_left en.isSome s.leftn gp_l_n s.prevn with
    | .error err => .error err
    | .ok leftn =>
    match advance_left ep.isSome s.leftp gp_l_p s.prevp with
    | .error err => .error err
    | .ok leftp =>
    -- compute padding, lines 775-791
    let pads : Except Fatal (Int × Int) :=
      match en, ep with
      | some n, some p =>
        match locate_fetedge_at C s.xpos flagsn s.prevn s.prevnidx leftn n n_start with
        | .error err => .error err
        | .ok fposn =>
          match locate_fetedge_at C s.xpos_p flagsp s.prevp s.prevpidx leftp p p_start with
          | .error err => .error err
          | .ok fposp => .ok (compute_pad fposn fposp)
      | _, _ => .ok (0, 0)
    match pads with
    | .error err => .error err
    | .ok (padn, padp) =>
    -- the N row, lines 793-803
    let afterN : Except Fatal DualState :=
      match en with
      | none =>
        .ok { s with firstp := firstp, firstn := firstn, leftn := leftn, leftp := leftp }
      | some n =>
        match emit_rectangle_at C padn s.xpos yn flagsn s.prevn s.prevnidx leftn n ep yp
            n_start (-1) (some s.b) with
        | .error err => .error err
        | .ok r =>
          .ok { s with
                xpos := r.dx,
                xpos_p := if ep.isNone = true then r.dx else s.xpos_p,
                b := r.ret.getD s.b,
                prevn := some n,
                prevnidx := n_start,
                drawn := s.drawn ++ r.drawn,
                firstp := firstp, firstn := firstn, leftn := leftn, leftp := leftp }
    match afterN with
    | .error err => .error err
    | .ok s1 =>
      -- the P row, lines 805-816
      match ep with
      | none => .ok s1
      | some p =>
        match emit_rectangle_at C padp s1.xpos_p yp flagsp s1.prevp s1.prevpidx leftp p en yn
            p_start 1 (some s1.b) with
        | .error err => .error err
        | .ok r =>
          .ok { s1 with
                xpos_p := r.dx,
                xpos := if en.isNone = true then r.dx else s1.xpos,
                b := r.ret.getD s1.b,
                prevp := some p,
                prevpidx := p_start,
                drawn := s1.drawn ++ r.drawn }

/-- The `for` loop of `print_dualstack` over the list of base pairs. -/
def dualstack_loop (C : Env) (gp_l_n gp_l_p : Option node_t) (yn yp : Int) :
    DualState → List gate_pairs → Except Fatal DualState
  | s, [] => .ok s
  | s, tmp :: rest =>
    match dualstack_step C gp_l_n gp_l_p yn yp s tmp rest.head? with
    | .error err => .error err
    | .ok s1 => dualstack_loop C gp_l_n gp_l_p yn yp s1 rest

/-- What `print_dualstack` leaves behind: the accumulator it returns, the final
cursors `xpos` (N row) and `xpos_p` (P row), and the drawing requests. -/
structure DualResult where
  b : BBox
  xpos : Int
  xpos_p : Int
  drawn : List Draw
  deriving DecidableEq, Repr

/-- The state of `print_dualstack` before the first base pair: both cursors at
`dx = 0`, the accumulator zeroed, no previous edge and no left node. -/
def dualInit : DualState :=
  { xpos := 0, xpos_p := 0, b := zeroBBox, firstp := true, firstn := true,
    prevp := none, prevn := none, prevpidx := 0, prevnidx := 0,
    leftp := none, leftn := none, drawn := [] }

/-- The body of `print_dualstack (L, gp, diffspace)` with the final cursors and
the drawing log kept next to the returned accumulator.  The rows are centred at
`yp = +diffspace/2` (C division) and `yn = yp - diffspace`. -/
def print_dualstack_run (C : Env) (gp : gate_pairs) (diffspace : Int) :
    Except Fatal DualResult :=
  let yp : Int := Int.tdiv diffspace 2
  let yn : Int := yp - diffspace
  match gp with
  | .basepair en ep l_n l_p n_start p_start =>
    match en, ep with
    | some n, some p =>
      let xpos : Int := 0
      let xpos_p : Int := 0
      let flags : Nat := EDGE_FLAGS_LEFT ||| EDGE_FLAGS_RIGHT
      match locate_fetedge_at C xpos flags none 0 l_n n n_start with
      | .error err => .error err
      | .ok fposn =>
        match locate_fetedge_at C xpos flags none 0 l_p p p_start with
        | .error err => .error err
        | .ok fposp =>
          let padn : Int := (compute_pad fposn fposp).1
          let padp : Int := (compute_pad fposn fposp).2
          match emit_rectangle_at C padn xpos yn flags none 0 l_n n (some p) yp
              n_start (-1) (some zeroBBox) with
          | .error err => .error err
          | .ok rn =>
            match emit_rectangle_at C padp xpos_p yp flags none 0 l_p p (some n) yn
                p_start 1 (some (rn.ret.getD zeroBBox)) with
            | .error err => .error err
            | .ok rp =>
              .ok { b := rp.ret.getD (rn.ret.getD zeroBBox),
                    xpos := rn.dx, xpos_p := rp.dx,
                    drawn := rn.drawn ++ rp.drawn }
    | _, _ => .error .nullDeref
  | .composite l l_n l_p =>
    match l with
    | [] => .error .nullDeref
    | tmp :: _ =>
      if tmp.e_n.isNone = true ∧ tmp.e_p.isNone = true then .error .assertHmm
      else
        match dualstack_loop C l_n l_p yn yp dualInit l with
        | .error err => .error err
        | .ok s => .ok { b := s.b, xpos := s.xpos, xpos_p := s.xpos_p, drawn := s.drawn }

/-- The function `print_dualstack (L, gp, diffspace)`: the accumulator it
returns. -/
def print_dualstack (C : Env) (gp : gate_pairs) (diffspace : Int) : Except Fatal BBox :=
  match print_dualstack_run C gp diffspace with
  | .error err => .error err
  | .ok r => .ok r.b

/-! ## Specification-side definitions -/

/-- Spec 4.1 step 1: `spc`, the larger of fet spacing and poly spacing at the
previous edge's length and at the current edge's length (`0` for an absent
previous edge). -/
def spc_of (C : Env) (prev : Option edge_t) (e : edge_t) : Int :=
  max (max (match prev with
            | some pe => max ((C.getFet e.type e.flavor).getSpacing (getlength C pe))
                             (C.getPoly.getSpacing (getlength C pe))
            | none => 0)
        ((C.getFet e.type e.flavor).getSpacing (getlength C e)))
    (C.getPoly.getSpacing (getlength C e))

/-- Width of the previous edge at its fold index (`0` when there is none). -/
def prev_width (C : Env) (prev : Option edge_t) (previdx : Int) : Int :=
  match prev with
  | some pe => getwidth C previdx pe
  | none => 0

/-- Spec 4.1: notch spacing, raised to account for a contact. -/
def notch_of (d : DiffMat) (e_w : Int) (contact : Bool) : Int :=
  if contact = true then max d.getNotchSpacing (d.viaSpaceMid - d.effOverhang e_w false)
  else d.getNotchSpacing

/-- Spec 4.1: the transition kind, `0` same width or left boundary, `1`
up-notch, `-1` down-notch. -/
def fet_type_of (flags : Nat) (prev_w e_w : Int) : Int :=
  if flags &&& EDGE_FLAGS_LEFT ≠ 0 then 0
  else if prev_w = e_w then 0
  else if prev_w < e_w then 1
  else -1

/-- Spec 4.1 steps 2 and 3: the required distance, the first increment. -/
def first_of (d : DiffMat) (spc : Int) (flags : Nat) (prev_w e_w : Int) (contact : Bool) : Int :=
  if flags &&& EDGE_FLAGS_LEFT ≠ 0 then d.effOverhang e_w contact
  else if prev_w = e_w then (if contact = true then max spc d.viaSpaceMid else spc)
  else if prev_w < e_w then max (notch_of d e_w contact) spc
  else d.effOverhang e_w false

/-- Spec 4.1 step 3: the second increment of a notch (`0` without a notch). -/
def second_of (d : DiffMat) (flags : Nat) (prev_w e_w : Int) (contact : Bool) : Int :=
  if flags &&& EDGE_FLAGS_LEFT ≠ 0 then 0
  else if prev_w = e_w then 0
  else if prev_w < e_w then d.effOverhang e_w false
  else notch_of d e_w contact

/-- Spec 4.2 (4): the closing diffusion of the right boundary (`0` elsewhere). -/
def closing_of (d : DiffMat) (flags : Nat) (e_w : Int) (left : node_t) (e : edge_t) : Int :=
  if flags &&& EDGE_FLAGS_RIGHT ≠ 0 then
    d.effOverhang e_w (if left.id = e.a.id then e.b else e.a).contact
  else 0

/-- The accumulator `emit_rectangle` starts from: `*ret`, or the zero box when
`ret` is `NULL`, with `flavor` set to the flavor of the edge. -/
def start_box (ret : Option BBox) (e : edge_t) : BBox :=
  { (match ret with
     | some r => r
     | none => { flavor := 0, p := ⟨0, 0, 0, 0⟩, n := ⟨0, 0, 0, 0⟩ }) with flavor := e.flavor }

/-- Every value returned by the rule facade is strictly positive: the diffusion
overhang with and without contact, the notch spacing, the via mid-spacing, the
fet spacing and the poly spacing, for every device type and flavor. -/
def RulesPositive (C : Env) : Prop :=
  ∀ (t : EdgeType) (fl : Nat),
    (∀ w c, 0 < (C.getDiff t fl).effOverhang w c) ∧
    0 < (C.getDiff t fl).getNotchSpacing ∧
    0 < (C.getDiff t fl).viaSpaceMid ∧
    (∀ l, 0 < (C.getFet t fl).getSpacing l) ∧
    (∀ l, 0 < C.getPoly.getSpacing l)

/-! ## Concrete rule sets and stacks used in the examples -/

/-- A diffusion rule table: overhang `3` up to width `2` and `4` above (`10` next
to a contact), notch spacing `2`, via mid-spacing `7`, opposite-diffusion
spacing `6`. -/
def exDiff : DiffMat :=
  { effOverhang := fun w c => if c = true then 10 else if w ≤ 2 then 3 else 4,
    getNotchSpacing := 2,
    viaSpaceMid := 7,
    getOppDiffSpacing := fun _ => 6 }

/-- A transistor rule table: spacing `2` up to length `1` and `3` above. -/
def exFet : FetMat := { getSpacing := fun l => if l ≤ 1 then 2 else 3 }

/-- A poly rule table: spacing `3` up to length `1` and `4` above, overhang `1`,
notch overhang `2`, end-of-line rule `2`. -/
def exPoly : PolyMat :=
  { getSpacing := fun l => if l ≤ 1 then 3 else 4,
    getOverhang := fun _ => 1,
    getNotchOverhang := fun _ => 2,
    getEol := 2 }

/-- An environment with unit scale in which every fold of an edge has the full
width of the edge. -/
def exEnv : Env :=
  { getDiff := fun _ _ => exDiff,
    getFet := fun _ _ => exFet,
    getPoly := exPoly,
    _lambda_to_scale := 1,
    EDGE_WIDTH := fun e _ => e.w }

/-- A node without contact. -/
def exNode (i : Nat) : node_t := { id := i, contact := false }

/-- A node with a contact. -/
def exContact (i : Nat) : node_t := { id := i, contact := true }

/-- An edge of flavor `0` between the contact-free nodes `a` and `b`. -/
def exEdge (t : EdgeType) (a b : Nat) (w l : Int) : edge_t :=
  { g := exNode 100, a := exNode a, b := exNode b, w := w, l := l, flavor := 0, type := t }

/-- A degenerate diffusion table: the overhang of width `4` away from a contact
is `0`. -/
def degDiff : DiffMat :=
  { effOverhang := fun w c => if c = true then 5 else if w = 4 then 0 else 3,
    getNotchSpacing := 2,
    viaSpaceMid := 7,
    getOppDiffSpacing := fun _ => 6 }

/-- The environment `exEnv` with the degenerate diffusion table. -/
def degEnv : Env := { exEnv with getDiff := fun _ _ => degDiff }

/-- The rule set `C2` is no smaller than `C1`: the same scale and fold widths,
and every spacing value of `C2` (diffusion overhang, notch spacing, via
mid-spacing, fet spacing, poly spacing) at least the value of `C1`.  Two rule
sets that differ in exactly one such value, the second one larger, are related
in this way. -/
def RulesLE (C1 C2 : Env) : Prop :=
  C1._lambda_to_scale = C2._lambda_to_scale ∧
  (∀ e i, C1.EDGE_WIDTH e i = C2.EDGE_WIDTH e i) ∧
  (∀ t fl w c, (C1.getDiff t fl).effOverhang w c ≤ (C2.getDiff t fl).effOverhang w c) ∧
  (∀ t fl, (C1.getDiff t fl).getNotchSpacing ≤ (C2.getDiff t fl).getNotchSpacing) ∧
  (∀ t fl, (C1.getDiff t fl).viaSpaceMid ≤ (C2.getDiff t fl).viaSpaceMid) ∧
  (∀ t fl l, (C1.getFet t fl).getSpacing l ≤ (C2.getFet t fl).getSpacing l) ∧
  (∀ l, C1.getPoly.getSpacing l ≤ C2.getPoly.getSpacing l)

/-- The example rule set with the notch spacing raised from `2` to `5`. -/
def exEnvWide : Env :=
  { exEnv with getDiff := fun _ _ => { exDiff with getNotchSpacing := 5 } }

/-- A single N stack of three edges with widths `2`, `4`, `2` and lengths `1`,
`1`, `1` on the contact-free nodes `1` to `4`. -/
def exStack242 : List StkItem :=
  [.node (exNode 1), .edge (exEdge .EDGE_NFET 1 2 2 1), .idx 0,
   .node (exNode 2), .edge (exEdge .EDGE_NFET 2 3 4 1), .idx 0,
   .node (exNode 3), .edge (exEdge .EDGE_NFET 3 4 2 1), .idx 0,
   .node (exNode 4)]

/-- What `print_singlestack` leaves behind on `exStack242` under `exEnv`: six
diffusion rectangles, three gates with their poly rectangles, final cursor
`21`. -/
def exRun242 : StackResult :=
  { b := { flavor := 0, p := ⟨0, 0, 0, 0⟩, n := ⟨0, 0, 21, 4⟩ },
    xpos := 21,
    drawn :=
      [.DrawDiff 0 .EDGE_NFET 0 0 3 2 none,
       .DrawFet 0 .EDGE_NFET 3 0 1 2 none,
       .DrawPoly 3 (-1) 1 1 (some (exNode 100)),
       .DrawPoly 3 2 1 1 none,
       .DrawDiff 0 .EDGE_NFET 4 0 3 2 none,
       .DrawDiff 0 .EDGE_NFET 7 0 4 4 none,
       .DrawFet 0 .EDGE_NFET 11 0 1 4 none,
       .DrawPoly 11 (-1) 1 1 (some (exNode 100)),
       .DrawPoly 11 4 1 2 none,
       .DrawDiff 0 .EDGE_NFET 12 0 3 4 none,
       .DrawDiff 0 .EDGE_NFET 15 0 2 2 none,
       .DrawFet 0 .EDGE_NFET 17 0 1 2 none,
       .DrawPoly 17 (-1) 1 1 (some (exNode 100)),
       .DrawPoly 17 2 1 2 none,
       .DrawDiff 0 .EDGE_NFET 18 0 3 2 (some (exNode 4))] }

/-- What `print_singlestack` leaves behind on `exStack242` under `exEnvWide`:
the two notch-spacing rectangles grow from `3` and `2` to `5`, final cursor
`26`. -/
def exRun242Wide : StackResult :=
  { b := { flavor := 0, p := ⟨0, 0, 0, 0⟩, n := ⟨0, 0, 26, 4⟩ },
    xpos := 26,
    drawn :=
      [.DrawDiff 0 .EDGE_NFET 0 0 3 2 none,
       .DrawFet 0 .EDGE_NFET 3 0 1 2 none,
       .DrawPoly 3 (-1) 1 1 (some (exNode 100)),
       .DrawPoly 3 2 1 1 none,
       .DrawDiff 0 .EDGE_NFET 4 0 5 2 none,
       .DrawDiff 0 .EDGE_NFET 9 0 4 4 none,
       .DrawFet 0 .EDGE_NFET 13 0 1 4 none,
       .DrawPoly 13 (-1) 1 1 (some (exNode 100)),
       .DrawPoly 13 4 1 2 none,
       .DrawDiff 0 .EDGE_NFET 14 0 3 4 none,
       .DrawDiff 0 .EDGE_NFET 17 0 5 2 none,
       .DrawFet 0 .EDGE_NFET 22 0 1 2 none,
       .DrawPoly 22 (-1) 1 1 (some (exNode 100)),
       .DrawPoly 22 2 1 2 none,
       .DrawDiff 0 .EDGE_NFET 23 0 3 2 (some (exNode 4))] }

/-- Whether a drawing request is a diffusion rectangle. -/
def Draw.isDiff : Draw → Bool
  | .DrawDiff _ _ _ _ _ _ _ => true
  | .DrawFet _ _ _ _ _ _ _ => false
  | .DrawPoly _ _ _ _ _ => false

/-- The size `(width, height)` of a drawn rectangle. -/
def Draw.size : Draw → Int × Int
  | .DrawDiff _ _ _ _ wx wy _ => (wx, wy)
  | .DrawFet _ _ _ _ wx wy _ => (wx, wy)
  | .DrawPoly _ _ wx wy _ => (wx, wy)

/-- The x coordinate at which a rectangle is drawn. -/
def Draw.x : Draw → Int
  | .DrawDiff _ _ x _ _ _ _ => x
  | .DrawFet _ _ x _ _ _ _ => x
  | .DrawPoly x _ _ _ _ => x

/-- The height a row gives to a rectangle over the width `h`: `-yup*h` below
the centre line (`yup < 0`), `yup*h` above. -/
def span (yup h : Int) : Int := if yup < 0 then -yup * h else yup * h

/-- A list of sizes with the width of entry `k` increased by `pad`. -/
def widen (pad : Int) : Nat → List (Int × Int) → List (Int × Int)
  | _, [] => []
  | 0, s :: rest => (s.1 + pad, s.2) :: rest
  | k + 1, s :: rest => s :: widen pad k rest

/-- Whether a drawing request is a gate (fet) rectangle. -/
def Draw.isFet : Draw → Bool
  | .DrawDiff _ _ _ _ _ _ _ => false
  | .DrawFet _ _ _ _ _ _ _ => true
  | .DrawPoly _ _ _ _ _ => false

/-- The example environment with edges drawn in two folds, the fold widths
being those of the netlist header for two folds: fold `i` of an edge of total
width `w` is `w / 2` wide, plus one for the first `w % 2` folds. -/
def foldEnv : Env :=
  { exEnv with EDGE_WIDTH := fun e i => e.w / 2 + (if i < e.w % 2 then 1 else 0) }

/-- A base pair whose N edge is fold `1` of an edge of total width `5` (fold `0`
is `3` wide, fold `1` is `2` wide) and whose P edge is fold `0` of an edge of
total width `4`. -/
def exFoldPair : gate_pairs :=
  .basepair (some (exEdge .EDGE_NFET 1 2 5 1)) (some (exEdge .EDGE_PFET 11 12 4 1))
    (some (exNode 1)) (some (exNode 11)) 1 0

/-- A base pair with an N edge of width `2` and a P edge of width `4`, both of
length `1`, every fold having the full width. -/
def exWidePair : gate_pairs :=
  .basepair (some (exEdge .EDGE_NFET 1 2 2 1)) (some (exEdge .EDGE_PFET 11 12 4 1))
    (some (exNode 1)) (some (exNode 11)) 0 0

/-- A composite dual stack with an N row of two edges and a P row of one edge:
the second base pair has only an N edge. -/
def exTwoOne : gate_pairs :=
  .composite
    [.basepair (some (exEdge .EDGE_NFET 1 2 2 1)) (some (exEdge .EDGE_PFET 11 12 4 1))
       none none 0 0,
     .basepair (some (exEdge .EDGE_NFET 2 3 2 1)) none none none 0 0]
    (some (exNode 1)) (some (exNode 11))

/-- The last base pair of a dual stack: the base pair itself, or the last cell
of the composite list. -/
def gate_pairs.lastPair : gate_pairs → Option gate_pairs
  | .basepair n p l_n l_p n_start p_start => some (.basepair n p l_n l_p n_start p_start)
  | .composite gp _ _ => gp.getLast?

/-- What `print_dualstack` leaves behind on `exFoldPair` under `foldEnv`: the N
gate at `x = 3`, the P gate at `x = 4`. -/
def exFoldRun : DualResult :=
  { b := { flavor := 0, p := ⟨0, 5, 8, 7⟩, n := ⟨0, -7, 7, -5⟩ },
    xpos := 7,
    xpos_p := 8,
    drawn :=
      [.DrawDiff 0 .EDGE_NFET 0 (-7) 3 2 none,
       .DrawFet 0 .EDGE_NFET 3 (-7) 1 2 none,
       .DrawPoly 3 (-5) 1 1 (some (exNode 100)),
       .DrawPoly 3 (-8) 1 1 none,
       .DrawDiff 0 .EDGE_NFET 4 (-7) 3 2 (some (exNode 2)),
       .DrawDiff 0 .EDGE_PFET 0 5 4 2 none,
       .DrawFet 0 .EDGE_PFET 4 5 1 2 none,
       .DrawPoly 4 4 1 1 (some (exNode 100)),
       .DrawPoly 4 7 1 1 none,
       .DrawDiff 0 .EDGE_PFET 5 5 3 2 (some (exNode 12))] }

/-- What `print_dualstack` leaves behind on `exWidePair` under `exEnv`: both
gates at `x = 4`, final cursors `8` (N row) and `9` (P row). -/
def exWideRun : DualResult :=
  { b := { flavor := 0, p := ⟨0, 5, 9, 9⟩, n := ⟨0, -7, 8, -5⟩ },
    xpos := 8,
    xpos_p := 9,
    drawn :=
      [.DrawDiff 0 .EDGE_NFET 0 (-7) 4 2 none,
       .DrawFet 0 .EDGE_NFET 4 (-7) 1 2 none,
       .DrawPoly 4 (-5) 1 1 (some (exNode 100)),
       .DrawPoly 4 (-8) 1 1 none,
       .DrawDiff 0 .EDGE_NFET 5 (-7) 3 2 (some (exNode 2)),
       .DrawDiff 0 .EDGE_PFET 0 5 4 4 none,
       .DrawFet 0 .EDGE_PFET 4 5 1 4 none,
       .DrawPoly 4 4 1 1 (some (exNode 100)),
       .DrawPoly 4 9 1 1 none,
       .DrawDiff 0 .EDGE_PFET 5 5 4 4 (some (exNode 12))] }

/-- What `print_dualstack` leaves behind on `exTwoOne` under `exEnv`: both final
cursors at `12`. -/
def exTwoOneRun : DualResult :=
  { b := { flavor := 0, p := ⟨0, 5, 9, 9⟩, n := ⟨0, -7, 12, -5⟩ },
    xpos := 12,
    xpos_p := 12,
    drawn :=
      [.DrawDiff 0 .EDGE_NFET 0 (-7) 4 2 none,
       .DrawFet 0 .EDGE_NFET 4 (-7) 1 2 none,
       .DrawPoly 4 (-5) 1 1 (some (exNode 100)),
       .DrawPoly 4 (-8) 1 1 none,
       .DrawDiff 0 .EDGE_PFET 0 5 4 4 none,
       .DrawFet 0 .EDGE_PFET 4 5 1 4 none,
       .DrawPoly 4 4 1 1 (some (exNode 100)),
       .DrawPoly 4 9 1 1 none,
       .DrawDiff 0 .EDGE_PFET 5 5 4 4 (some (exNode 12)),
       .DrawDiff 0 .EDGE_NFET 5 (-7) 3 2 none,
       .DrawFet 0 .EDGE_NFET 8 (-7) 1 2 none,
       .DrawPoly 8 (-5) 1 1 (some (exNode 100)),
       .DrawPoly 8 (-8) 1 1 none,
       .DrawDiff 0 .EDGE_NFET 9 (-7) 3 2 (some (exNode 3))] }

/-! ## The grid snapper and the boundary computation -/

/-- The function `snap_up (long w, unsigned long pitch)` (stk_layout.cc 37-53).
The operator `%` is applied to non-negative values only, where the C remainder
and `Int.emod` agree; the unsigned intermediate results stay in range. -/
def snap_up (w : Int) (pitch : Nat) : Int :=
  if w ≥ 0 then
    if w % (pitch : Int) ≠ 0 then w + ((pitch : Int) - w % (pitch : Int)) else w
  else
    let w := -w
    let w :=
      if w % (pitch : Int) ≠ 0 then (w + ((pitch : Int) - w % (pitch : Int))) - (pitch : Int)
      else w
    (-w)

/-- The function `snap_dn (long w, unsigned long pitch)` (stk_layout.cc 55-71). -/
def snap_dn (w : Int) (pitch : Nat) : Int :=
  if w ≥ 0 then
    if w % (pitch : Int) ≠ 0 then w - w % (pitch : Int) else w
  else
    let w := -w
    let w :=
      if w % (pitch : Int) ≠ 0 then (w - w % (pitch : Int)) + (pitch : Int)
      else w
    (-w)

/-- The alignment pitches and the metal count read by the boundary computation:
`_m_align_x->getPitch ()`, `_m_align_y->getPitch ()`, `Technology::T->nmetals`. -/
structure Align where
  pitch_x : Nat
  pitch_y : Nat
  nmetals : Int

/-- `ActStackLayoutPass::snap_up_x`. -/
def snap_up_x (A : Align) (w : Int) : Int := snap_up w A.pitch_x

/-- `ActStackLayoutPass::snap_dn_x`. -/
def snap_dn_x (A : Align) (w : Int) : Int := snap_dn w A.pitch_x

/-- `ActStackLayoutPass::snap_up_y`. -/
def snap_up_y (A : Align) (w : Int) : Int := snap_up w A.pitch_y

/-- `ActStackLayoutPass::snap_dn_y`. -/
def snap_dn_y (A : Align) (w : Int) : Int := snap_dn w A.pitch_y

/-- What `computeLEFBoundary` returns: `NULL`, the blob itself, or the blob
merged with a base blob whose bounding box was set to `box`. -/
inductive Boundary where
  | null
  | unchanged
  | merged (box : Rect)
  deriving DecidableEq, Repr

/-- The function `computeLEFBoundary (b)` (stk_layout.cc 2846-2914).  The blob
is represented by its bloated bounding box (`b->getBloatBBox`), `none` standing
for a `NULL` blob. -/
def computeLEFBoundary (A : Align) (b : Option Rect) : Except Fatal Boundary :=
  match b with
  | none => .ok .null
  | some bb =>
    if bb.urx < bb.llx ∨ bb.ury < bb.lly then .ok .unchanged
    else if A.nmetals ≥ 3 then
      let nllx := snap_dn_x A bb.llx
      let nurx := snap_up_x A (bb.urx + 1) - 1
      let nlly := snap_dn_y A bb.lly
      let nury := snap_up_y A (bb.ury + 1) - 1
      .ok (.merged { llx := nllx, lly := nlly, urx := nurx, ury := nury })
    else .error .assertHmm

/-- An alignment grid with x pitch `5`, y pitch `4` and three metal layers. -/
def exAlign : Align := { pitch_x := 5, pitch_y := 4, nmetals := 3 }

/-- A content box from `(-7, 1)` to `(12, 9)`. -/
def exContent : Rect := { llx := -7, lly := 1, urx := 12, ury := 9 }

/-! ## The diffusion-separation model -/

/-- A group of the list returned by `stk->getStacks (p)`: the dual stacks (gate
pairs) come first, then the groups of single N and single P stacks. -/
inductive StackGroup where
  | dual (l : List gate_pairs)
  | single (l : List (List StkItem))

/-- The locals of `_localdiffspace` that change during the scan. -/
structure SepState where
  poly_potential : Int
  spc_default : Int
  flavor : Int
  poly_overhang : Int
  deriving DecidableEq, Repr

/-- The locals of `_localdiffspace` before the scan: `poly_potential = 0`,
`spc_default = 0`, `flavor = -1`, `poly_overhang = 0`. -/
def sepInit : SepState :=
  { poly_potential := 0, spc_default := 0, flavor := -1, poly_overhang := 0 }

/-- The block on a base pair with both edges (stk_layout.cc 2953-2961 and
2983-2992): the running maximum of the poly overhang at both lengths, and the
flag for differing gates. -/
def sep_poly (C : Env) (st : SepState) (n p : edge_t) : SepState :=
  let poly_overhang := MAX st.poly_overhang (C.getPoly.getOverhang (getlength C n))
  let poly_overhang := MAX poly_overhang (C.getPoly.getOverhang (getlength C p))
  { st with
    poly_overhang := poly_overhang,
    poly_potential := if n.g.id ≠ p.g.id then 1 else st.poly_potential }

/-- The guarded lookup of the opposite-diffusion spacing (e.g. stk_layout.cc
2963-2967): when the cached `flavor` differs from `fl`, the cache is set to `fl`
and `spc_default` is raised to `diff[type][fl]->getOppDiffSpacing (fl)`. -/
def sep_flavor (C : Env) (st : SepState) (type : EdgeType) (fl : Nat) : SepState :=
  if st.flavor ≠ (fl : Int) then
    { st with
      flavor := (fl : Int),
      spc_default := MAX st.spc_default ((C.getDiff type fl).getOppDiffSpacing fl) }
  else st

/-- The body of the scan for a gate pair that is a base pair (stk_layout.cc
2953-2975).  The block for the P edge compares and loads `gp->u.e.n->flavor`. -/
def sep_basepair (C : Env) (st : SepState) (en ep : Option edge_t) : Except Fatal SepState :=
  let st : SepState :=
    match en, ep with
    | some n, some p => sep_poly C st n p
    | _, _ => st
  let st : SepState :=
    match en with
    | some n => sep_flavor C st .EDGE_NFET n.flavor
    | none => st
  match ep with
  | none => .ok st
  | some _ =>
    match en with
    | none => .error .nullDeref
    | some n => .ok (sep_flavor C st .EDGE_PFET n.flavor)

/-- The body of the inner loop for one cell of a composite (stk_layout.cc
2980-3006).  The block for the P edge compares and loads `tmp->u.e.p->flavor`. -/
def sep_composite_pair (C : Env) (st : SepState) (tmp : gate_pairs) : Except Fatal SepState :=
  match tmp with
  | .composite _ _ _ => .error .assertWhat
  | .basepair en ep _ _ _ _ =>
    let st : SepState :=
      match en, ep with
      | some n, some p => sep_poly C st n p
      | _, _ => st
    let st : SepState :=
      match en with
      | some n => sep_flavor C st .EDGE_NFET n.flavor
      | none => st
    let st : SepState :=
      match ep with
      | some p => sep_flavor C st .EDGE_PFET p.flavor
      | none => st
    .ok st

/-- The inner `for` loop over the cells of a composite (stk_layout.cc
2979-3007). -/
def sep_composite (C : Env) : SepState → List gate_pairs → Except Fatal SepState
  | st, [] => .ok st
  | st, tmp :: rest =>
    match sep_composite_pair C st tmp with
    | .error err => .error err
    | .ok st1 => sep_composite C st1 rest

/-- The body of the outer loop for one dual stack (stk_layout.cc 2950-3008). -/
def sep_stack (C : Env) (st : SepState) (gp : gate_pairs) : Except Fatal SepState :=
  match gp with
  | .basepair en ep _ _ _ _ => sep_basepair C st en ep
  | .composite l _ _ => sep_composite C st l

/-- The outer `for` loop over the dual stacks (stk_layout.cc 2949-3009). -/
def sep_scan (C : Env) : SepState → List gate_pairs → Except Fatal SepState
  | st, [] => .ok st
  | st, gp :: rest =>
    match sep_stack C st gp with
    | .error err => .error err
    | .ok st1 => sep_scan C st1 rest

/-- The function `ActStackLayoutPass::_localdiffspace (p)` (stk_layout.cc
2921-3023) on the stack list `stk->getStacks (p)` of the process.  The edge
lengths are read through `getlength`, that is with the file-level
`_lambda_to_scale` of `C`. -/
def _localdiffspace (C : Env) (stks : Option (List StackGroup)) : Except Fatal Int :=
  match stks with
  | none => .ok 0
  | some [] => .ok 0
  | some (.single _ :: _) => .error .nullDeref
  | some (.dual stklist :: _) =>
    let scanned : Except Fatal SepState :=
      if stklist.length > 0 then sep_scan C sepInit stklist else .ok sepInit
    match scanned with
    | .error err => .error err
    | .ok st =>
      if st.poly_potential ≠ 0 then
        .ok (MAX (st.poly_overhang * 2 + MAX C.getPoly.getEol (C.getPoly.getSpacing 0))
              st.spc_default)
      else .ok st.spc_default

/-- The call of `_localdiffspace` made by `_readlocalRect` (stk_layout.cc 988):
the file-level `_lambda_to_scale` is used as it stands. -/
def readlocalRect_diffspace (C : Env) (stks : Option (List StackGroup)) : Except Fatal Int :=
  _localdiffspace C stks

/-- The call of `_localdiffspace` made by `_createlocallayout` (stk_layout.cc
1042-1046): the file-level `_lambda_to_scale` is first set to the member
`lambda_to_scale` of the pass. -/
def createlocallayout_diffspace (C : Env) (lambda_to_scale : Int)
    (stks : Option (List StackGroup)) : Except Fatal Int :=
  _localdiffspace { C with _lambda_to_scale := lambda_to_scale } stks

/-! ### Specification-side quantities of the separation model -/

/-- The edges of a base pair that has both an N and a P edge. -/
def gate_pairs.both : gate_pairs → List (edge_t × edge_t)
  | .basepair (some n) (some p) _ _ _ _ => [(n, p)]
  | .basepair _ _ _ _ _ _ => []
  | .composite _ _ _ => []

/-- The base pairs with both edges among the cells of a composite. -/
def both_of_cells : List gate_pairs → List (edge_t × edge_t)
  | [] => []
  | tmp :: rest => tmp.both ++ both_of_cells rest

/-- The base pairs with both edges of one dual stack. -/
def both_of_stack : gate_pairs → List (edge_t × edge_t)
  | .basepair n p l_n l_p n_start p_start => (gate_pairs.basepair n p l_n l_p n_start p_start).both
  | .composite l _ _ => both_of_cells l

/-- The base pairs with both edges of all dual stacks of a cell. -/
def both_of_stacks : List gate_pairs → List (edge_t × edge_t)
  | [] => []
  | gp :: rest => both_of_stack gp ++ both_of_stacks rest

/-- The maximum poly overhang over both edges of the given pairs, starting from
`acc` (the scan starts from `0`). -/
def max_overhang (C : Env) (acc : Int) : List (edge_t × edge_t) → Int
  | [] => acc
  | np :: rest =>
    max_overhang C
      (max (max acc (C.getPoly.getOverhang (getlength C np.1)))
        (C.getPoly.getOverhang (getlength C np.2))) rest

/-- Whether some pair has different gate signals on its two edges. -/
def gates_differ (l : List (edge_t × edge_t)) : Bool :=
  l.any (fun np => decide (np.1.g.id ≠ np.2.g.id))

/-- What a part of the scan does to the running poly overhang and to the flag
for differing gates, in terms of the pairs with both edges it has seen. -/
def Scanned (C : Env) (st : SepState) (l : List (edge_t × edge_t)) (st1 : SepState) : Prop :=
  st1.poly_overhang = max_overhang C st.poly_overhang l ∧
  (st1.poly_potential ≠ 0 ↔ (st.poly_potential ≠ 0 ∨ gates_differ l = true))

/-- A rule set for the separation model: the opposite-diffusion spacing is `6`
for flavor `0` and `10` for the other flavors, the same for N and P diffusion;
the poly overhang is `1` at length `0` and `3` above. -/
def sepEnv : Env :=
  { exEnv with
    getDiff := fun _ _ => { exDiff with getOppDiffSpacing := fun f => if f = 0 then 6 else 10 },
    getPoly := { exPoly with getOverhang := fun l => if l ≤ 0 then 1 else 3 } }

/-- An edge of width `2` and length `1` with gate `g` and flavor `fl` between the
contact-free nodes `a` and `b`. -/
def exEdgeG (t : EdgeType) (g fl a b : Nat) : edge_t :=
  { g := exNode g, a := exNode a, b := exNode b, w := 2, l := 1, flavor := fl, type := t }

/-- A cell with one dual stack, a base pair whose N and P edges (flavor `0`) have
different gates. -/
def exCellTwoGates : Option (List StackGroup) :=
  some [.dual [.basepair (some (exEdgeG .EDGE_NFET 100 0 1 2))
                 (some (exEdgeG .EDGE_PFET 101 0 11 12))
                 (some (exNode 1)) (some (exNode 11)) 0 0],
        .single [], .single []]

/-- A base pair with a shared gate, an N edge of flavor `0` and a P edge of
flavor `1`. -/
def exMixedPair : gate_pairs :=
  .basepair (some (exEdgeG .EDGE_NFET 100 0 1 2)) (some (exEdgeG .EDGE_PFET 100 1 11 12))
    (some (exNode 1)) (some (exNode 11)) 0 0

/-- A cell whose only dual stack is the base pair `exMixedPair`. -/
def exCellMixedBase : Option (List StackGroup) :=
  some [.dual [exMixedPair], .single [], .single []]

/-- A cell whose only dual stack is a composite with the single cell
`exMixedPair`. -/
def exCellMixedComposite : Option (List StackGroup) :=
  some [.dual [.composite [exMixedPair] (some (exNode 1)) (some (exNode 11))],
        .single [], .single []]

/-- The scan of `_localdiffspace` dereferences no null pointer and fails no
assertion on this dual stack: a base pair with a P edge also has an N edge, and
the cells of a composite are base pairs. -/
def gate_pairs.scannable : gate_pairs → Bool
  | .basepair en ep _ _ _ _ => en.isSome || !ep.isSome
  | .composite l _ _ =>
    l.all (fun tmp =>
      match tmp with
      | .basepair _ _ _ _ _ _ => true
      | .composite _ _ _ => false)

/-- The call of `_localdiffspace` made by `run` for the well-tap geometry
(stk_layout.cc 1372): the file-level `_lambda_to_scale` is used as it stands. -/
def run_diffspace (C : Env) (stks : Option (List StackGroup)) : Except Fatal Int :=
  _localdiffspace C stks

/-- The rule set `sepEnv` before any cell has been generated: the file-level
`static int _lambda_to_scale` (stk_layout.cc 241) still has its initial value
`0`. -/
def sepEnvUnset : Env := { sepEnv with _lambda_to_scale := 0 }

/-- A cell whose only dual stack is a base pair with a P edge and no N edge. -/
def exCellOnlyP : Option (List StackGroup) :=
  some [.dual [.basepair none (some (exEdgeG .EDGE_PFET 100 0 11 12))
                 none (some (exNode 11)) 0 0],
        .single [], .single []]

/-- The vertical extent `(y, height)` of a poly rectangle; `none` for a
diffusion or gate rectangle. -/
def Draw.polyExtent : Draw → Option (Int × Int)
  | .DrawDiff _ _ _ _ _ _ _ => none
  | .DrawFet _ _ _ _ _ _ _ => none
  | .DrawPoly _ y _ wy _ => some (y, wy)

/-- The vertical extents of the poly rectangles of a drawing log, in order. -/
def polys (l : List Draw) : List (Int × Int) := l.filterMap Draw.polyExtent

/-- The centre line of the P row, `yp = +diffspace/2` (stk_layout.cc 671). -/
def row_yp (diffspace : Int) : Int := Int.tdiv diffspace 2

/-- The centre line of the N row, `yn = yp - diffspace` (stk_layout.cc 672). -/
def row_yn (diffspace : Int) : Int := row_yp diffspace - diffspace

/-- A rule set with a poly overhang of `3` and an opposite-diffusion spacing of
`2`. -/
def tightEnv : Env :=
  { exEnv with
    getDiff := fun _ _ => { exDiff with getOppDiffSpacing := fun _ => 2 },
    getPoly := { exPoly with getOverhang := fun _ => 3 } }

/-- A base pair with a shared gate and both edges of width `2` and length `1`. -/
def exTightPair : gate_pairs :=
  .basepair (some (exEdgeG .EDGE_NFET 100 0 1 2)) (some (exEdgeG .EDGE_PFET 100 0 11 12))
    (some (exNode 1)) (some (exNode 11)) 0 0

/-! ### The boundary flags of the composite loop -/

/-- The boundary flags of one row in one iteration of the loop of
`print_dualstack` (stk_layout.cc 716-742): `first` is the row's `firstn` or
`firstp`, `e` the row's edge of the base pair, `next` the row's edge of the next
list cell (`none` when there is no next cell). -/
def boundary_flags (first : Bool) (e : Option edge_t) (next : Option (Option edge_t)) : Nat :=
  let flags : Nat := if first = true ∧ e.isSome = true then 0 ||| EDGE_FLAGS_LEFT else 0
  match next with
  | none => flags ||| EDGE_FLAGS_RIGHT
  | some tnext => if tnext.isNone = true then flags ||| EDGE_FLAGS_RIGHT else flags

/-- The row's `first` variable after the iteration (stk_layout.cc 720-727). -/
def first_after (first : Bool) (e : Option edge_t) : Bool :=
  if first = true ∧ e.isSome = true then false else first

/-- The iteration of the loop of `print_dualstack` from line 744 on, with the
boundary flags and the updated `firstn`, `firstp` in hand. -/
def dualstack_emit (C : Env) (gp_l_n gp_l_p : Option node_t) (yn yp : Int)
    (s : DualState) (en ep : Option edge_t) (n_start p_start : Int)
    (flagsn flagsp : Nat) (firstn firstp : Bool) : Except Fatal DualState :=
  match advance_left en.isSome s.leftn gp_l_n s.prevn with
  | .error err => .error err
  | .ok leftn =>
  match advance_left ep.isSome s.leftp gp_l_p s.prevp with
  | .error err => .error err
  | .ok leftp =>
  let pads : Except Fatal (Int × Int) :=
    match en, ep with
    | some n, some p =>
      match locate_fetedge_at C s.xpos flagsn s.prevn s.prevnidx leftn n n_start with
      | .error err => .error err
      | .ok fposn =>
        match locate_fetedge_at C s.xpos_p flagsp s.prevp s.prevpidx leftp p p_start with
        | .error err => .error err
        | .ok fposp => .ok (compute_pad fposn fposp)
    | _, _ => .ok (0, 0)
  match pads with
  | .error err => .error err
  | .ok (padn, padp) =>
  let afterN : Except Fatal DualState :=
    match en with
    | none =>
      .ok { s with firstp := firstp, firstn := firstn, leftn := leftn, leftp := leftp }
    | some n =>
      match emit_rectangle_at C padn s.xpos yn flagsn s.prevn s.prevnidx leftn n ep yp
          n_start (-1) (some s.b) with
      | .error err => .error err
      | .ok r =>
        .ok { s with
              xpos := r.dx,
              xpos_p := if ep.isNone = true then r.dx else s.xpos_p,
              b := r.ret.getD s.b,
              prevn := some n,
              prevnidx := n_start,
              drawn := s.drawn ++ r.drawn,
              firstp := firstp, firstn := firstn, leftn := leftn, leftp := leftp }
  match afterN with
  | .error err => .error err
  | .ok s1 =>
    match ep with
    | none => .ok s1
    | some p =>
      match emit_rectangle_at C padp s1.xpos_p yp flagsp s1.prevp s1.prevpidx leftp p en yn
          p_start 1 (some s1.b) with
      | .error err => .error err
      | .ok r =>
        .ok { s1 with
              xpos_p := r.dx,
              xpos := if en.isNone = true then r.dx else s1.xpos,
              b := r.ret.getD s1.b,
              prevp := some p,
              prevpidx := p_start,
              drawn := s1.drawn ++ r.drawn }

/-- The flags of the `emit_rectangle` calls of the loop of `print_dualstack`, one
entry per base pair: the flags passed for the N row and for the P row, `none`
for a row without an edge in that base pair (no call is made). -/
def dualstack_calls (C : Env) (gp_l_n gp_l_p : Option node_t) (yn yp : Int) :
    DualState → List gate_pairs → Except Fatal (List (Option Nat × Option Nat))
  | _, [] => .ok []
  | s, tmp :: rest =>
    match dualstack_step C gp_l_n gp_l_p yn yp s tmp rest.head? with
    | .error err => .error err
    | .ok s1 =>
      match dualstack_calls C gp_l_n gp_l_p yn yp s1 rest with
      | .error err => .error err
      | .ok log =>
        .ok ((tmp.e_n.map (fun _ =>
                boundary_flags s.firstn tmp.e_n (rest.head?.map gate_pairs.e_n)),
              tmp.e_p.map (fun _ =>
                boundary_flags s.firstp tmp.e_p (rest.head?.map gate_pairs.e_p))) :: log)

/-- Whether cell `j` of a row holds an edge. -/
def populated (r : List (Option edge_t)) (j : Nat) : Bool :=
  match r[j]? with
  | some (some _) => true
  | _ => false

/-- The populated cells of a row are consecutive. -/
def Consecutive (r : List (Option edge_t)) : Prop :=
  ∀ i j k : Nat, i < j → j < k → populated r i = true → populated r k = true →
    populated r j = true

/-- The flags of a row, cell by cell, as the loop of `print_dualstack` computes
them from `first` on; `none` for a cell without an edge. -/
def row_trace (first : Bool) : List (Option edge_t) → List (Option Nat)
  | [] => []
  | e :: rest =>
    e.map (fun _ => boundary_flags first e rest.head?) :: row_trace (first_after first e) rest

/-- The flags of a row are local to the row: a cell has flags exactly when it
holds an edge, the left flag is set exactly on the first populated cell and the
right flag exactly on the last populated cell. -/
def RowFlagsLocal (row : List (Option edge_t)) (flags : List (Option Nat)) : Prop :=
  ∀ i : Nat,
    (populated row i = true ↔ ∃ f, flags[i]? = some (some f)) ∧
    ∀ f, flags[i]? = some (some f) →
      (f &&& EDGE_FLAGS_LEFT ≠ 0 ↔ ∀ j, j < i → populated row j = false) ∧
      (f &&& EDGE_FLAGS_RIGHT ≠ 0 ↔ ∀ j, i < j → populated row j = false)

/-- The cells of a composite with an N row of three edges and a P row of one
edge, under the second N edge. -/
def exThreeOneCells : List gate_pairs :=
  [.basepair (some (exEdge .EDGE_NFET 1 2 2 1)) none none none 0 0,
   .basepair (some (exEdge .EDGE_NFET 2 3 2 1)) (some (exEdge .EDGE_PFET 11 12 2 1))
     none none 0 0,
   .basepair (some (exEdge .EDGE_NFET 3 4 2 1)) none none none 0 0]

/-! ### The accumulator and the rectangles drawn -/

/-- The arguments of one call `emit_rectangle (L, pad, dx, dy, flags, prev,
previdx, left, e, eopp, oup, eidx, yup, &b)`. -/
structure EmitCall where
  pad : Int
  dx : Int
  dy : Int
  flags : Nat
  prev : Option edge_t
  previdx : Int
  left : node_t
  e : edge_t
  eopp : Option edge_t
  oup : Int
  eidx : Int
  yup : Int

/-- A sequence of calls of `emit_rectangle` on one accumulator, as in the loops
of `print_singlestack` and `print_dualstack`: the final accumulator and the
drawing requests in order. -/
def emit_seq (C : Env) : BBox → List Draw → List EmitCall → Except Fatal (BBox × List Draw)
  | b, ds, [] => .ok (b, ds)
  | b, ds, c :: rest =>
    match emit_rectangle C c.pad c.dx c.dy c.flags c.prev c.previdx c.left c.e c.eopp c.oup
        c.eidx c.yup (some b) with
    | .error err => .error err
    | .ok r => emit_seq C (r.ret.getD b) (ds ++ r.drawn) rest

/-- The rectangle `[x, x + wx] x [y, y + wy]` of a drawing request. -/
def Draw.rect : Draw → Rect
  | .DrawDiff _ _ x y wx wy _ => ⟨x, y, x + wx, y + wy⟩
  | .DrawFet _ _ x y wx wy _ => ⟨x, y, x + wx, y + wy⟩
  | .DrawPoly x y wx wy _ => ⟨x, y, x + wx, y + wy⟩

/-- The smallest rectangle that contains two rectangles. -/
def hull (a b : Rect) : Rect :=
  ⟨min a.llx b.llx, min a.lly b.lly, max a.urx b.urx, max a.ury b.ury⟩

/-- The bounding box of a list of rectangles; `none` for the empty list. -/
def bounding : List Rect → Option Rect
  | [] => none
  | r :: rest => some (rest.foldl hull r)

/-- Whether a drawing request is a diffusion rectangle of the polarity `t`. -/
def Draw.isDiffOf (t : EdgeType) : Draw → Bool
  | .DrawDiff _ t1 _ _ _ _ _ => decide (t1 = t)
  | .DrawFet _ _ _ _ _ _ _ => false
  | .DrawPoly _ _ _ _ _ => false

/-- The accumulator after the drawing request `d`, had every diffusion request
been followed by `update_bbox` on its two corners. -/
def grow (b : BBox) : Draw → BBox
  | .DrawDiff _ t x y wx wy _ => update_bbox b t x y (x + wx) (y + wy)
  | .DrawFet _ _ _ _ _ _ _ => b
  | .DrawPoly _ _ _ _ _ => b

/-- Whether a rectangle of the accumulator is in the empty state. -/
def Rect.isEmpty (r : Rect) : Prop := r.llx ≥ r.urx ∨ r.lly ≥ r.ury

/-- One call of `emit_rectangle` on the left and right boundary for an N edge
of width `2` and length `1`, at the origin. -/
def exCallN : EmitCall :=
  { pad := 0, dx := 0, dy := 0, flags := EDGE_FLAGS_LEFT ||| EDGE_FLAGS_RIGHT, prev := none,
    previdx := 0, left := exNode 1, e := exEdge .EDGE_NFET 1 2 2 1, eopp := none, oup := 0,
    eidx := 0, yup := -1 }

/-- One `update_bbox` step on one polarity: the rectangle `r` of the accumulator
after a rectangle with corners `(c.llx, c.lly)` and `(c.urx, c.ury)`. -/
def absorb (r c : Rect) : Rect := update_rect r c.llx c.lly c.urx c.ury

/-- The rectangles of the diffusion requests of polarity `t` in a drawing log,
in order. -/
def diff_rects (t : EdgeType) (ds : List Draw) : List Rect :=
  (ds.filter (Draw.isDiffOf t)).map Draw.rect

/-- The drawing requests of the call `exCallN` under `exEnv`. -/
def exCallNDrawn : List Draw :=
  [.DrawDiff 0 .EDGE_NFET 0 (-2) 3 2 none,
   .DrawFet 0 .EDGE_NFET 3 (-2) 1 2 none,
   .DrawPoly 3 0 1 1 (some (exNode 100)),
   .DrawPoly 3 (-3) 1 1 none,
   .DrawDiff 0 .EDGE_NFET 4 (-2) 3 2 (some (exNode 2))]

/-- The accumulator after the call `exCallN` under `exEnv`, from the zero
accumulator. -/
def exCallNBox : BBox :=
  { flavor := 0, p := ⟨0, 0, 0, 0⟩, n := ⟨0, -2, 7, 0⟩ }

/-! ## Pin placement in `_createlocallayout` (stk_layout.cc 1129-1337) -/

/-- The rules of the pin metal read by the pin placement:
`_pin_metal->minWidth ()` and `_pin_metal->minSpacing ()`. -/
structure PinMetal where
  minWidth : Int
  minSpacing : Int

/-- The `while` loop that moves the top edge (stk_layout.cc 1152-1158), from the
value `tedge` on; `none` when the fuel runs out before the loop exits. -/
def top_band_loop (A : Align) (M : PinMetal) : Nat → Int → Option Int
  | 0, _ => none
  | fuel + 1, tedge =>
    if tedge - M.minWidth ≤ (A.pitch_y : Int) + M.minWidth + M.minSpacing then
      top_band_loop A M fuel (tedge + (A.pitch_y : Int))
    else some tedge

/-- The top offset of `_createlocallayout` (stk_layout.cc 1145-1158) for a cell
of height `height = bury - blly + 1`: `tedge = snap_up_y (height)`, then the
loop. -/
def createlocallayout_tedge (A : Align) (M : PinMetal) (fuel : Nat) (height : Int) :
    Option Int :=
  top_band_loop A M fuel (snap_up_y A height)

/-- The `while` loop of a stride (stk_layout.cc 1232-1236 and 1243-1247) from
the value `s` on: the value of the stride variable when the loop exits; `none`
when the fuel runs out. -/
def stride_loop (pitch n redge : Int) : Nat → Int → Option Int
  | 0, _ => none
  | fuel + 1, s =>
    if pitch + n * s * pitch ≤ redge then stride_loop pitch n redge fuel (s + 1)
    else some s

/-- The stride chosen for `n` pins (stk_layout.cc 1231-1240 for `s_in`, 1242-1251
for `s_out`): `1` when there is no pin, else the loop from `1`, one step back,
and `1` in place of `0`. -/
def choose_stride (pitch n redge : Int) (fuel : Nat) : Option Int :=
  if n > 0 then
    match stride_loop pitch n redge fuel 1 with
    | none => none
    | some s =>
      let s := s - 1
      some (if s = 0 then 1 else s)
  else some 1

/-- A port of the booleanized netlist (`n->bN->ports[i]`) as the pin placement
reads it: `omitted` is the field `omit`, `b` is the bucket found by
`ihash_lookup` (`none` for `NULL`), holding the node `av->n` of its variable
(`none` when `bv->extra` is `NULL`). -/
structure Port where
  omitted : Bool
  input : Bool
  b : Option (Option Nat)

/-- A supply node (`n->Vdd`, `n->GND`): its identity and the length of its edge
list (`0` also when the list pointer is `NULL`). -/
structure Supply where
  id : Nat
  edges : Nat

/-- The part of the netlist read by the pin placement. -/
structure PinNetlist where
  ports : List Port
  used_globals : List (Option (Option Nat))
  Vdd : Option Supply
  GND : Option Supply
  weak_supply_vdd : Int
  weak_supply_gnd : Int

/-- The comparison `av->n == n->Vdd` (or `n->GND`). -/
def is_node (s : Option Supply) (id : Nat) : Bool :=
  match s with
  | some v => decide (v.id = id)
  | none => false

/-- The test `n->Vdd && n->Vdd->e && list_length (n->Vdd->e) > 0`. -/
def has_edges (s : Option Supply) : Bool :=
  match s with
  | some v => decide (v.edges > 0)
  | none => false

/-- The counters of the first pass over the pins. -/
structure CountState where
  p_in : Int
  p_out : Int
  found_vdd : Bool
  found_gnd : Bool
  deriving DecidableEq, Repr

/-- The update of `found_vdd`, `found_gnd` for the node `id` (stk_layout.cc
1184-1189). -/
def CountState.found (nl : PinNetlist) (st : CountState) (id : Nat) : CountState :=
  { st with
    found_vdd := if is_node nl.Vdd id then true else st.found_vdd,
    found_gnd := if is_node nl.GND id then true else st.found_gnd }

/-- One iteration of the counting loop over the ports (stk_layout.cc
1162-1190). -/
def count_port (nl : PinNetlist) (st : CountState) (p : Port) : Except Fatal CountState :=
  if p.omitted then .ok st
  else
    match p.b with
    | none => .ok st
    | some bv =>
      let st : CountState :=
        if p.input then { st with p_in := st.p_in + 1 } else { st with p_out := st.p_out + 1 }
      match bv with
      | none => .error .assertHmm
      | some id => .ok (st.found nl id)

/-- One iteration of the counting loop over the used globals (stk_layout.cc
1191-1207). -/
def count_global (nl : PinNetlist) (st : CountState) (g : Option (Option Nat)) :
    Except Fatal CountState :=
  match g with
  | none => .error .nullDeref
  | some none => .error .assertHmm
  | some (some id) => .ok ({ st with p_in := st.p_in + 1 }.found nl id)

/-- The supply and weak-supply pins of the count (stk_layout.cc 1209-1223).  The
test for `GND` reads `found_vdd`. -/
def count_supplies (nl : PinNetlist) (st : CountState) : CountState :=
  let st : CountState :=
    if st.found_vdd = false ∧ has_edges nl.Vdd = true then
      { st with p_in := st.p_in + 1, found_vdd := true }
    else st
  let st : CountState :=
    if st.found_vdd = false ∧ has_edges nl.GND = true then
      { st with p_in := st.p_in + 1, found_gnd := true }
    else st
  let st : CountState :=
    if nl.weak_supply_vdd > 0 then { st with p_in := st.p_in + 1 } else st
  if nl.weak_supply_gnd > 0 then { st with p_in := st.p_in + 1 } else st

/-- A loop over a list with a body that may stop the pass. -/
def foldExcept {σ α : Type} (f : σ → α → Except Fatal σ) : σ → List α → Except Fatal σ
  | st, [] => .ok st
  | st, a :: rest =>
    match f st a with
    | .error err => .error err
    | .ok st1 => foldExcept f st1 rest

/-- The first pass over the pins (stk_layout.cc 1139-1223): the counters `p_in`
and `p_out`. -/
def count_pins (nl : PinNetlist) : Except Fatal CountState :=
  match foldExcept (count_port nl)
      { p_in := 0, p_out := 0, found_vdd := false, found_gnd := false } nl.ports with
  | .error err => .error err
  | .ok st =>
    match foldExcept (count_global nl) st nl.used_globals with
    | .error err => .error err
    | .ok st => .ok (count_supplies nl st)

/-- A call `DrawMetalPin (_pin_layer, x, y, w, h, net, dir)`. -/
structure MetalPin where
  x : Int
  y : Int
  w : Int
  h : Int
  net : Nat
  dir : Nat
  deriving DecidableEq, Repr

/-- The values fixed before the pins are drawn: the low corner of the cell, the
top offset and the two strides. -/
structure PinGeom where
  bllx : Int
  blly : Int
  tedge : Int
  s_in : Int
  s_out : Int

/-- The variables of the second pass over the pins: the running offsets `p_in`
and `p_out`, the supply flags and the pins drawn. -/
structure DrawState where
  p_in : Int
  p_out : Int
  found_vdd : Bool
  found_gnd : Bool
  pins : List MetalPin
  deriving DecidableEq, Repr

/-- An input pin on the top band (stk_layout.cc 1278-1281, 1307-1310, 1322-1324,
1329-1331): drawn at `(bllx + p_in, blly + tedge - w)`, then `p_in` advances by
`pitch * s_in`. -/
def draw_top (A : Align) (M : PinMetal) (G : PinGeom) (st : DrawState) (net : Nat) :
    DrawState :=
  { st with
    pins := st.pins ++
      [{ x := G.bllx + st.p_in, y := G.blly + G.tedge - M.minWidth,
         w := M.minWidth, h := M.minWidth, net := net, dir := 0 }],
    p_in := st.p_in + (A.pitch_x : Int) * G.s_in }

/-- An output pin on the bottom band (stk_layout.cc 1284-1286). -/
def draw_bottom (A : Align) (M : PinMetal) (G : PinGeom) (st : DrawState) (net : Nat) :
    DrawState :=
  { st with
    pins := st.pins ++
      [{ x := G.bllx + st.p_out, y := G.blly + (A.pitch_y : Int),
         w := M.minWidth, h := M.minWidth, net := net, dir := 1 }],
    p_out := st.p_out + (A.pitch_x : Int) * G.s_out }

/-- The update of `found_vdd`, `found_gnd` in the second pass. -/
def DrawState.found (nl : PinNetlist) (st : DrawState) (id : Nat) : DrawState :=
  { st with
    found_vdd := if is_node nl.Vdd id then true else st.found_vdd,
    found_gnd := if is_node nl.GND id then true else st.found_gnd }

/-- One iteration of the drawing loop over the ports (stk_layout.cc
1262-1296). -/
def draw_port (A : Align) (M : PinMetal) (G : PinGeom) (nl : PinNetlist) (st : DrawState)
    (p : Port) : Except Fatal DrawState :=
  if p.omitted then .ok st
  else
    match p.b with
    | none => .ok st
    | some none => .error .assertProblem
    | some (some id) =>
      let st : DrawState :=
        if p.input then draw_top A M G st id else draw_bottom A M G st id
      .ok (st.found nl id)

/-- One iteration of the drawing loop over the used globals (stk_layout.cc
1299-1319). -/
def draw_global (A : Align) (M : PinMetal) (G : PinGeom) (nl : PinNetlist) (st : DrawState)
    (g : Option (Option Nat)) : Except Fatal DrawState :=
  match g with
  | none => .error .assertHmm
  | some none => .error .assertHmm
  | some (some id) => .ok ((draw_top A M G st id).found nl id)

/-- The pin of `Vdd` in the second pass (stk_layout.cc 1320-1326). -/
def draw_vdd (A : Align) (M : PinMetal) (G : PinGeom) (nl : PinNetlist)
    (st : DrawState) : DrawState :=
  match nl.Vdd with
  | some v =>
    if st.found_vdd = false ∧ has_edges nl.Vdd = true then
      draw_top A M G { st with found_vdd := true } v.id
    else st
  | none => st

/-- The pin of `GND` in the second pass (stk_layout.cc 1327-1332). -/
def draw_gnd (A : Align) (M : PinMetal) (G : PinGeom) (nl : PinNetlist)
    (st : DrawState) : DrawState :=
  match nl.GND with
  | some g =>
    if st.found_gnd = false ∧ has_edges nl.GND = true then
      draw_top A M G { st with found_gnd := true } g.id
    else st
  | none => st

/-- The supply pins of the second pass (stk_layout.cc 1320-1332). -/
def draw_supplies (A : Align) (M : PinMetal) (G : PinGeom) (nl : PinNetlist)
    (st : DrawState) : DrawState :=
  draw_gnd A M G nl (draw_vdd A M G nl st)

/-- The second pass over the pins (stk_layout.cc 1255-1332): both offsets start
at the x pitch. -/
def draw_pins (A : Align) (M : PinMetal) (G : PinGeom) (nl : PinNetlist) :
    Except Fatal (List MetalPin) :=
  match foldExcept (draw_port A M G nl)
      { p_in := (A.pitch_x : Int), p_out := (A.pitch_x : Int),
        found_vdd := false, found_gnd := false, pins := [] } nl.ports with
  | .error err => .error err
  | .ok st =>
    match foldExcept (draw_global A M G nl) st nl.used_globals with
    | .error err => .error err
    | .ok st => .ok (draw_supplies A M G nl st).pins

/-- The pin placement of `_createlocallayout` (stk_layout.cc 1129-1332) on a
cell with bounding box `(bllx, blly) - (burx, bury)`: the pins drawn, `none`
when the fuel of a loop runs out. -/
def createlocallayout_pins (A : Align) (M : PinMetal) (fuel : Nat) (nl : Option PinNetlist)
    (bllx blly burx bury : Int) : Option (Except Fatal (List MetalPin)) :=
  match nl with
  | none => some (.ok [])
  | some nl =>
    if bllx ≤ burx ∧ blly ≤ bury then
      let redge : Int := snap_up_x A (burx - bllx + 1)
      match createlocallayout_tedge A M fuel (bury - blly + 1) with
      | none => none
      | some tedge =>
        match count_pins nl with
        | .error err => some (.error err)
        | .ok c =>
          match choose_stride (A.pitch_x : Int) c.p_in redge fuel with
          | none => none
          | some s_in =>
            match choose_stride (A.pitch_x : Int) c.p_out redge fuel with
            | none => none
            | some s_out =>
              some (draw_pins A M
                { bllx := bllx, blly := blly, tedge := tedge, s_in := s_in, s_out := s_out } nl)
    else some (.ok [])

/-- The pins of the top band among the pins drawn. -/
def top_pins (pins : List MetalPin) : List MetalPin := pins.filter (fun p => decide (p.dir = 0))

/-- A netlist without ports and globals whose supply nodes both have edges. -/
def exNetSupplies : PinNetlist :=
  { ports := [], used_globals := [], Vdd := some ⟨1, 1⟩, GND := some ⟨2, 2⟩,
    weak_supply_vdd := 0, weak_supply_gnd := 0 }

/-- The alignment of the pin examples: x pitch `2`, y pitch `4`. -/
def exPinAlign : Align := { pitch_x := 2, pitch_y := 4, nmetals := 3 }

/-- The pin metal of the examples: minimum width `1`, minimum spacing `1`. -/
def exPinMetal : PinMetal := { minWidth := 1, minSpacing := 1 }

/-- The pins fit: `pitch + n * s * pitch <= redge`, the condition of the stride
loops. -/
def StrideFits (pitch n redge s : Int) : Prop := pitch + n * s * pitch ≤ redge

/-- The top pins are drawn at the offsets `pitch + k * (pitch * s_in)`, and `p_in`
is the offset of the next one. -/
def TopOffsets (A : Align) (G : PinGeom) (st : DrawState) : Prop :=
  ∃ m : Nat,
    st.p_in = (A.pitch_x : Int) + (m : Int) * ((A.pitch_x : Int) * G.s_in) ∧
    (top_pins st.pins).map MetalPin.x =
      (List.range m).map
        (fun (k : Nat) =>
          G.bllx + ((A.pitch_x : Int) + (k : Int) * ((A.pitch_x : Int) * G.s_in)))

/-- A netlist without ports, globals and supply nodes, with one weak `Vdd`
supply. -/
def exNetWeak : PinNetlist :=
  { ports := [], used_globals := [], Vdd := none, GND := none,
    weak_supply_vdd := 1, weak_supply_gnd := 0 }

/-- The x coordinates of the gate rectangles of a drawing log, in order. -/
def gate_xs (l : List Draw) : List Int := (l.filter Draw.isFet).map Draw.x

/-- The example rule set with a fet spacing of `10` at every length. -/
def spcEnv : Env :=
  { exEnv with getFet := fun _ _ => { getSpacing := fun _ => 10 } }

/-- A call `DrawDiffBBox (flavor, type, x, y, wx, wy)`. -/
structure DiffBBoxCall where
  flavor : Nat
  type : EdgeType
  x : Int
  y : Int
  wx : Int
  wy : Int
  deriving DecidableEq, Repr

/-- The body of the loop over the N stacks in `_createlocallayout` (stk_layout.cc
1080-1089): the stack is printed and `DrawDiffBBox` is called with the N
rectangle of the accumulator. -/
def createlocallayout_nstack (C : Env) (sl : List StkItem) : Except Fatal DiffBBoxCall :=
  match print_singlestack C sl with
  | .error err => .error err
  | .ok b =>
    .ok { flavor := b.flavor, type := .EDGE_NFET, x := b.n.llx, y := b.n.lly,
          wx := b.n.urx - b.n.llx, wy := b.n.ury - b.n.lly }

/-- The body of the loop over the P stacks in `_createlocallayout` (stk_layout.cc
1098-1107): the stack is printed and `DrawDiffBBox` is called for `EDGE_PFET`
with the rectangle `b.n` of the accumulator. -/
def createlocallayout_pstack (C : Env) (sl : List StkItem) : Except Fatal DiffBBoxCall :=
  match print_singlestack C sl with
  | .error err => .error err
  | .ok b =>
    .ok { flavor := b.flavor, type := .EDGE_PFET, x := b.n.llx, y := b.n.lly,
          wx := b.n.urx - b.n.llx, wy := b.n.ury - b.n.lly }

/-- A single stack with one N edge of width `2` and length `1`. -/
def exStackN : List StkItem :=
  [.node (exNode 1), .edge (exEdge .EDGE_NFET 1 2 2 1), .idx 0, .node (exNode 2)]

/-- A single stack with one P edge of width `4` and length `1`. -/
def exStackP : List StkItem :=
  [.node (exNode 11), .edge (exEdge .EDGE_PFET 11 12 4 1), .idx 0, .node (exNode 12)]

/-! ## Well taps (`run`, stk_layout.cc 1348-1454) -/

/-- A well-diffusion material as `run` reads it: `minArea ()`, `getWidth ()`. -/
structure WellDiff where
  minArea : Int
  getWidth : Int

/-- A call `DrawWellDiff (flavor, type, x, y, wx, wy, net)` (the net left out). -/
structure WellDiffCall where
  flavor : Nat
  type : EdgeType
  x : Int
  y : Int
  wx : Int
  wy : Int
  deriving DecidableEq, Repr

/-- The height `mina` of a well-tap rectangle (stk_layout.cc 1382-1389 and
1401-1407).  The division is the integer division of C (the width is taken to
be non-zero when it is executed). -/
def welltap_height (d : WellDiff) : Int :=
  let mina : Int := d.minArea
  let mina : Int := if mina > 0 then Int.tdiv mina d.getWidth else mina
  if mina < d.getWidth then d.getWidth else mina

/-- The well tap of the n-plus diffusion (stk_layout.cc 1376-1397): `w` is
`getOverhangWelldiff ()` of the N well, `none` when there is no such well. -/
def run_welltap_nplus (flavor : Nat) (nplusdiff : WellDiff) (w : Option Int)
    (diffspace : Int) : WellDiffCall :=
  let p : Int := Int.tdiv diffspace 2
  let mina : Int := welltap_height nplusdiff
  let p : Int :=
    match w with
    | some ov => if ov < p then ov else p
    | none => p
  { flavor := flavor, type := .EDGE_PFET, x := 0, y := p, wx := nplusdiff.getWidth, wy := mina }

/-- The well tap of the p-plus diffusion (stk_layout.cc 1376-1377 and
1398-1416). -/
def run_welltap_pplus (flavor : Nat) (pplusdiff : WellDiff) (w : Option Int)
    (diffspace : Int) : WellDiffCall :=
  let p : Int := Int.tdiv diffspace 2
  let n : Int := p - diffspace
  let mina : Int := welltap_height pplusdiff
  let n : Int :=
    match w with
    | some ov => if ov < -n then -ov else n
    | none => n
  { flavor := flavor, type := .EDGE_NFET, x := 0, y := n - mina, wx := pplusdiff.getWidth,
    wy := mina }

/-! ## VIA definitions (`emitLEFHeader`, stk_layout.cc 2256-2307) -/

/-- A contact (`Contact`) as the VIA definitions read it. -/
structure Contact where
  getWidth : Int
  getSym : Int
  getSymUp : Int
  getAsym : Int
  getAsymUp : Int
  isAsym : Bool

/-- The half-extents `(w, w2)` of the rectangle on the lower metal layer of a
VIA (stk_layout.cc 2264-2282); `scale` is `Technology::T->scale/1000.0`, a
`double` in the source and a rational here. -/
def via_lower (vup : Contact) (scale : ℚ) : Except Fatal (ℚ × ℚ) :=
  let w : ℚ := ((vup.getWidth + 2 * vup.getSym : Int) : ℚ) * scale / 2
  let w2 : ℚ :=
    if vup.isAsym then ((vup.getWidth + 2 * vup.getAsym : Int) : ℚ) * scale / 2 else w
  if w2 < w then .error .fatalError else .ok (w, w2)

/-- The half-extents `(w, w2)` of the rectangle on the upper metal layer of a
VIA (stk_layout.cc 2288-2304). -/
def via_upper (vup : Contact) (scale : ℚ) : Except Fatal (ℚ × ℚ) :=
  let w : ℚ := ((vup.getWidth + 2 * vup.getSymUp : Int) : ℚ) * scale / 2
  let w2 : ℚ :=
    if vup.isAsym then ((vup.getWidth + 2 * vup.getAsymUp : Int) : ℚ) * scale / 2 else 2
  if w2 < w then .error .fatalError else .ok (w, w2)

/-- A symmetric via of width `4` with an enclosure of `1` on both layers. -/
def exViaWide : Contact :=
  { getWidth := 4, getSym := 1, getSymUp := 1, getAsym := 0, getAsymUp := 0, isAsym := false }

/-- A symmetric via of width `1` without enclosure. -/
def exViaSmall : Contact :=
  { getWidth := 1, getSym := 0, getSymUp := 0, getAsym := 0, getAsymUp := 0, isAsym := false }

/-! ### The calls of the stack printers -/

/-- The stack list of `print_singlestack` for the left node `n0` and the edges
`es`, each with its fold index and its right node: `node, edge, idx, node, ...,
node`, of length `3 * es.length + 1`. -/
def stack_of (n0 : node_t) : List (edge_t × Int × node_t) → List StkItem
  | [] => [.node n0]
  | (e, i, m) :: rest => .node n0 :: .edge e :: .idx i :: stack_of m rest

/-- The flags and the previous edge of the `emit_rectangle` calls of the loop of
`print_singlestack`, one entry per call, in order. -/
def singlestack_calls (C : Env) (first : Bool) (prev : Option edge_t) (previdx : Int)
    (xpos : Int) (b : BBox) :
    List StkItem → Except Fatal (List (Nat × Option edge_t))
  | [] => .error .assertEh
  | [_] => .ok []
  | [_, _] => .error .assertEh
  | [_, _, _] => .error .nullDeref
  | .node n :: .edge e :: .idx idx :: m :: rest =>
    let flags : Nat :=
      (if first then EDGE_FLAGS_LEFT else 0) |||
      (if rest.isEmpty then EDGE_FLAGS_RIGHT else 0)
    match emit_rectangle C 0 xpos 0 flags prev previdx n e none 0 idx 1 (some b) with
    | .error err => .error err
    | .ok r =>
      match singlestack_calls C false (some e) idx r.dx (r.ret.getD b) (m :: rest) with
      | .error err => .error err
      | .ok log => .ok ((flags, prev) :: log)
  | _ :: _ :: _ :: _ :: _ => .error .nullDeref

/-- The rows of a dual stack have a previous edge once their `first` flag is
down. -/
def PrevKnown (s : DualState) : Prop :=
  (s.firstn = false → s.prevn.isSome = true) ∧ (s.firstp = false → s.prevp.isSome = true)

/-- A single stack of three N edges of widths `2`, `4`, `2`. -/
def exEdges242 : List (edge_t × Int × node_t) :=
  [(exEdge .EDGE_NFET 1 2 2 1, 0, exNode 2),
   (exEdge .EDGE_NFET 2 3 4 1, 0, exNode 3),
   (exEdge .EDGE_NFET 3 4 2 1, 0, exNode 4)]

/-! ### The end of the two rows of a dual stack -/

/-- The right node of an edge in `emit_rectangle` (stk_layout.cc 599-606): the
terminal that is not the left node. -/
def right_node (left : node_t) (e : edge_t) : node_t :=
  if left.id = e.a.id then e.b else e.a

/-- The closing overhang of an edge on the right boundary (stk_layout.cc 607):
the diffusion overhang at the edge's width at its fold index and the contact
flag of its right node. -/
def closing_overhang (C : Env) (e : edge_t) (eidx : Int) (left : node_t) : Int :=
  (C.getDiff e.type e.flavor).effOverhang (getwidth C eidx e) (right_node left e).contact

/-- The left node a row has when the loop of `print_dualstack` reaches the last
cell of the list (stk_layout.cc 744-773, iterated): `left` and `prev` are the
row's left node and previous edge before the first cell of `es`, the row's edges
cell by cell. -/
def row_left_at_last (gp_l : Option node_t) :
    Option node_t → Option edge_t → List (Option edge_t) → Except Fatal (Option node_t)
  | left, _, [] => .ok left
  | left, prev, [e] => advance_left e.isSome left gp_l prev
  | left, prev, e :: e1 :: rest =>
    match advance_left e.isSome left gp_l prev with
    | .error err => .error err
    | .ok left1 =>
      row_left_at_last gp_l left1 (if e.isSome = true then e else prev) (e1 :: rest)

/-- The left node of the N row at the last base pair of a dual stack. -/
def last_left_n : gate_pairs → Except Fatal (Option node_t)
  | .basepair _ _ l_n _ _ _ => .ok l_n
  | .composite l l_n _ => row_left_at_last l_n none none (l.map gate_pairs.e_n)

/-- The left node of the P row at the last base pair of a dual stack. -/
def last_left_p : gate_pairs → Except Fatal (Option node_t)
  | .basepair _ _ _ l_p _ _ => .ok l_p
  | .composite l _ l_p => row_left_at_last l_p none none (l.map gate_pairs.e_p)

/-- A base pair with an N edge and a P edge of the same width `2` and length
`1`. -/
def exEvenPair : gate_pairs :=
  .basepair (some (exEdge .EDGE_NFET 1 2 2 1)) (some (exEdge .EDGE_PFET 11 12 2 1))
    (some (exNode 1)) (some (exNode 11)) 0 0

/-- A composite whose last base pair has an N edge of width `2` and a P edge of
width `4`, after a base pair with an N edge only. -/
def exOneTwoCells : List gate_pairs :=
  [.basepair (some (exEdge .EDGE_NFET 1 2 2 1)) none none none 0 0,
   .basepair (some (exEdge .EDGE_NFET 2 3 2 1)) (some (exEdge .EDGE_PFET 11 12 4 1))
     none none 0 0]

/-! # Theorems -/

/-! ## Auxiliary facts -/

theorem MAX_eq_max (a b : Int) : MAX a b = max a b := by
  unfold MAX; split <;> omega

theorem MIN_eq_min (a b : Int) : MIN a b = min a b := by
  unfold MIN; split <;> omega

theorem spc_MAX_eq (C : Env) (prev : Option edge_t) (e : edge_t) :
    MAX (MAX (match prev with
              | some pe => MAX ((C.getFet e.type e.flavor).getSpacing (getlength C pe))
                               (C.getPoly.getSpacing (getlength C pe))
              | none => 0)
          ((C.getFet e.type e.flavor).getSpacing (getlength C e)))
      (C.getPoly.getSpacing (getlength C e)) = spc_of C prev e := by
  cases prev <;> simp [spc_of, MAX_eq_max]

theorem locate_fetedge_eq (C : Env) (dx : Int) (flags : Nat) (prev : Option edge_t)
    (previdx : Int) (left : node_t) (e : edge_t) (eidx : Int)
    (hprev : flags &&& EDGE_FLAGS_LEFT ≠ 0 ∨ prev.isSome = true) :
    locate_fetedge C dx flags prev previdx left e eidx =
      if 0 < first_of (C.getDiff e.type e.flavor) (spc_of C prev e) flags
            (prev_width C prev previdx) (getwidth C 0 e) left.contact
      then .ok (dx + first_of (C.getDiff e.type e.flavor) (spc_of C prev e) flags
            (prev_width C prev previdx) (getwidth C 0 e) left.contact
          + second_of (C.getDiff e.type e.flavor) flags
            (prev_width C prev previdx) (getwidth C 0 e) left.contact)
      else .error .assertRect := by
  by_cases hl : flags &&& EDGE_FLAGS_LEFT = 0
  · obtain ⟨pe, rfl⟩ : ∃ pe, prev = some pe := by
      rcases hprev with h | h
      · exact absurd hl h
      · exact Option.isSome_iff_exists.mp h
    simp only [locate_fetedge, first_of, second_of, spc_of, prev_width, notch_of, hl, MAX_eq_max]
    by_cases h1 : getwidth C previdx pe = getwidth C 0 e
    · simp [h1]
    · by_cases h2 : getwidth C previdx pe < getwidth C 0 e
      · cases hc : left.contact <;> simp [h1, h2, hc]
      · cases hc : left.contact <;> simp [h1, h2, hc]
  · simp [locate_fetedge, first_of, second_of, hl]

theorem emit_transition_eq (C : Env) (flags : Nat) (prev : Option edge_t) (previdx : Int)
    (left : node_t) (e : edge_t) (e_w spc : Int)
    (hprev : flags &&& EDGE_FLAGS_LEFT ≠ 0 ∨ prev.isSome = true) :
    emit_transition C flags prev previdx left e e_w spc =
      .ok (fet_type_of flags (prev_width C prev previdx) e_w,
           first_of (C.getDiff e.type e.flavor) spc flags (prev_width C prev previdx) e_w
             left.contact,
           if flags &&& EDGE_FLAGS_LEFT ≠ 0 then 0 else prev_width C prev previdx) := by
  by_cases hl : flags &&& EDGE_FLAGS_LEFT = 0
  · obtain ⟨pe, rfl⟩ : ∃ pe, prev = some pe := by
      rcases hprev with h | h
      · exact absurd hl h
      · exact Option.isSome_iff_exists.mp h
    simp only [emit_transition, first_of, fet_type_of, prev_width, notch_of, hl, MAX_eq_max]
    by_cases h1 : getwidth C previdx pe = e_w
    · simp [h1]
    · by_cases h2 : getwidth C previdx pe < e_w
      · cases hc : left.contact <;> simp [h1, h2, hc]
      · cases hc : left.contact <;> simp [h1, h2, hc]
  · simp [emit_transition, first_of, fet_type_of, hl]

theorem emit_transition_none (C : Env) (flags : Nat) (previdx : Int)
    (left : node_t) (e : edge_t) (e_w spc : Int) (hl : flags &&& EDGE_FLAGS_LEFT = 0) :
    emit_transition C flags none previdx left e e_w spc = .error .assertPrev := by
  simp [emit_transition, hl]

theorem emit_draw_dx (C : Env) (pad dx dy : Int) (flags : Nat) (left : node_t) (e : edge_t)
    (eopp : Option edge_t) (oup e_w yup : Int) (b : BBox) (fet_type rect prev_w : Int) :
    (emit_draw C pad dx dy flags left e eopp oup e_w yup b fet_type rect prev_w).1 =
      dx + pad + rect
        + (if fet_type = 0 then 0
           else if fet_type < 0 then notch_of (C.getDiff e.type e.flavor) e_w left.contact
           else (C.getDiff e.type e.flavor).effOverhang e_w false)
        + getlength C e
        + closing_of (C.getDiff e.type e.flavor) flags e_w left e := by
  simp only [emit_draw, closing_of, notch_of, MAX_eq_max]
  split_ifs <;> omega

theorem second_of_eq (d : DiffMat) (flags : Nat) (prev_w e_w : Int) (contact : Bool) :
    (if fet_type_of flags prev_w e_w = 0 then 0
     else if fet_type_of flags prev_w e_w < 0 then notch_of d e_w contact
     else d.effOverhang e_w false) = second_of d flags prev_w e_w contact := by
  unfold fet_type_of second_of
  by_cases hl : flags &&& EDGE_FLAGS_LEFT = 0
  · by_cases h1 : prev_w = e_w
    · simp [hl, h1]
    · by_cases h2 : prev_w < e_w <;> simp [hl, h1, h2]
  · simp [hl]

theorem emit_rectangle_eq (C : Env) (pad dx dy : Int) (flags : Nat) (prev : Option edge_t)
    (previdx : Int) (left : node_t) (e : edge_t) (eopp : Option edge_t) (oup eidx yup : Int)
    (ret : Option BBox)
    (hprev : flags &&& EDGE_FLAGS_LEFT ≠ 0 ∨ prev.isSome = true) :
    emit_rectangle C pad dx dy flags prev previdx left e eopp oup eidx yup ret =
      if 0 < first_of (C.getDiff e.type e.flavor) (spc_of C prev e) flags
            (prev_width C prev previdx) (getwidth C eidx e) left.contact then
        .ok { dx := (emit_draw C pad dx dy flags left e eopp oup (getwidth C eidx e) yup
                      (start_box ret e)
                      (fet_type_of flags (prev_width C prev previdx) (getwidth C eidx e))
                      (first_of (C.getDiff e.type e.flavor) (spc_of C prev e) flags
                        (prev_width C prev previdx) (getwidth C eidx e) left.contact)
                      (if flags &&& EDGE_FLAGS_LEFT ≠ 0 then 0
                       else prev_width C prev previdx)).1,
              ret := ret.map (fun _ =>
                    (emit_draw C pad dx dy flags left e eopp oup (getwidth C eidx e) yup
                      (start_box ret e)
                      (fet_type_of flags (prev_width C prev previdx) (getwidth C eidx e))
                      (first_of (C.getDiff e.type e.flavor) (spc_of C prev e) flags
                        (prev_width C prev previdx) (getwidth C eidx e) left.contact)
                      (if flags &&& EDGE_FLAGS_LEFT ≠ 0 then 0
                       else prev_width C prev previdx)).2.1),
              drawn := (emit_draw C pad dx dy flags left e eopp oup (getwidth C eidx e) yup
                      (start_box ret e)
                      (fet_type_of flags (prev_width C prev previdx) (getwidth C eidx e))
                      (first_of (C.getDiff e.type e.flavor) (spc_of C prev e) flags
                        (prev_width C prev previdx) (getwidth C eidx e) left.contact)
                      (if flags &&& EDGE_FLAGS_LEFT ≠ 0 then 0
                       else prev_width C prev previdx)).2.2 }
      else .error .assertRect := by
  unfold emit_rectangle
  simp only [spc_MAX_eq, emit_transition_eq C flags prev previdx left e _ _ hprev, gt_iff_lt,
    start_box]

theorem emit_rectangle_no_prev (C : Env) (pad dx dy : Int) (flags : Nat)
    (previdx : Int) (left : node_t) (e : edge_t) (eopp : Option edge_t) (oup eidx yup : Int)
    (ret : Option BBox) (hl : flags &&& EDGE_FLAGS_LEFT = 0) :
    emit_rectangle C pad dx dy flags none previdx left e eopp oup eidx yup ret =
      .error .assertPrev := by
  unfold emit_rectangle
  simp only [emit_transition_none C flags previdx left e _ _ hl]

theorem locate_fetedge_no_prev (C : Env) (dx : Int) (flags : Nat)
    (previdx : Int) (left : node_t) (e : edge_t) (eidx : Int)
    (hl : flags &&& EDGE_FLAGS_LEFT = 0) :
    locate_fetedge C dx flags none previdx left e eidx = .error .assertPrev := by
  simp [locate_fetedge, hl]

theorem prev_cases (flags : Nat) (prev : Option edge_t) :
    (flags &&& EDGE_FLAGS_LEFT ≠ 0 ∨ prev.isSome = true) ∨
    (flags &&& EDGE_FLAGS_LEFT = 0 ∧ prev = none) := by
  by_cases hl : flags &&& EDGE_FLAGS_LEFT = 0
  · cases prev with
    | none => exact Or.inr ⟨hl, rfl⟩
    | some pe => exact Or.inl (Or.inr rfl)
  · exact Or.inl (Or.inl hl)

/-- The cursor returned by `emit_rectangle`: the incoming cursor plus the
padding, the two transition increments, the gate length and the closing
diffusion; a returned cursor means that the first increment was positive. -/
theorem emit_rectangle_dx (C : Env) (pad dx dy : Int) (flags : Nat) (prev : Option edge_t)
    (previdx : Int) (left : node_t) (e : edge_t) (eopp : Option edge_t) (oup eidx yup : Int)
    (ret : Option BBox) (r : EmitResult)
    (h : emit_rectangle C pad dx dy flags prev previdx left e eopp oup eidx yup ret = .ok r) :
    0 < first_of (C.getDiff e.type e.flavor) (spc_of C prev e) flags
            (prev_width C prev previdx) (getwidth C eidx e) left.contact ∧
    r.dx = dx + pad
      + first_of (C.getDiff e.type e.flavor) (spc_of C prev e) flags
            (prev_width C prev previdx) (getwidth C eidx e) left.contact
      + second_of (C.getDiff e.type e.flavor) flags
            (prev_width C prev previdx) (getwidth C eidx e) left.contact
      + getlength C e
      + closing_of (C.getDiff e.type e.flavor) flags (getwidth C eidx e) left e := by
  rcases prev_cases flags prev with hprev | ⟨hl, rfl⟩
  · rw [emit_rectangle_eq C pad dx dy flags prev previdx left e eopp oup eidx yup ret hprev] at h
    split at h
    · rename_i hpos
      refine ⟨hpos, ?_⟩
      have h' := congrArg EmitResult.dx (Except.ok.inj h)
      rw [← h', emit_draw_dx, second_of_eq]
    · exact absurd h (by simp)
  · rw [emit_rectangle_no_prev C pad dx dy flags previdx left e eopp oup eidx yup ret hl] at h
    exact absurd h (by simp)

theorem first_of_pos (C : Env) (hpos : RulesPositive C) (flags : Nat) (prev : Option edge_t)
    (previdx : Int) (e : edge_t) (e_w : Int) (contact : Bool) :
    0 < first_of (C.getDiff e.type e.flavor) (spc_of C prev e) flags
          (prev_width C prev previdx) e_w contact := by
  obtain ⟨hov, hnotch, _, hfet, _⟩ := hpos e.type e.flavor
  have hspc : 0 < spc_of C prev e := by
    have := hfet (getlength C e)
    unfold spc_of
    omega
  unfold first_of notch_of
  have h1 := hov e_w contact
  have h2 := hov e_w false
  split_ifs <;> omega

theorem second_of_nonneg (C : Env) (hpos : RulesPositive C) (flags : Nat) (prev_w : Int)
    (e : edge_t) (e_w : Int) (contact : Bool) :
    0 ≤ second_of (C.getDiff e.type e.flavor) flags prev_w e_w contact := by
  obtain ⟨hov, hnotch, _, _, _⟩ := hpos e.type e.flavor
  unfold second_of notch_of
  have h2 := hov e_w false
  split_ifs <;> omega

/-! ## C1: the transition distance of `locate_fetedge` -/

/-- C1. For an edge that is not on the left boundary, `locate_fetedge` adds to
the incoming cursor exactly the distance of the case definition, with `spc` the
maximum of fet spacing and poly spacing at the previous and the current edge
length: for equal widths `max(spc, viaSpaceMid if contact)`; for an up-notch
`max(notch spacing, viaSpaceMid - effOverhang(cur width) if contact, spc) +
effOverhang(cur width)`; for a down-notch `effOverhang(cur width) + max(notch
spacing, viaSpaceMid - effOverhang(cur width) if contact)`.  The position is
returned exactly when the first increment is positive; otherwise the assertion
`rect > 0` stops the run.  The current width is the one `locate_fetedge` reads,
`getwidth (0, e)`. -/
theorem locate_fetedge_transition_distance (C : Env) (dx : Int) (flags : Nat)
    (pe : edge_t) (previdx : Int) (left : node_t) (e : edge_t) (eidx : Int)
    (hflag : flags &&& EDGE_FLAGS_LEFT = 0) :
    let d := C.getDiff e.type e.flavor
    let f := C.getFet e.type e.flavor
    let p := C.getPoly
    let spc := max (max (f.getSpacing (getlength C pe)) (p.getSpacing (getlength C pe)))
                   (max (f.getSpacing (getlength C e)) (p.getSpacing (getlength C e)))
    let prev_w := getwidth C previdx pe
    let e_w := getwidth C 0 e
    let ov := d.effOverhang e_w false
    let same : Int := if left.contact = true then max spc d.viaSpaceMid else spc
    let up : Int :=
      if left.contact = true then max (max d.getNotchSpacing (d.viaSpaceMid - ov)) spc
      else max d.getNotchSpacing spc
    let down : Int :=
      if left.contact = true then max d.getNotchSpacing (d.viaSpaceMid - ov)
      else d.getNotchSpacing
    (prev_w = e_w →
      locate_fetedge C dx flags (some pe) previdx left e eidx
        = if 0 < same then .ok (dx + same) else .error .assertRect) ∧
    (prev_w < e_w →
      locate_fetedge C dx flags (some pe) previdx left e eidx
        = if 0 < up then .ok (dx + (up + ov)) else .error .assertRect) ∧
    (e_w < prev_w →
      locate_fetedge C dx flags (some pe) previdx left e eidx
        = if 0 < ov then .ok (dx + (ov + down)) else .error .assertRect) := by
  intro d f p spc prev_w e_w ov same up down
  have hspc : spc_of C (some pe) e = spc := by
    simp only [spc_of, spc, f, p]; omega
  have key := locate_fetedge_eq C dx flags (some pe) previdx left e eidx (Or.inr rfl)
  rw [hspc] at key
  simp only [prev_width] at key
  refine ⟨fun h => ?_, fun h => ?_, fun h => ?_⟩
  · have h1 : first_of (C.getDiff e.type e.flavor) spc flags (getwidth C previdx pe)
        (getwidth C 0 e) left.contact = same := by
      have h' : getwidth C previdx pe = getwidth C 0 e := h
      simp [first_of, hflag, h', same, d]
    have h2 : second_of (C.getDiff e.type e.flavor) flags (getwidth C previdx pe)
        (getwidth C 0 e) left.contact = 0 := by
      have h' : getwidth C previdx pe = getwidth C 0 e := h
      simp [second_of, hflag, h']
    rw [key, h1, h2, add_zero]
  · have hlt : getwidth C previdx pe < getwidth C 0 e := h
    have hne : getwidth C previdx pe ≠ getwidth C 0 e := ne_of_lt hlt
    have h1 : first_of (C.getDiff e.type e.flavor) spc flags (getwidth C previdx pe)
        (getwidth C 0 e) left.contact = up := by
      simp only [first_of, hflag, hne, hlt, notch_of, up, d, ov, e_w]
      cases left.contact <;> simp
    have h2 : second_of (C.getDiff e.type e.flavor) flags (getwidth C previdx pe)
        (getwidth C 0 e) left.contact = ov := by
      simp [second_of, hflag, hne, hlt, ov, d, e_w]
    rw [key, h1, h2, add_assoc]
  · have hgt : getwidth C 0 e < getwidth C previdx pe := h
    have hne : getwidth C previdx pe ≠ getwidth C 0 e := ne_of_gt hgt
    have hnlt : ¬ getwidth C previdx pe < getwidth C 0 e := not_lt.mpr (le_of_lt hgt)
    have h1 : first_of (C.getDiff e.type e.flavor) spc flags (getwidth C previdx pe)
        (getwidth C 0 e) left.contact = ov := by
      simp [first_of, hflag, hne, hnlt, ov, d, e_w]
    have h2 : second_of (C.getDiff e.type e.flavor) flags (getwidth C previdx pe)
        (getwidth C 0 e) left.contact = down := by
      simp only [second_of, hflag, hne, hnlt, notch_of, down, d, ov, e_w]
      cases left.contact <;> simp
    rw [key, h1, h2, add_assoc]

/-- C1, at a concrete up-notch: widths `2` then `4` next to a contact, cursor
`5`; the distance is `max (2, 7 - 4, 3) + 4 = 7`. -/
theorem locate_fetedge_transition_distance_witness :
    (0 &&& EDGE_FLAGS_LEFT = 0) ∧
    locate_fetedge exEnv 5 0 (some (exEdge .EDGE_NFET 1 2 2 1)) 0 (exContact 2)
      (exEdge .EDGE_NFET 2 3 4 1) 0 = .ok 12 :=
  ⟨by decide,
   ((locate_fetedge_transition_distance exEnv 5 0 (exEdge .EDGE_NFET 1 2 2 1) 0 (exContact 2)
      (exEdge .EDGE_NFET 2 3 4 1) 0 (by decide)).2.1 (by decide)).trans (by rfl)⟩

/-! ## C2: positivity -/

/-- C2. When every value returned by the rule facade is strictly positive, then
for every previous edge (or none, on the left boundary), current edge, contact
flag and boundary flags, `locate_fetedge` returns a position, its assertion
`rect > 0` does not fire, and the position is strictly greater than the cursor
`dx` it was given. -/
theorem locate_fetedge_positive (C : Env) (dx : Int) (flags : Nat) (prev : Option edge_t)
    (previdx : Int) (left : node_t) (e : edge_t) (eidx : Int)
    (hpos : RulesPositive C)
    (hprev : flags &&& EDGE_FLAGS_LEFT ≠ 0 ∨ prev.isSome = true) :
    ∃ r, locate_fetedge C dx flags prev previdx left e eidx = .ok r ∧ dx < r := by
  have h1 := first_of_pos C hpos flags prev previdx e (getwidth C 0 e) left.contact
  have h2 := second_of_nonneg C hpos flags (prev_width C prev previdx) e (getwidth C 0 e)
    left.contact
  rw [locate_fetedge_eq C dx flags prev previdx left e eidx hprev, if_pos h1]
  exact ⟨_, rfl, by omega⟩

/-- The example rule set returns positive values only. -/
theorem exEnv_positive : RulesPositive exEnv := by
  intro t fl
  simp only [exEnv, exDiff, exFet, exPoly]
  refine ⟨fun w c => ?_, by decide, by decide, fun l => ?_, fun l => ?_⟩ <;>
    split_ifs <;> decide

/-- C2, at a concrete down-notch (widths `4` then `2`) under the example rule
set: the position `5` lies beyond the cursor `0`. -/
theorem locate_fetedge_positive_witness :
    RulesPositive exEnv ∧
    ((2 : Nat) &&& EDGE_FLAGS_LEFT ≠ 0 ∨ (some (exEdge .EDGE_NFET 1 2 4 1)).isSome = true) ∧
    ∃ r, locate_fetedge exEnv 0 2 (some (exEdge .EDGE_NFET 1 2 4 1)) 0 (exNode 2)
      (exEdge .EDGE_NFET 2 3 2 1) 0 = .ok r ∧ 0 < r :=
  ⟨exEnv_positive, Or.inr rfl,
   locate_fetedge_positive exEnv 0 2 (some (exEdge .EDGE_NFET 1 2 4 1)) 0 (exNode 2)
      (exEdge .EDGE_NFET 2 3 2 1) 0 exEnv_positive (Or.inr rfl)⟩

/-! ## C3: which distances are checked -/

/-- C3, as stated, fails: under a rule table whose overhang at width `4` is
`0`, the up-notch from width `2` to width `4` has a second increment that is
not strictly positive, and yet `locate_fetedge` returns a position and
`emit_rectangle` draws its rectangles, the second diffusion rectangle with
length `0`. -/
theorem second_increment_not_checked :
    second_of (degEnv.getDiff .EDGE_NFET 0) 0
        (getwidth degEnv 0 (exEdge .EDGE_NFET 1 2 2 1))
        (getwidth degEnv 0 (exEdge .EDGE_NFET 2 3 4 1)) false ≤ 0 ∧
    locate_fetedge degEnv 0 0 (some (exEdge .EDGE_NFET 1 2 2 1)) 0 (exNode 2)
      (exEdge .EDGE_NFET 2 3 4 1) 0 = .ok 3 ∧
    emit_rectangle degEnv 0 0 0 0 (some (exEdge .EDGE_NFET 1 2 2 1)) 0 (exNode 2)
      (exEdge .EDGE_NFET 2 3 4 1) none 0 0 1 none =
      .ok { dx := 4, ret := none,
            drawn := [.DrawDiff 0 .EDGE_NFET 0 0 3 2 none,
                      .DrawDiff 0 .EDGE_NFET 3 0 0 4 none,
                      .DrawFet 0 .EDGE_NFET 3 0 1 4 none,
                      .DrawPoly 3 (-1) 1 1 (some (exNode 100)),
                      .DrawPoly 3 4 1 2 none] } :=
  ⟨by decide, by rfl, by rfl⟩

/-- C3, amended. Whenever the first pre-gate increment computed for an edge is
not strictly positive, the operation stops with a fatal error instead of
returning a position (`locate_fetedge`, width read at fold `0`) or drawing
geometry (`emit_rectangle`, width read at fold `eidx`, before any padding is
added).  The second increment of a notch is not checked. -/
theorem first_increment_checked (C : Env) (pad dx dy : Int) (flags : Nat)
    (prev : Option edge_t) (previdx : Int) (left : node_t) (e : edge_t)
    (eopp : Option edge_t) (oup eidx yup : Int) (ret : Option BBox) :
    (first_of (C.getDiff e.type e.flavor) (spc_of C prev e) flags
        (prev_width C prev previdx) (getwidth C 0 e) left.contact ≤ 0 →
      ∃ err, locate_fetedge C dx flags prev previdx left e eidx = .error err) ∧
    (first_of (C.getDiff e.type e.flavor) (spc_of C prev e) flags
        (prev_width C prev previdx) (getwidth C eidx e) left.contact ≤ 0 →
      ∃ err,
        emit_rectangle C pad dx dy flags prev previdx left e eopp oup eidx yup ret
          = .error err) := by
  rcases prev_cases flags prev with hprev | ⟨hl, rfl⟩
  · refine ⟨fun h => ⟨.assertRect, ?_⟩, fun h => ⟨.assertRect, ?_⟩⟩
    · rw [locate_fetedge_eq C dx flags prev previdx left e eidx hprev, if_neg (not_lt.mpr h)]
    · rw [emit_rectangle_eq C pad dx dy flags prev previdx left e eopp oup eidx yup ret hprev,
        if_neg (not_lt.mpr h)]
  · exact ⟨fun _ => ⟨.assertPrev, locate_fetedge_no_prev C dx flags previdx left e eidx hl⟩,
      fun _ => ⟨.assertPrev,
        emit_rectangle_no_prev C pad dx dy flags previdx left e eopp oup eidx yup ret hl⟩⟩

/-- C3, amended, at a concrete down-notch onto width `4` under the degenerate
rule table: the first increment is the overhang `0`, and both operations stop. -/
theorem first_increment_checked_witness :
    (∃ err, locate_fetedge degEnv 0 0 (some (exEdge .EDGE_NFET 1 2 6 1)) 0 (exNode 2)
      (exEdge .EDGE_NFET 2 3 4 1) 0 = .error err) ∧
    (∃ err, emit_rectangle degEnv 0 0 0 0 (some (exEdge .EDGE_NFET 1 2 6 1)) 0 (exNode 2)
      (exEdge .EDGE_NFET 2 3 4 1) none 0 0 1 none = .error err) :=
  ⟨(first_increment_checked degEnv 0 0 0 0 (some (exEdge .EDGE_NFET 1 2 6 1)) 0 (exNode 2)
      (exEdge .EDGE_NFET 2 3 4 1) none 0 0 1 none).1 (by decide),
   (first_increment_checked degEnv 0 0 0 0 (some (exEdge .EDGE_NFET 1 2 6 1)) 0 (exNode 2)
      (exEdge .EDGE_NFET 2 3 4 1) none 0 0 1 none).2 (by decide)⟩

/-! ## C4: monotonicity of the stack length in the rule values -/

theorem getwidth_congr (C1 C2 : Env) (hle : RulesLE C1 C2) (i : Int) (e : edge_t) :
    getwidth C1 i e = getwidth C2 i e := by
  obtain ⟨hs, hw, _⟩ := hle
  unfold getwidth
  cases e.type <;> simp [hs, hw]

theorem getlength_congr (C1 C2 : Env) (hle : RulesLE C1 C2) (e : edge_t) :
    getlength C1 e = getlength C2 e := by
  obtain ⟨hs, _⟩ := hle
  simp [getlength, hs]

theorem prev_width_congr (C1 C2 : Env) (hle : RulesLE C1 C2) (prev : Option edge_t)
    (previdx : Int) : prev_width C1 prev previdx = prev_width C2 prev previdx := by
  cases prev with
  | none => rfl
  | some pe => exact getwidth_congr C1 C2 hle previdx pe

theorem spc_of_mono (C1 C2 : Env) (hle : RulesLE C1 C2) (prev : Option edge_t) (e : edge_t) :
    spc_of C1 prev e ≤ spc_of C2 prev e := by
  have hlen := getlength_congr C1 C2 hle
  obtain ⟨_, _, _, _, _, hf, hp⟩ := hle
  unfold spc_of
  have h1 := hf e.type e.flavor (getlength C2 e)
  have h2 := hp (getlength C2 e)
  cases prev with
  | none =>
    simp only [hlen]
    omega
  | some pe =>
    have h3 := hf e.type e.flavor (getlength C2 pe)
    have h4 := hp (getlength C2 pe)
    simp only [hlen]
    omega

/-- The distance by which `emit_rectangle` moves the cursor, padding apart, does
not decrease when rule values grow. -/
theorem advance_mono (C1 C2 : Env) (hle : RulesLE C1 C2) (flags : Nat) (prev : Option edge_t)
    (previdx : Int) (left : node_t) (e : edge_t) (eidx : Int) :
    first_of (C1.getDiff e.type e.flavor) (spc_of C1 prev e) flags
        (prev_width C1 prev previdx) (getwidth C1 eidx e) left.contact
      + second_of (C1.getDiff e.type e.flavor) flags
        (prev_width C1 prev previdx) (getwidth C1 eidx e) left.contact
      + getlength C1 e
      + closing_of (C1.getDiff e.type e.flavor) flags (getwidth C1 eidx e) left e
    ≤ first_of (C2.getDiff e.type e.flavor) (spc_of C2 prev e) flags
        (prev_width C2 prev previdx) (getwidth C2 eidx e) left.contact
      + second_of (C2.getDiff e.type e.flavor) flags
        (prev_width C2 prev previdx) (getwidth C2 eidx e) left.contact
      + getlength C2 e
      + closing_of (C2.getDiff e.type e.flavor) flags (getwidth C2 eidx e) left e := by
  have hspc := spc_of_mono C1 C2 hle prev e
  rw [getwidth_congr C1 C2 hle, getlength_congr C1 C2 hle, prev_width_congr C1 C2 hle]
  obtain ⟨_, _, hov, hn, hv, _, _⟩ := hle
  have hn' := hn e.type e.flavor
  have hv' := hv e.type e.flavor
  have ho1 := hov e.type e.flavor (getwidth C2 eidx e) left.contact
  have ho2 := hov e.type e.flavor (getwidth C2 eidx e) false
  have ho3 := hov e.type e.flavor (getwidth C2 eidx e)
    (if left.id = e.a.id then e.b else e.a).contact
  unfold first_of second_of closing_of notch_of
  generalize (if left.id = e.a.id then e.b else e.a).contact = rc at ho3 ⊢
  split_ifs <;> omega

theorem singlestack_loop_mono (C1 C2 : Env) (hle : RulesLE C1 C2) :
    ∀ (n : Nat) (l : List StkItem), l.length = n →
    ∀ (first : Bool) (prev : Option edge_t) (previdx : Int) (x1 x2 : Int) (b1 b2 : BBox)
      (d1 d2 : List Draw) (r1 r2 : StackResult),
      x1 ≤ x2 →
      singlestack_loop C1 first prev previdx x1 b1 d1 l = .ok r1 →
      singlestack_loop C2 first prev previdx x2 b2 d2 l = .ok r2 →
      r1.xpos ≤ r2.xpos := by
  intro n
  induction n using Nat.strong_induction_on with
  | _ n ih =>
    intro l hlen first prev previdx x1 x2 b1 b2 d1 d2 r1 r2 hx h1 h2
    match l, hlen with
    | [], _ => simp [singlestack_loop] at h1
    | [_], _ =>
      simp only [singlestack_loop, Except.ok.injEq] at h1 h2
      subst h1; subst h2; exact hx
    | [_, _], _ => simp [singlestack_loop] at h1
    | [_, _, _], _ => simp [singlestack_loop] at h1
    | a :: b :: c :: m :: rest, hlen =>
      cases a with
      | node nd =>
        cases b with
        | edge e =>
          cases c with
          | idx i =>
            simp only [singlestack_loop] at h1 h2
            split at h1
            · exact absurd h1 (by simp)
            · rename_i ra hra
              split at h2
              · exact absurd h2 (by simp)
              · rename_i rb hrb
                have ha := (emit_rectangle_dx _ _ _ _ _ _ _ _ _ _ _ _ _ _ _ hra).2
                have hb := (emit_rectangle_dx _ _ _ _ _ _ _ _ _ _ _ _ _ _ _ hrb).2
                have hm := advance_mono C1 C2 hle
                  ((if first = true then EDGE_FLAGS_LEFT else 0) |||
                    (if rest.isEmpty = true then EDGE_FLAGS_RIGHT else 0))
                  prev previdx nd e i
                refine ih (m :: rest).length (by simp at hlen ⊢; omega) (m :: rest) rfl
                  false (some e) i ra.dx rb.dx _ _ _ _ r1 r2 ?_ h1 h2
                rw [ha, hb]
                omega
          | node _ => simp [singlestack_loop] at h1
          | edge _ => simp [singlestack_loop] at h1
        | node _ => simp [singlestack_loop] at h1
        | idx _ => simp [singlestack_loop] at h1
      | edge _ => simp [singlestack_loop] at h1
      | idx _ => simp [singlestack_loop] at h1

/-- C4. For a fixed stack of edges and two rule sets of which the second is no
smaller than the first (in particular two rule sets that differ in exactly one
fet spacing, poly spacing, notch spacing, via mid-spacing or overhang value,
the second one larger), when no assertion fires under either, the final cursor
of `print_singlestack` under the second rule set is at least the final cursor
under the first. -/
theorem print_singlestack_length_monotone (C1 C2 : Env) (l : List StkItem)
    (r1 r2 : StackResult) (hle : RulesLE C1 C2)
    (h1 : print_singlestack_run C1 l = .ok r1)
    (h2 : print_singlestack_run C2 l = .ok r2) :
    r1.xpos ≤ r2.xpos := by
  unfold print_singlestack_run at h1 h2
  by_cases hlen : l.length < 4
  · rw [if_pos hlen] at h1 h2
    simp only [Except.ok.injEq] at h1 h2
    subst h1; subst h2
    exact le_refl _
  · rw [if_neg hlen] at h1 h2
    exact singlestack_loop_mono C1 C2 hle l.length l rfl true none 0 0 0 _ _ _ _ r1 r2
      (le_refl _) h1 h2

/-- Raising the notch spacing of the example rule set gives a rule set that is
no smaller. -/
theorem exEnv_le_exEnvWide : RulesLE exEnv exEnvWide := by
  refine ⟨rfl, fun _ _ => rfl, fun _ _ _ _ => le_refl _, fun _ _ => ?_, fun _ _ => le_refl _,
    fun _ _ _ => le_refl _, fun _ => le_refl _⟩
  show (2 : Int) ≤ 5
  decide

/-- C4, on the stack of widths `2`, `4`, `2`: raising the notch spacing from `2`
to `5` moves the final cursor from `21` to `26`. -/
theorem print_singlestack_length_monotone_witness :
    RulesLE exEnv exEnvWide ∧
    print_singlestack_run exEnv exStack242 = .ok exRun242 ∧
    print_singlestack_run exEnvWide exStack242 = .ok exRun242Wide ∧
    exRun242.xpos ≤ exRun242Wide.xpos :=
  ⟨exEnv_le_exEnvWide, by rfl, by rfl,
   print_singlestack_length_monotone exEnv exEnvWide exStack242 exRun242 exRun242Wide
     exEnv_le_exEnvWide (by rfl) (by rfl)⟩

/-! ## C5: the equal-width scenario -/

theorem update_rect_empty (r : Rect) (x y rx ry : Int)
    (he : r.llx ≥ r.urx ∨ r.lly ≥ r.ury) (hx : x ≤ rx) (hy : y ≤ ry) :
    update_rect r x y rx ry = ⟨x, y, rx, ry⟩ := by
  unfold update_rect
  rw [if_pos he]
  simp only [MIN_eq_min, MAX_eq_max, Rect.mk.injEq]
  omega

theorem update_rect_nonempty (r : Rect) (x y rx ry : Int)
    (he : ¬ (r.llx ≥ r.urx ∨ r.lly ≥ r.ury)) (hx : x ≤ rx) (hy : y ≤ ry) :
    update_rect r x y rx ry = ⟨min r.llx x, min r.lly y, max r.urx rx, max r.ury ry⟩ := by
  unfold update_rect
  rw [if_neg he]
  simp only [MIN_eq_min, MAX_eq_max, Rect.mk.injEq]
  omega

/-- The accumulator after `emit_draw` for a transition without notch: the first
diffusion rectangle and, on the right boundary, the closing one. -/
theorem emit_draw_box_same (C : Env) (pad dx dy : Int) (flags : Nat) (left : node_t)
    (e : edge_t) (eopp : Option edge_t) (oup e_w yup : Int) (b : BBox) (rect prev_w : Int) :
    (emit_draw C pad dx dy flags left e eopp oup e_w yup b 0 rect prev_w).2.1 =
      if flags &&& EDGE_FLAGS_RIGHT ≠ 0 then
        update_bbox (update_bbox b e.type dx dy (dx + (rect + pad)) (dy + yup * e_w)) e.type
          (dx + (rect + pad) + getlength C e) dy
          (dx + (rect + pad) + getlength C e
            + (C.getDiff e.type e.flavor).effOverhang e_w
                (if left.id = e.a.id then e.b else e.a).contact)
          (dy + yup * e_w)
      else update_bbox b e.type dx dy (dx + (rect + pad)) (dy + yup * e_w) := by
  simp [emit_draw]

theorem emit_draw_dx_same (C : Env) (pad dx dy : Int) (flags : Nat) (left : node_t)
    (e : edge_t) (eopp : Option edge_t) (oup e_w yup : Int) (b : BBox) (rect prev_w : Int) :
    (emit_draw C pad dx dy flags left e eopp oup e_w yup b 0 rect prev_w).1 =
      dx + (rect + pad) + getlength C e
        + (if flags &&& EDGE_FLAGS_RIGHT ≠ 0 then
            (C.getDiff e.type e.flavor).effOverhang e_w
              (if left.id = e.a.id then e.b else e.a).contact
           else 0) := by
  simp only [emit_draw]
  split_ifs <;> simp_all

/-- C5. A single stack of two N edges of the same flavor and of equal positive
width `w`, with non-negative gate lengths and no contact on the nodes involved,
under rules whose overhang `effOverhang (w, no contact)` and mid-spacing are
positive (so that no assertion fires): `print_singlestack` returns an
accumulator whose n-side x-extent `urx - llx` is left overhang + length 1 +
mid-spacing + length 2 + right overhang, the mid-spacing being the maximum of
fet spacing and poly spacing at both lengths. -/
theorem equal_width_stack_extent (C : Env) (n0 n1 n2 : node_t) (e1 e2 : edge_t)
    (i1 i2 : Int)
    (hN1 : e1.type = .EDGE_NFET) (hN2 : e2.type = .EDGE_NFET)
    (hfl : e2.flavor = e1.flavor)
    (hw : getwidth C i2 e2 = getwidth C i1 e1)
    (hwpos : 0 < getwidth C i1 e1)
    (hl1 : 0 ≤ getlength C e1) (hl2 : 0 ≤ getlength C e2)
    (hc0 : n0.contact = false) (hc1 : n1.contact = false)
    (hca : e2.a.contact = false) (hcb : e2.b.contact = false)
    (hov : 0 < (C.getDiff .EDGE_NFET e1.flavor).effOverhang (getwidth C i1 e1) false)
    (hmid : 0 < max (max ((C.getFet .EDGE_NFET e1.flavor).getSpacing (getlength C e1))
                         (C.getPoly.getSpacing (getlength C e1)))
                    (max ((C.getFet .EDGE_NFET e1.flavor).getSpacing (getlength C e2))
                         (C.getPoly.getSpacing (getlength C e2)))) :
    ∃ b, print_singlestack C
        [.node n0, .edge e1, .idx i1, .node n1, .edge e2, .idx i2, .node n2] = .ok b ∧
      b.n.urx - b.n.llx =
        (C.getDiff .EDGE_NFET e1.flavor).effOverhang (getwidth C i1 e1) false
        + getlength C e1
        + max (max ((C.getFet .EDGE_NFET e1.flavor).getSpacing (getlength C e1))
                   (C.getPoly.getSpacing (getlength C e1)))
              (max ((C.getFet .EDGE_NFET e1.flavor).getSpacing (getlength C e2))
                   (C.getPoly.getSpacing (getlength C e2)))
        + getlength C e2
        + (C.getDiff .EDGE_NFET e1.flavor).effOverhang (getwidth C i1 e1) false := by
  -- abbreviations
  generalize hovd : (C.getDiff .EDGE_NFET e1.flavor).effOverhang (getwidth C i1 e1) false = ov
    at hov ⊢
  generalize hmidd : max (max ((C.getFet .EDGE_NFET e1.flavor).getSpacing (getlength C e1))
                         (C.getPoly.getSpacing (getlength C e1)))
                    (max ((C.getFet .EDGE_NFET e1.flavor).getSpacing (getlength C e2))
                         (C.getPoly.getSpacing (getlength C e2))) = mid at hmid ⊢
  -- the first edge: left boundary, not the right one
  have hf1 : first_of (C.getDiff e1.type e1.flavor) (spc_of C none e1) 1
      (prev_width C none 0) (getwidth C i1 e1) n0.contact = ov := by
    simp [first_of, hN1, hc0, EDGE_FLAGS_LEFT, hovd]
  have hk1 : fet_type_of 1 (prev_width C none 0) (getwidth C i1 e1) = 0 := by
    simp [fet_type_of, EDGE_FLAGS_LEFT]
  -- the second edge: same width, right boundary
  have hf2 : first_of (C.getDiff e2.type e2.flavor) (spc_of C (some e1) e2) 2
      (prev_width C (some e1) i1) (getwidth C i2 e2) n1.contact = mid := by
    simp only [first_of, prev_width, hw, hc1, spc_of, hN2, hfl, EDGE_FLAGS_LEFT]
    simp
    omega
  have hk2 : fet_type_of 2 (prev_width C (some e1) i1) (getwidth C i2 e2) = 0 := by
    simp [fet_type_of, EDGE_FLAGS_LEFT, prev_width, hw]
  have hr2 : (C.getDiff .EDGE_NFET e2.flavor).effOverhang (getwidth C i1 e1)
      (if n1.id = e2.a.id then e2.b else e2.a).contact = ov := by
    rw [hfl, ← hovd]
    split <;> simp [hca, hcb]
  have e1eq := emit_rectangle_eq C 0 0 0 1 none 0 n0 e1 none 0 i1 1 (some zeroBBox)
    (Or.inl (by decide))
  rw [hf1, if_pos hov, hk1] at e1eq
  have e2eq := fun dx b => emit_rectangle_eq C 0 dx 0 2 (some e1) i1 n1 e2 none 0 i2 1 (some b)
    (Or.inr rfl)
  simp only [hf2, if_pos hmid, hk2] at e2eq
  simp only [print_singlestack, print_singlestack_run, List.length_cons, List.length_nil,
    singlestack_loop, List.isEmpty_cons, List.isEmpty_nil, if_true, if_false]
  have hflag1 : (EDGE_FLAGS_LEFT ||| if false = true then EDGE_FLAGS_RIGHT else 0) = 1 := by
    decide
  have hflag2 : ((if false = true then EDGE_FLAGS_LEFT else 0) ||| EDGE_FLAGS_RIGHT) = 2 := by
    decide
  have hlen : ¬ (0 + 1 + 1 + 1 + 1 + 1 + 1 + 1 < 4) := by decide
  rw [if_neg hlen, hflag1, hflag2, e1eq]
  simp only [e2eq, Option.map_some', Option.getD_some]
  refine ⟨_, rfl, ?_⟩
  have hR1 : (1 : Nat) &&& EDGE_FLAGS_RIGHT = 0 := by decide
  have hR2 : (2 : Nat) &&& EDGE_FLAGS_RIGHT ≠ 0 := by decide
  simp only [emit_draw_box_same, emit_draw_dx_same, hR1, if_pos hR2, ne_eq, not_true_eq_false,
    if_false, hr2, start_box, hN1, hN2, update_bbox, zeroBBox, hw]
  simp only [reduceCtorEq, if_false, add_zero, zero_add, one_mul]
  have s1 : update_rect ⟨0, 0, 0, 0⟩ 0 0 ov (getwidth C i1 e1)
      = ⟨0, 0, ov, getwidth C i1 e1⟩ :=
    update_rect_empty _ _ _ _ _ (Or.inl (le_refl _)) (le_of_lt hov) (le_of_lt hwpos)
  have s2 : update_rect ⟨0, 0, ov, getwidth C i1 e1⟩ (ov + getlength C e1) 0
      (ov + getlength C e1 + mid) (getwidth C i1 e1)
      = ⟨0, 0, ov + getlength C e1 + mid, getwidth C i1 e1⟩ := by
    rw [update_rect_nonempty _ _ _ _ _ (by simp only [ge_iff_le]; omega) (by omega)
      (le_of_lt hwpos)]
    simp only [Rect.mk.injEq]
    omega
  have s3 : update_rect ⟨0, 0, ov + getlength C e1 + mid, getwidth C i1 e1⟩
      (ov + getlength C e1 + mid + getlength C e2) 0
      (ov + getlength C e1 + mid + getlength C e2 + ov) (getwidth C i1 e1)
      = ⟨0, 0, ov + getlength C e1 + mid + getlength C e2 + ov, getwidth C i1 e1⟩ := by
    rw [update_rect_nonempty _ _ _ _ _ (by simp only [ge_iff_le]; omega) (by omega)
      (le_of_lt hwpos)]
    simp only [Rect.mk.injEq]
    omega
  rw [s1, s2, s3]
  simp

/-- C5, on two N edges of width `2` and lengths `1` and `2` under the example
rule set: the extent is `3 + 1 + 4 + 2 + 3 = 13`. -/
theorem equal_width_stack_extent_witness :
    ∃ b, print_singlestack exEnv
        [.node (exNode 1), .edge (exEdge .EDGE_NFET 1 2 2 1), .idx 0,
         .node (exNode 2), .edge (exEdge .EDGE_NFET 2 3 2 2), .idx 0,
         .node (exNode 3)] = .ok b ∧
      b.n.urx - b.n.llx = 13 :=
  equal_width_stack_extent exEnv (exNode 1) (exNode 2) (exNode 3)
    (exEdge .EDGE_NFET 1 2 2 1) (exEdge .EDGE_NFET 2 3 2 2) 0 0
    rfl rfl rfl (by rfl) (by decide) (by decide) (by decide) rfl rfl rfl rfl
    (by decide) (by decide)

/-! ## C6 and C7: the rectangles drawn for one edge -/

theorem isDiff_DrawDiff (fl : Nat) (t : EdgeType) (x y wx wy : Int) (net : Option node_t) :
    (Draw.DrawDiff fl t x y wx wy net).isDiff = true := rfl

theorem isDiff_DrawFet (fl : Nat) (t : EdgeType) (x y wx wy : Int) (net : Option node_t) :
    (Draw.DrawFet fl t x y wx wy net).isDiff = false := rfl

theorem isDiff_DrawPoly (x y wx wy : Int) (net : Option node_t) :
    (Draw.DrawPoly x y wx wy net).isDiff = false := rfl

theorem size_DrawDiff (fl : Nat) (t : EdgeType) (x y wx wy : Int) (net : Option node_t) :
    (Draw.DrawDiff fl t x y wx wy net).size = (wx, wy) := rfl

theorem size_DrawFet (fl : Nat) (t : EdgeType) (x y wx wy : Int) (net : Option node_t) :
    (Draw.DrawFet fl t x y wx wy net).size = (wx, wy) := rfl

theorem size_DrawPoly (x y wx wy : Int) (net : Option node_t) :
    (Draw.DrawPoly x y wx wy net).size = (wx, wy) := rfl

/-- The sizes of the diffusion rectangles drawn by `emit_draw`, in order: the
first pre-gate rectangle, the second one of a notch, the closing one on the
right boundary.  The padding goes to the first rectangle unless the transition
is a down-notch (`fet_type = -1`), where it goes to the second. -/
theorem emit_draw_diff_sizes (C : Env) (pad dx dy : Int) (flags : Nat) (left : node_t)
    (e : edge_t) (eopp : Option edge_t) (oup e_w yup : Int) (b : BBox)
    (fet_type rect prev_w : Int) :
    ((emit_draw C pad dx dy flags left e eopp oup e_w yup b fet_type rect prev_w).2.2.filter
        Draw.isDiff).map Draw.size =
      [((if fet_type ≠ -1 then rect + pad else rect),
        span yup (if fet_type = 0 then e_w else prev_w))]
      ++ (if fet_type ≠ 0 then
            [((if fet_type < 0 then notch_of (C.getDiff e.type e.flavor) e_w left.contact
               else (C.getDiff e.type e.flavor).effOverhang e_w false)
              + (if fet_type ≠ -1 then 0 else pad), span yup e_w)]
          else [])
      ++ (if flags &&& EDGE_FLAGS_RIGHT ≠ 0 then
            [((C.getDiff e.type e.flavor).effOverhang e_w
                (if left.id = e.a.id then e.b else e.a).contact, span yup e_w)]
          else []) := by
  simp only [emit_draw, notch_of, MAX_eq_max, span]
  by_cases h0 : fet_type = 0
  · subst h0
    by_cases hy : yup < 0 <;> by_cases hr : flags &&& EDGE_FLAGS_RIGHT = 0 <;>
      simp [hy, hr, isDiff_DrawDiff, isDiff_DrawFet, isDiff_DrawPoly, size_DrawDiff,
        apply_ite Draw.isDiff]
  · by_cases h1 : fet_type = -1
    · subst h1
      by_cases hy : yup < 0 <;> by_cases hr : flags &&& EDGE_FLAGS_RIGHT = 0 <;>
        cases hc : left.contact <;>
        simp [hy, hr, hc, isDiff_DrawDiff, isDiff_DrawFet, isDiff_DrawPoly, size_DrawDiff,
          apply_ite Draw.isDiff]
    · by_cases hy : yup < 0 <;> by_cases hr : flags &&& EDGE_FLAGS_RIGHT = 0 <;>
        by_cases hn : fet_type < 0 <;> cases hc : left.contact <;>
        simp [hy, hr, hc, h0, h1, hn, isDiff_DrawDiff, isDiff_DrawFet, isDiff_DrawPoly,
          size_DrawDiff, apply_ite Draw.isDiff]

theorem getwidth_eq (C : Env) (i : Int) (e : edge_t) :
    getwidth C i e = C.EDGE_WIDTH e i * C._lambda_to_scale := by
  unfold getwidth
  cases e.type <;> rfl

/-- C6, as stated, fails: on the stack of widths `2`, `4`, `2` the run draws six
diffusion rectangles, not five; the closing rectangle of the right boundary
comes after the two of the down-notch. -/
theorem notch_stack_draws_six :
    print_singlestack_run exEnv exStack242 = .ok exRun242 ∧
    (exRun242.drawn.filter Draw.isDiff).length = 6 ∧
    (exRun242.drawn.filter Draw.isDiff).length ≠ 5 :=
  ⟨by rfl, by decide, by decide⟩

/-- C6, amended. For a single stack of three edges with widths `2`, `4`, `2`
(at positive scale `s`), a run of `print_singlestack` that passes its assertions
draws exactly six diffusion rectangles, in this order and with these sizes: the
left overhang at width `2`, the up-notch extension at width `2`, the step
(overhang of width `4`) at width `4`, the first down-notch rectangle (overhang
of width `2`) at width `4`, the second down-notch rectangle (notch spacing) at
width `2`, and the closing overhang at width `2`.  The final cursor is the sum
of these six rule-derived lengths plus the three gate lengths. -/
theorem notch_stack_six_segments (C : Env) (n0 n1 n2 n3 : node_t) (e1 e2 e3 : edge_t)
    (i1 i2 i3 : Int) (r : StackResult)
    (hs : 0 < C._lambda_to_scale)
    (hw1 : C.EDGE_WIDTH e1 i1 = 2) (hw2 : C.EDGE_WIDTH e2 i2 = 4)
    (hw3 : C.EDGE_WIDTH e3 i3 = 2)
    (hr : print_singlestack_run C
        [.node n0, .edge e1, .idx i1, .node n1, .edge e2, .idx i2,
         .node n2, .edge e3, .idx i3, .node n3] = .ok r) :
    let s := C._lambda_to_scale
    let d1 := C.getDiff e1.type e1.flavor
    let d2 := C.getDiff e2.type e2.flavor
    let d3 := C.getDiff e3.type e3.flavor
    let seg1 := d1.effOverhang (2 * s) n0.contact
    let seg2 := max (notch_of d2 (4 * s) n1.contact) (spc_of C (some e1) e2)
    let seg3 := d2.effOverhang (4 * s) false
    let seg4 := d3.effOverhang (2 * s) false
    let seg5 := notch_of d3 (2 * s) n2.contact
    let seg6 := d3.effOverhang (2 * s) (if n2.id = e3.a.id then e3.b else e3.a).contact
    (r.drawn.filter Draw.isDiff).map Draw.size =
        [(seg1, 2 * s), (seg2, 2 * s), (seg3, 4 * s), (seg4, 4 * s), (seg5, 2 * s),
         (seg6, 2 * s)] ∧
      r.xpos = seg1 + seg2 + seg3 + seg4 + seg5 + seg6
                + getlength C e1 + getlength C e2 + getlength C e3 := by
  intro s d1 d2 d3 seg1 seg2 seg3 seg4 seg5 seg6
  have g1 : getwidth C i1 e1 = 2 * s := by rw [getwidth_eq, hw1]
  have g2 : getwidth C i2 e2 = 4 * s := by rw [getwidth_eq, hw2]
  have g3 : getwidth C i3 e3 = 2 * s := by rw [getwidth_eq, hw3]
  have hlt : 2 * s < 4 * s := by omega
  have hne : (2 * s = 4 * s) = False := by simp; omega
  have hne' : (4 * s = 2 * s) = False := by simp; omega
  have hnlt : (4 * s < 2 * s) = False := by simp; omega
  have hflag1 : (EDGE_FLAGS_LEFT ||| if false = true then EDGE_FLAGS_RIGHT else 0) = 1 := by
    decide
  have hflag2 : ((if false = true then EDGE_FLAGS_LEFT else 0) |||
      if false = true then EDGE_FLAGS_RIGHT else 0) = 0 := by decide
  have hflag3 : ((if false = true then EDGE_FLAGS_LEFT else 0) ||| EDGE_FLAGS_RIGHT) = 2 := by
    decide
  have hL1 : (1 : Nat) &&& EDGE_FLAGS_LEFT ≠ 0 := by decide
  have hL0 : (0 : Nat) &&& EDGE_FLAGS_LEFT = 0 := by decide
  have hL2 : (2 : Nat) &&& EDGE_FLAGS_LEFT = 0 := by decide
  have hR1 : (1 : Nat) &&& EDGE_FLAGS_RIGHT = 0 := by decide
  have hR0 : (0 : Nat) &&& EDGE_FLAGS_RIGHT = 0 := by decide
  have hR2 : (2 : Nat) &&& EDGE_FLAGS_RIGHT ≠ 0 := by decide
  have hlen : ¬ (0 + 1 + 1 + 1 + 1 + 1 + 1 + 1 + 1 + 1 + 1 < 4) := by decide
  simp only [print_singlestack_run, List.length_cons, List.length_nil, if_neg hlen,
    singlestack_loop, List.isEmpty_cons, List.isEmpty_nil, if_true, hflag1, hflag2, hflag3]
    at hr
  split at hr
  · exact absurd hr (by simp)
  rename_i ra hra
  split at hr
  · exact absurd hr (by simp)
  rename_i rb hrb
  split at hr
  · exact absurd hr (by simp)
  rename_i rc hrc
  simp only [Except.ok.injEq] at hr
  subst hr
  rw [emit_rectangle_eq _ _ _ _ _ _ _ _ _ _ _ _ _ _ (Or.inl hL1)] at hra
  rw [emit_rectangle_eq _ _ _ _ _ (some e1) _ _ _ _ _ _ _ _ (Or.inr rfl)] at hrb
  rw [emit_rectangle_eq _ _ _ _ _ (some e2) _ _ _ _ _ _ _ _ (Or.inr rfl)] at hrc
  have pL1 : ((1 : Nat) &&& EDGE_FLAGS_LEFT ≠ 0) = True := eq_true hL1
  have pL0 : ((0 : Nat) &&& EDGE_FLAGS_LEFT ≠ 0) = False := eq_false (not_not.mpr hL0)
  have pL2 : ((2 : Nat) &&& EDGE_FLAGS_LEFT ≠ 0) = False := eq_false (not_not.mpr hL2)
  have k1 : fet_type_of 1 0 (2 * s) = 0 := by
    simp only [fet_type_of, pL1, if_true]
  have k2 : fet_type_of 0 (2 * s) (4 * s) = 1 := by
    simp only [fet_type_of, pL0, hne, hlt, if_true, if_false]
  have k3 : fet_type_of 2 (4 * s) (2 * s) = -1 := by
    simp only [fet_type_of, pL2, hne', hnlt, if_false]
  have f1 : first_of (C.getDiff e1.type e1.flavor) (spc_of C none e1) 1
      0 (2 * s) n0.contact = seg1 := by
    simp only [first_of, pL1, if_true, seg1, d1]
  have f2 : first_of (C.getDiff e2.type e2.flavor) (spc_of C (some e1) e2) 0
      (2 * s) (4 * s) n1.contact = seg2 := by
    simp only [first_of, pL0, hne, hlt, if_true, if_false, seg2, d2]
  have f3 : first_of (C.getDiff e3.type e3.flavor) (spc_of C (some e2) e3) 2
      (4 * s) (2 * s) n2.contact = seg4 := by
    simp only [first_of, pL2, hne', hnlt, if_false, seg4, d3]
  simp only [g1, g2, g3, prev_width, k1, k2, k3, f1, f2, f3] at hra hrb hrc
  split at hra
  swap
  · exact absurd hra (by simp)
  split at hrb
  swap
  · exact absurd hrb (by simp)
  split at hrc
  swap
  · exact absurd hrc (by simp)
  simp only [Except.ok.injEq] at hra hrb hrc
  have xa := congrArg EmitResult.dx hra
  have xb := congrArg EmitResult.dx hrb
  have xc := congrArg EmitResult.dx hrc
  have da := congrArg (fun r => (r.drawn.filter Draw.isDiff).map Draw.size) hra
  have db := congrArg (fun r => (r.drawn.filter Draw.isDiff).map Draw.size) hrb
  have dc := congrArg (fun r => (r.drawn.filter Draw.isDiff).map Draw.size) hrc
  simp only [emit_draw_dx, emit_draw_diff_sizes, closing_of, span] at xa xb xc da db dc
  simp [hR1, hR0, hR2, hL0, hL1, hL2] at xa xb xc da db dc
  refine ⟨?_, ?_⟩
  · simp only [List.nil_append, List.filter_append, List.map_append, ← da, ← db, ← dc]
    rfl
  · show rc.dx = _
    rw [← xc, ← xb, ← xa]
    simp only [seg3, seg5, seg6, d2, d3]
    ring

/-- C6, amended, on the example stack: the six diffusion rectangles have the
sizes `3x2`, `3x2`, `4x4`, `3x4`, `2x2`, `3x2`, and the final cursor is
`18 + 3 = 21`. -/
theorem notch_stack_six_segments_witness :
    (exRun242.drawn.filter Draw.isDiff).map Draw.size =
        [(3, 2), (3, 2), (4, 4), (3, 4), (2, 2), (3, 2)] ∧
      exRun242.xpos = 3 + 3 + 4 + 3 + 2 + 3 + 1 + 1 + 1 :=
  notch_stack_six_segments exEnv (exNode 1) (exNode 2) (exNode 3) (exNode 4)
    (exEdge .EDGE_NFET 1 2 2 1) (exEdge .EDGE_NFET 2 3 4 1) (exEdge .EDGE_NFET 3 4 2 1)
    0 0 0 exRun242 (by decide) rfl rfl rfl (by rfl)

/-! ## C7: where the padding goes -/

/-- The sizes of all rectangles drawn by `emit_draw` with padding `pad` are the
sizes drawn without padding, except for one rectangle that is wider by `pad`:
the first one, or the second one in a down-notch (`fet_type = -1`). -/
theorem emit_draw_sizes_pad (C : Env) (pad dx dy : Int) (flags : Nat) (left : node_t)
    (e : edge_t) (eopp : Option edge_t) (oup e_w yup : Int) (b : BBox)
    (fet_type rect prev_w : Int) :
    (emit_draw C pad dx dy flags left e eopp oup e_w yup b fet_type rect prev_w).2.2.map
        Draw.size =
      widen pad (if fet_type = -1 then 1 else 0)
        ((emit_draw C 0 dx dy flags left e eopp oup e_w yup b fet_type rect prev_w).2.2.map
          Draw.size) := by
  simp only [emit_draw]
  by_cases h0 : fet_type = 0
  · subst h0
    by_cases hy : yup < 0 <;> by_cases hr : flags &&& EDGE_FLAGS_RIGHT = 0 <;>
      simp [hy, hr, size_DrawDiff, size_DrawFet, size_DrawPoly, apply_ite Draw.size, widen]
  · by_cases h1 : fet_type = -1
    · subst h1
      by_cases hy : yup < 0 <;> by_cases hr : flags &&& EDGE_FLAGS_RIGHT = 0 <;>
        simp [hy, hr, size_DrawDiff, size_DrawFet, size_DrawPoly, apply_ite Draw.size, widen]
    · by_cases hy : yup < 0 <;> by_cases hr : flags &&& EDGE_FLAGS_RIGHT = 0 <;>
        simp [hy, hr, h0, h1, size_DrawDiff, size_DrawFet, size_DrawPoly,
          apply_ite Draw.size, widen]

/-- C7, as stated, fails: in a down-notch (width `4` then `2`) with padding `5`
the first pre-gate diffusion rectangle keeps its length `3`, and the second one
is drawn with length `2 + 5 = 7`. -/
theorem down_notch_pads_second_rectangle :
    emit_rectangle exEnv 5 10 0 0 (some (exEdge .EDGE_NFET 1 2 4 1)) 0 (exNode 2)
        (exEdge .EDGE_NFET 2 3 2 1) none 0 0 1 none =
      .ok { dx := 21, ret := none,
            drawn := [.DrawDiff 0 .EDGE_NFET 10 0 3 4 none,
                      .DrawDiff 0 .EDGE_NFET 13 0 7 2 none,
                      .DrawFet 0 .EDGE_NFET 20 0 1 2 none,
                      .DrawPoly 20 (-1) 1 1 (some (exNode 100)),
                      .DrawPoly 20 2 1 2 none] } ∧
    emit_rectangle exEnv 0 10 0 0 (some (exEdge .EDGE_NFET 1 2 4 1)) 0 (exNode 2)
        (exEdge .EDGE_NFET 2 3 2 1) none 0 0 1 none =
      .ok { dx := 16, ret := none,
            drawn := [.DrawDiff 0 .EDGE_NFET 10 0 3 4 none,
                      .DrawDiff 0 .EDGE_NFET 13 0 2 2 none,
                      .DrawFet 0 .EDGE_NFET 15 0 1 2 none,
                      .DrawPoly 15 (-1) 1 1 (some (exNode 100)),
                      .DrawPoly 15 2 1 2 none] } :=
  ⟨by rfl, by rfl⟩

/-- C7, amended. For every edge, transition kind and padding, a call of
`emit_rectangle` that returns draws the same rectangles, with the same sizes, as
the call without padding, except that exactly one pre-gate diffusion rectangle
is wider by `pad`: the first rectangle drawn when the transition is the left
boundary, same width or an up-notch, and the second rectangle drawn (the notch
spacing) when it is a down-notch.  The gate, the poly rectangles and the closing
diffusion keep their sizes, and the returned cursor moves by `pad`. -/
theorem emit_rectangle_padding_once (C : Env) (pad dx dy : Int) (flags : Nat)
    (prev : Option edge_t) (previdx : Int) (left : node_t) (e : edge_t)
    (eopp : Option edge_t) (oup eidx yup : Int) (ret : Option BBox) (r : EmitResult)
    (hr : emit_rectangle C pad dx dy flags prev previdx left e eopp oup eidx yup ret = .ok r) :
    ∃ r0, emit_rectangle C 0 dx dy flags prev previdx left e eopp oup eidx yup ret = .ok r0 ∧
      r.drawn.map Draw.size =
        widen pad
          (if fet_type_of flags (prev_width C prev previdx) (getwidth C eidx e) = -1 then 1
           else 0)
          (r0.drawn.map Draw.size) ∧
      r.dx = r0.dx + pad := by
  rcases prev_cases flags prev with hprev | ⟨hl, rfl⟩
  · rw [emit_rectangle_eq C pad dx dy flags prev previdx left e eopp oup eidx yup ret hprev] at hr
    rw [emit_rectangle_eq C 0 dx dy flags prev previdx left e eopp oup eidx yup ret hprev]
    split at hr
    · rename_i hpos
      rw [if_pos hpos]
      have hr' := Except.ok.inj hr
      subst hr'
      refine ⟨_, rfl, ?_, ?_⟩
      · exact emit_draw_sizes_pad C pad dx dy flags left e eopp oup (getwidth C eidx e) yup
          (start_box ret e) (fet_type_of flags (prev_width C prev previdx) (getwidth C eidx e))
          (first_of (C.getDiff e.type e.flavor) (spc_of C prev e) flags
            (prev_width C prev previdx) (getwidth C eidx e) left.contact)
          (if flags &&& EDGE_FLAGS_LEFT ≠ 0 then 0 else prev_width C prev previdx)
      · simp only [emit_draw_dx]
        ring
    · exact absurd hr (by simp)
  · rw [emit_rectangle_no_prev C pad dx dy flags previdx left e eopp oup eidx yup ret hl] at hr
    exact absurd hr (by simp)

/-- C7, amended, on an up-notch (width `2` then `4`) with padding `5`: the first
rectangle grows from `3` to `8`, every other size is unchanged. -/
theorem emit_rectangle_padding_once_witness :
    ∃ r0, emit_rectangle exEnv 0 10 0 0 (some (exEdge .EDGE_NFET 1 2 2 1)) 0 (exNode 2)
        (exEdge .EDGE_NFET 2 3 4 1) none 0 0 1 none = .ok r0 ∧
      [(8, 2), (4, 4), (1, 4), (1, 1), (1, 2)] = widen 5 0 (r0.drawn.map Draw.size) ∧
      (23 : Int) = r0.dx + 5 :=
  emit_rectangle_padding_once exEnv 5 10 0 0 (some (exEdge .EDGE_NFET 1 2 2 1)) 0 (exNode 2)
    (exEdge .EDGE_NFET 2 3 4 1) none 0 0 1 none
    { dx := 23, ret := none,
      drawn := [.DrawDiff 0 .EDGE_NFET 10 0 8 2 none,
                .DrawDiff 0 .EDGE_NFET 18 0 4 4 none,
                .DrawFet 0 .EDGE_NFET 22 0 1 4 none,
                .DrawPoly 22 (-1) 1 1 (some (exNode 100)),
                .DrawPoly 22 4 1 2 none] }
    (by rfl)

/-! ## C8: padding and gate alignment of a base pair -/

/-- The two paddings are non-negative, at least one of them is zero, their sum
is the distance between the two planned gate positions, and each planned
position plus its padding is the larger of the two. -/
theorem compute_pad_spec (fposn fposp : Int) :
    0 ≤ (compute_pad fposn fposp).1 ∧ 0 ≤ (compute_pad fposn fposp).2 ∧
    ((compute_pad fposn fposp).1 = 0 ∨ (compute_pad fposn fposp).2 = 0) ∧
    (compute_pad fposn fposp).1 + (compute_pad fposn fposp).2 = |fposn - fposp| ∧
    fposn + (compute_pad fposn fposp).1 = max fposn fposp ∧
    fposp + (compute_pad fposn fposp).2 = max fposn fposp := by
  by_cases h : fposn > fposp
  · have ha : |fposn - fposp| = fposn - fposp := abs_of_pos (show (0 : Int) < fposn - fposp by omega)
    rw [ha]
    simp only [compute_pad, if_pos h]
    refine ⟨?_, ?_, ?_, ?_, ?_, ?_⟩ <;> first | omega | simp
  · have ha : |fposn - fposp| = -(fposn - fposp) := abs_of_nonpos (show fposn - fposp ≤ 0 by omega)
    rw [ha]
    simp only [compute_pad, if_neg h]
    refine ⟨?_, ?_, ?_, ?_, ?_, ?_⟩ <;> first | omega | simp

/-- C8, the code at a failing input. The N edge is fold `1` of an edge of total
width `5` in two folds, so its own width is `2` and its width at fold `0` is
`3`.  `locate_fetedge` reads the width at fold `0` and plans the N gate at `4`
and the P gate at `3`; the padding `1` goes to the P row.  `emit_rectangle`
reads the width at the fold index and draws the N gate at `x = 3` and the P gate
at `x = 4`: the gates are not aligned, and the N gate is not at
`max (fposn, fposp) = 4`. -/
theorem fold_width_misaligns_gates :
    locate_fetedge foldEnv 0 (EDGE_FLAGS_LEFT ||| EDGE_FLAGS_RIGHT) none 0 (exNode 1)
      (exEdge .EDGE_NFET 1 2 5 1) 1 = .ok 4 ∧
    locate_fetedge foldEnv 0 (EDGE_FLAGS_LEFT ||| EDGE_FLAGS_RIGHT) none 0 (exNode 11)
      (exEdge .EDGE_PFET 11 12 4 1) 0 = .ok 3 ∧
    compute_pad 4 3 = (0, 1) ∧
    print_dualstack_run foldEnv exFoldPair 10 = .ok exFoldRun ∧
    (exFoldRun.drawn.filter Draw.isFet).map Draw.x = [3, 4] :=
  ⟨by rfl, by rfl, by rfl, by rfl, by rfl⟩

/-! ## C9 and C10: the cursors of the two rows -/

theorem dualstack_step_only_n (C : Env) (gp_l_n gp_l_p : Option node_t) (yn yp : Int)
    (s s1 : DualState) (n : edge_t) (l_n l_p : Option node_t) (n_start p_start : Int)
    (next : Option gate_pairs)
    (h : dualstack_step C gp_l_n gp_l_p yn yp s (.basepair (some n) none l_n l_p n_start p_start)
      next = .ok s1) :
    s1.xpos = s1.xpos_p := by
  simp only [dualstack_step] at h
  split at h
  · exact absurd h (by simp)
  split at h
  · exact absurd h (by simp)
  split at h
  · exact absurd h (by simp)
  rename_i hN
  split at hN
  · exact absurd hN (by simp)
  have h1 := Except.ok.inj h
  have h2 := Except.ok.inj hN
  subst h1
  subst h2
  rfl

theorem dualstack_step_only_p (C : Env) (gp_l_n gp_l_p : Option node_t) (yn yp : Int)
    (s s1 : DualState) (p : edge_t) (l_n l_p : Option node_t) (n_start p_start : Int)
    (next : Option gate_pairs)
    (h : dualstack_step C gp_l_n gp_l_p yn yp s (.basepair none (some p) l_n l_p n_start p_start)
      next = .ok s1) :
    s1.xpos = s1.xpos_p := by
  simp only [dualstack_step] at h
  split at h
  · exact absurd h (by simp)
  split at h
  · exact absurd h (by simp)
  split at h
  · exact absurd h (by simp)
  have h1 := Except.ok.inj h
  subst h1
  simp

/-- Planning and emission agree for an edge that is as wide at its fold index as
at fold `0`: the cursor returned by `emit_rectangle` is the planned gate
position, moved by the padding, plus the gate length and the closing
diffusion. -/
theorem emit_after_locate (C : Env) (pad dx dy : Int) (flags : Nat) (prev : Option edge_t)
    (previdx : Int) (left : node_t) (e : edge_t) (eopp : Option edge_t) (oup eidx yup : Int)
    (ret : Option BBox) (r : EmitResult) (f : Int)
    (he : emit_rectangle C pad dx dy flags prev previdx left e eopp oup eidx yup ret = .ok r)
    (hl : locate_fetedge C dx flags prev previdx left e eidx = .ok f)
    (hw : getwidth C 0 e = getwidth C eidx e) :
    r.dx = f + pad + getlength C e
      + closing_of (C.getDiff e.type e.flavor) flags (getwidth C eidx e) left e := by
  have h1 := (emit_rectangle_dx C pad dx dy flags prev previdx left e eopp oup eidx yup ret r
    he).2
  rcases prev_cases flags prev with hprev | ⟨hl0, rfl⟩
  · rw [locate_fetedge_eq C dx flags prev previdx left e eidx hprev, hw] at hl
    split at hl
    · have h2 := Except.ok.inj hl
      rw [h1, ← h2]
      ring
    · exact absurd hl (by simp)
  · rw [locate_fetedge_no_prev C dx flags previdx left e eidx hl0] at hl
    exact absurd hl (by simp)

theorem flags_with_right (c : Prop) [Decidable c] :
    ((if c then 0 ||| EDGE_FLAGS_LEFT else 0) ||| EDGE_FLAGS_RIGHT) &&& EDGE_FLAGS_RIGHT ≠ 0 := by
  split <;> decide

theorem closing_of_right (d : DiffMat) (flags : Nat) (e_w : Int) (left : node_t) (e : edge_t)
    (h : flags &&& EDGE_FLAGS_RIGHT ≠ 0) :
    closing_of d flags e_w left e
      = d.effOverhang e_w (if left.id = e.a.id then e.b else e.a).contact := by
  unfold closing_of
  rw [if_pos h]

theorem locate_fetedge_at_ok (C : Env) (dx : Int) (flags : Nat) (prev : Option edge_t)
    (previdx : Int) (left : Option node_t) (e : edge_t) (eidx : Int) (f : Int)
    (h : locate_fetedge_at C dx flags prev previdx left e eidx = .ok f) :
    ∃ ln, left = some ln ∧ locate_fetedge C dx flags prev previdx ln e eidx = .ok f := by
  cases left with
  | none => exact absurd h (by simp [locate_fetedge_at])
  | some ln => exact ⟨ln, rfl, h⟩

theorem emit_rectangle_at_ok (C : Env) (pad dx dy : Int) (flags : Nat) (prev : Option edge_t)
    (previdx : Int) (left : Option node_t) (e : edge_t) (eopp : Option edge_t)
    (oup eidx yup : Int) (ret : Option BBox) (r : EmitResult)
    (h : emit_rectangle_at C pad dx dy flags prev previdx left e eopp oup eidx yup ret = .ok r) :
    ∃ ln, left = some ln ∧
      emit_rectangle C pad dx dy flags prev previdx ln e eopp oup eidx yup ret = .ok r := by
  cases left with
  | none => exact absurd h (by simp [emit_rectangle_at])
  | some ln => exact ⟨ln, rfl, h⟩

/-- A run of the loop over a non-empty list ends with the step on its last cell,
taken without a following cell. -/
theorem dualstack_loop_last (C : Env) (gp_l_n gp_l_p : Option node_t) (yn yp : Int) :
    ∀ (l : List gate_pairs) (s s1 : DualState) (tmp : gate_pairs),
      dualstack_loop C gp_l_n gp_l_p yn yp s l = .ok s1 →
      l.getLast? = some tmp →
      ∃ s0, dualstack_step C gp_l_n gp_l_p yn yp s0 tmp none = .ok s1 := by
  intro l
  induction l with
  | nil =>
    intro s s1 tmp _ hlast
    exact absurd hlast (by simp)
  | cons a rest ih =>
    intro s s1 tmp h hlast
    simp only [dualstack_loop] at h
    split at h
    · exact absurd h (by simp)
    rename_i s2 hstep
    cases rest with
    | nil =>
      simp only [List.getLast?_singleton, Option.some.injEq] at hlast
      subst hlast
      simp only [dualstack_loop, Except.ok.injEq] at h
      subst h
      exact ⟨s, hstep⟩
    | cons b rest2 =>
      rw [List.getLast?_cons_cons] at hlast
      exact ih s2 s1 tmp h hlast

/-- The cursors returned for a composite dual stack are those left by the step
on its last base pair. -/
theorem dualstack_run_last_step (C : Env) (l : List gate_pairs) (l_n l_p : Option node_t)
    (diffspace : Int) (r : DualResult) (tmp : gate_pairs)
    (hr : print_dualstack_run C (.composite l l_n l_p) diffspace = .ok r)
    (hlast : l.getLast? = some tmp) :
    ∃ s0 s1, dualstack_step C l_n l_p (Int.tdiv diffspace 2 - diffspace) (Int.tdiv diffspace 2)
        s0 tmp none = .ok s1 ∧ r.xpos = s1.xpos ∧ r.xpos_p = s1.xpos_p := by
  simp only [print_dualstack_run] at hr
  split at hr
  · exact absurd hr (by simp)
  split at hr
  · exact absurd hr (by simp)
  split at hr
  · exact absurd hr (by simp)
  rename_i s1 hloop
  obtain ⟨s0, hs0⟩ := dualstack_loop_last C l_n l_p _ _ _ _ _ tmp hloop hlast
  have h := Except.ok.inj hr
  subst h
  exact ⟨s0, s1, hs0, rfl, rfl⟩

/-- C9, as stated, fails: for a base pair with an N edge of width `2` and a P
edge of width `4` (overhang `3` and `4`), both gates start at `x = 4` and the
rows end at different places, `xpos = 8` and `xpos_p = 9`. -/
theorem final_cursors_differ :
    print_dualstack_run exEnv exWidePair 10 = .ok exWideRun ∧
    exWideRun.xpos = 8 ∧ exWideRun.xpos_p = 9 ∧ exWideRun.xpos ≠ exWideRun.xpos_p :=
  ⟨by rfl, by rfl, by rfl, by decide⟩

/-- C10. After `print_dualstack` has processed a base pair in which only one row
has an edge, the cursor of the other row equals the cursor of the emitting row
(for an N edge alone and for a P edge alone); in particular, for a composite
dual stack with an N row of two edges and a P row of one edge, the second base
pair having only an N edge, the final cursors of the two rows are equal. -/
theorem single_edge_pair_copies_cursor (C : Env) (gp_l_n gp_l_p : Option node_t) :
    (∀ (yn yp : Int) (s s1 : DualState) (n : edge_t) (l_n l_p : Option node_t)
        (n_start p_start : Int) (next : Option gate_pairs),
        dualstack_step C gp_l_n gp_l_p yn yp s
          (.basepair (some n) none l_n l_p n_start p_start) next = .ok s1 →
        s1.xpos_p = s1.xpos) ∧
    (∀ (yn yp : Int) (s s1 : DualState) (p : edge_t) (l_n l_p : Option node_t)
        (n_start p_start : Int) (next : Option gate_pairs),
        dualstack_step C gp_l_n gp_l_p yn yp s
          (.basepair none (some p) l_n l_p n_start p_start) next = .ok s1 →
        s1.xpos = s1.xpos_p) ∧
    (∀ (n1 p1 n2 : edge_t) (a1 b1 a2 b2 : Option node_t) (ns1 ps1 ns2 ps2 diffspace : Int)
        (r : DualResult),
        print_dualstack_run C
          (.composite [.basepair (some n1) (some p1) a1 b1 ns1 ps1,
                       .basepair (some n2) none a2 b2 ns2 ps2] gp_l_n gp_l_p) diffspace
          = .ok r →
        r.xpos = r.xpos_p) := by
  refine ⟨?_, ?_, ?_⟩
  · intro yn yp s s1 n l_n l_p n_start p_start next h
    exact (dualstack_step_only_n C gp_l_n gp_l_p yn yp s s1 n l_n l_p n_start p_start next h).symm
  · intro yn yp s s1 p l_n l_p n_start p_start next h
    exact dualstack_step_only_p C gp_l_n gp_l_p yn yp s s1 p l_n l_p n_start p_start next h
  · intro n1 p1 n2 a1 b1 a2 b2 ns1 ps1 ns2 ps2 diffspace r hr
    obtain ⟨s0, s1, hstep, hx, hxp⟩ :=
      dualstack_run_last_step C _ gp_l_n gp_l_p diffspace r
        (.basepair (some n2) none a2 b2 ns2 ps2) hr (by rfl)
    rw [hx, hxp]
    exact dualstack_step_only_n C gp_l_n gp_l_p _ _ s0 s1 n2 a2 b2 ns2 ps2 none hstep

/-- C10, on the composite stack with an N row of two edges and a P row of one
edge under the example rule set: the run ends with both cursors at `12`. -/
theorem single_edge_pair_copies_cursor_witness :
    print_dualstack_run exEnv exTwoOne 10 = .ok exTwoOneRun ∧
    exTwoOneRun.xpos = exTwoOneRun.xpos_p ∧ exTwoOneRun.xpos = 12 :=
  ⟨by rfl,
   (single_edge_pair_copies_cursor exEnv (some (exNode 1)) (some (exNode 11))).2.2
     (exEdge .EDGE_NFET 1 2 2 1) (exEdge .EDGE_PFET 11 12 4 1) (exEdge .EDGE_NFET 2 3 2 1)
     none none none none 0 0 0 0 10 exTwoOneRun (by rfl),
   by rfl⟩

/-! ## C18 to C20: snapping to the grid -/

theorem neg_emod_of_ne (w p : Int) (hp : 0 < p) (h : (-w) % p ≠ 0) :
    w % p = p - (-w) % p := by
  have h1 := Int.emod_add_ediv w p
  have h2 := Int.emod_add_ediv (-w) p
  have h3 := Int.emod_nonneg w (ne_of_gt hp)
  have h4 := Int.emod_lt_of_pos w hp
  have h5 := Int.emod_nonneg (-w) (ne_of_gt hp)
  have h6 := Int.emod_lt_of_pos (-w) hp
  -- w % p + (-w) % p is a multiple of p strictly between 0 and 2 p
  have hsum : w % p + (-w) % p = p * (-(w / p) - (-w) / p) := by
    have : p * (-(w / p) - (-w) / p) = -(p * (w / p)) - p * ((-w) / p) := by ring
    omega
  have hk : (-(w / p) - (-w) / p) = 1 := by
    have hpos : 0 < p * (-(w / p) - (-w) / p) := by omega
    have hlt : p * (-(w / p) - (-w) / p) < p * 2 := by omega
    have a1 : 0 < (-(w / p) - (-w) / p) := by
      by_contra hc
      have : p * (-(w / p) - (-w) / p) ≤ 0 :=
        mul_nonpos_of_nonneg_of_nonpos hp.le (not_lt.mp hc)
      omega
    have a2 : (-(w / p) - (-w) / p) < 2 := lt_of_mul_lt_mul_left hlt hp.le
    omega
  rw [hk] at hsum
  omega

theorem snap_dn_eq (w : Int) (p : Nat) (hp : 0 < p) :
    snap_dn w p = w - w % (p : Int) := by
  have hp' : (0 : Int) < (p : Int) := by exact_mod_cast hp
  unfold snap_dn
  by_cases hw : w ≥ 0
  · rw [if_pos hw]
    split
    · rfl
    · rename_i h
      have : w % (p : Int) = 0 := by simpa using h
      omega
  · rw [if_neg hw]
    simp only
    split
    · rename_i h
      rw [neg_emod_of_ne w p hp' h]
      omega
    · rename_i h
      have h0 : (-w) % (p : Int) = 0 := by simpa using h
      have h1 : w % (p : Int) = 0 := by
        have := Int.emod_emod_of_dvd w (dvd_refl (p : Int))
        have hd : (p : Int) ∣ -w := Int.dvd_of_emod_eq_zero h0
        exact Int.emod_eq_zero_of_dvd ((Int.dvd_neg).mp hd)
      omega

theorem snap_up_eq (w : Int) (p : Nat) (hp : 0 < p) :
    snap_up w p = w + (-w) % (p : Int) := by
  have hp' : (0 : Int) < (p : Int) := by exact_mod_cast hp
  unfold snap_up
  by_cases hw : w ≥ 0
  · rw [if_pos hw]
    split
    · rename_i h
      have h' : (- -w) % (p : Int) ≠ 0 := by simpa using h
      have := neg_emod_of_ne (-w) p hp' h'
      simp only [neg_neg] at this
      omega
    · rename_i h
      have h0 : w % (p : Int) = 0 := by simpa using h
      have hd : (p : Int) ∣ -w := (Int.dvd_neg).mpr (Int.dvd_of_emod_eq_zero h0)
      have h1 : (-w) % (p : Int) = 0 := Int.emod_eq_zero_of_dvd hd
      omega
  · rw [if_neg hw]
    simp only
    split
    · omega
    · rename_i h
      have h0 : (-w) % (p : Int) = 0 := by simpa using h
      omega

/-- `snap_dn` returns the greatest multiple of the pitch below or at `w`. -/
theorem snap_dn_spec (w : Int) (p : Nat) (hp : 0 < p) :
    (p : Int) ∣ snap_dn w p ∧ snap_dn w p ≤ w ∧ w - snap_dn w p < p ∧
    ∀ m : Int, (p : Int) ∣ m → m ≤ w → m ≤ snap_dn w p := by
  have hp' : (0 : Int) < (p : Int) := by exact_mod_cast hp
  rw [snap_dn_eq w p hp]
  have h3 := Int.emod_nonneg w (ne_of_gt hp')
  have h4 := Int.emod_lt_of_pos w hp'
  have hd : (p : Int) ∣ w - w % (p : Int) := Int.dvd_sub_of_emod_eq rfl
  refine ⟨hd, by omega, by omega, ?_⟩
  intro m hm hle
  by_contra hc
  have hlt : w - w % (p : Int) < m := not_le.mp hc
  have hdiff : (p : Int) ∣ m - (w - w % (p : Int)) := Int.dvd_sub hm hd
  have := Int.le_of_dvd (by omega) hdiff
  omega

/-- `snap_up` returns the least multiple of the pitch above or at `w`. -/
theorem snap_up_spec (w : Int) (p : Nat) (hp : 0 < p) :
    (p : Int) ∣ snap_up w p ∧ w ≤ snap_up w p ∧ snap_up w p - w < p ∧
    ∀ m : Int, (p : Int) ∣ m → w ≤ m → snap_up w p ≤ m := by
  have hp' : (0 : Int) < (p : Int) := by exact_mod_cast hp
  rw [snap_up_eq w p hp]
  have h3 := Int.emod_nonneg (-w) (ne_of_gt hp')
  have h4 := Int.emod_lt_of_pos (-w) hp'
  have hd0 : (p : Int) ∣ -w - (-w) % (p : Int) := Int.dvd_sub_of_emod_eq rfl
  have hd : (p : Int) ∣ w + (-w) % (p : Int) := by
    have := (Int.dvd_neg).mpr hd0
    have e : -(-w - (-w) % (p : Int)) = w + (-w) % (p : Int) := by ring
    rwa [e] at this
  refine ⟨hd, by omega, by omega, ?_⟩
  intro m hm hle
  by_contra hc
  have hlt : m < w + (-w) % (p : Int) := not_le.mp hc
  have hdiff : (p : Int) ∣ (w + (-w) % (p : Int)) - m := Int.dvd_sub hd hm
  have := Int.le_of_dvd (by omega) hdiff
  omega

/-- C18. For every integer coordinate `w` and every pitch `p > 0`, `snap_dn (w, p)`
is the greatest multiple of `p` that is at most `w`, and `snap_up (w, p)` is the
least multiple of `p` that is at least `w`. -/
theorem snap_nearest_multiples (w : Int) (p : Nat) (hp : 0 < p) :
    ((p : Int) ∣ snap_dn w p ∧ snap_dn w p ≤ w ∧
      ∀ m : Int, (p : Int) ∣ m → m ≤ w → m ≤ snap_dn w p) ∧
    ((p : Int) ∣ snap_up w p ∧ w ≤ snap_up w p ∧
      ∀ m : Int, (p : Int) ∣ m → w ≤ m → snap_up w p ≤ m) := by
  obtain ⟨d1, d2, _, d3⟩ := snap_dn_spec w p hp
  obtain ⟨u1, u2, _, u3⟩ := snap_up_spec w p hp
  exact ⟨⟨d1, d2, d3⟩, ⟨u1, u2, u3⟩⟩

/-- C18, at the negative coordinate `-7` with pitch `5`: down to `-10`, up to
`-5`. -/
theorem snap_nearest_multiples_witness :
    snap_dn (-7) 5 = -10 ∧ snap_up (-7) 5 = -5 ∧
    (((5 : Nat) : Int) ∣ snap_dn (-7) 5 ∧ snap_dn (-7) 5 ≤ -7 ∧
      ∀ m : Int, ((5 : Nat) : Int) ∣ m → m ≤ -7 → m ≤ snap_dn (-7) 5) ∧
    (((5 : Nat) : Int) ∣ snap_up (-7) 5 ∧ -7 ≤ snap_up (-7) 5 ∧
      ∀ m : Int, ((5 : Nat) : Int) ∣ m → -7 ≤ m → snap_up (-7) 5 ≤ m) :=
  ⟨by decide, by decide, snap_nearest_multiples (-7) 5 (by decide)⟩

/-- The boundary box of a non-empty content box on a grid with at least three
metal layers. -/
theorem computeLEFBoundary_eq (A : Align) (bb : Rect)
    (hx : bb.llx ≤ bb.urx) (hy : bb.lly ≤ bb.ury) (hm : 3 ≤ A.nmetals) :
    computeLEFBoundary A (some bb) =
      .ok (.merged { llx := snap_dn bb.llx A.pitch_x,
                     lly := snap_dn bb.lly A.pitch_y,
                     urx := snap_up (bb.urx + 1) A.pitch_x - 1,
                     ury := snap_up (bb.ury + 1) A.pitch_y - 1 }) := by
  unfold computeLEFBoundary
  have h1 : ¬ (bb.urx < bb.llx ∨ bb.ury < bb.lly) := by omega
  simp only [if_neg h1, ge_iff_le, if_pos hm, snap_dn_x, snap_up_x, snap_dn_y, snap_up_y]

/-- C19. For every non-empty bloated bounding box (`llx <= urx`, `lly <= ury`)
and positive alignment pitches (on a technology with at least three metal
layers, as the function asserts), the boundary box set by `computeLEFBoundary`
has a low corner that is an exact multiple of the pitches and a high corner
whose coordinates plus one are exact multiples of the pitches. -/
theorem boundary_on_grid (A : Align) (bb : Rect)
    (hx : bb.llx ≤ bb.urx) (hy : bb.lly ≤ bb.ury)
    (hpx : 0 < A.pitch_x) (hpy : 0 < A.pitch_y) (hm : 3 ≤ A.nmetals) :
    ∃ box, computeLEFBoundary A (some bb) = .ok (.merged box) ∧
      (A.pitch_x : Int) ∣ box.llx ∧ (A.pitch_y : Int) ∣ box.lly ∧
      (A.pitch_x : Int) ∣ box.urx + 1 ∧ (A.pitch_y : Int) ∣ box.ury + 1 := by
  refine ⟨_, computeLEFBoundary_eq A bb hx hy hm, ?_, ?_, ?_, ?_⟩
  · exact (snap_dn_spec bb.llx A.pitch_x hpx).1
  · exact (snap_dn_spec bb.lly A.pitch_y hpy).1
  · have := (snap_up_spec (bb.urx + 1) A.pitch_x hpx).1
    simpa using this
  · have := (snap_up_spec (bb.ury + 1) A.pitch_y hpy).1
    simpa using this

/-- C19, on the content box `(-7, 1) - (12, 9)` with pitches `5` and `4`: the
boundary box is `(-10, 0) - (14, 11)`. -/
theorem boundary_on_grid_witness :
    computeLEFBoundary exAlign (some exContent)
      = .ok (.merged { llx := -10, lly := 0, urx := 14, ury := 11 }) ∧
    ∃ box, computeLEFBoundary exAlign (some exContent) = .ok (.merged box) ∧
      (exAlign.pitch_x : Int) ∣ box.llx ∧ (exAlign.pitch_y : Int) ∣ box.lly ∧
      (exAlign.pitch_x : Int) ∣ box.urx + 1 ∧ (exAlign.pitch_y : Int) ∣ box.ury + 1 :=
  ⟨by rfl,
   boundary_on_grid exAlign exContent (by decide) (by decide) (by decide) (by decide)
     (by decide)⟩

/-- C20. For every non-empty bloated bounding box and positive pitches (at least
three metal layers), the boundary box set by `computeLEFBoundary` contains the
content box, each side moves outward by strictly less than one pitch, and the
box is the smallest grid-aligned one that contains the content: every low
coordinate on the grid at or below the content lies at or below the one chosen,
every high coordinate with successor on the grid at or above the content lies at
or above the one chosen. -/
theorem boundary_smallest_enclosing (A : Align) (bb : Rect)
    (hx : bb.llx ≤ bb.urx) (hy : bb.lly ≤ bb.ury)
    (hpx : 0 < A.pitch_x) (hpy : 0 < A.pitch_y) (hm : 3 ≤ A.nmetals) :
    ∃ box, computeLEFBoundary A (some bb) = .ok (.merged box) ∧
      (box.llx ≤ bb.llx ∧ box.lly ≤ bb.lly ∧ bb.urx ≤ box.urx ∧ bb.ury ≤ box.ury) ∧
      (bb.llx - box.llx < A.pitch_x ∧ bb.lly - box.lly < A.pitch_y ∧
        box.urx - bb.urx < A.pitch_x ∧ box.ury - bb.ury < A.pitch_y) ∧
      (∀ l : Int, (A.pitch_x : Int) ∣ l → l ≤ bb.llx → l ≤ box.llx) ∧
      (∀ l : Int, (A.pitch_y : Int) ∣ l → l ≤ bb.lly → l ≤ box.lly) ∧
      (∀ u : Int, (A.pitch_x : Int) ∣ u + 1 → bb.urx ≤ u → box.urx ≤ u) ∧
      (∀ u : Int, (A.pitch_y : Int) ∣ u + 1 → bb.ury ≤ u → box.ury ≤ u) := by
  obtain ⟨_, a2, a3, a4⟩ := snap_dn_spec bb.llx A.pitch_x hpx
  obtain ⟨_, b2, b3, b4⟩ := snap_dn_spec bb.lly A.pitch_y hpy
  obtain ⟨_, c2, c3, c4⟩ := snap_up_spec (bb.urx + 1) A.pitch_x hpx
  obtain ⟨_, d2, d3, d4⟩ := snap_up_spec (bb.ury + 1) A.pitch_y hpy
  refine ⟨_, computeLEFBoundary_eq A bb hx hy hm, ⟨?_, ?_, ?_, ?_⟩, ⟨?_, ?_, ?_, ?_⟩,
    a4, b4, ?_, ?_⟩
  · exact a2
  · exact b2
  · show bb.urx ≤ snap_up (bb.urx + 1) A.pitch_x - 1
    omega
  · show bb.ury ≤ snap_up (bb.ury + 1) A.pitch_y - 1
    omega
  · exact a3
  · exact b3
  · show snap_up (bb.urx + 1) A.pitch_x - 1 - bb.urx < A.pitch_x
    omega
  · show snap_up (bb.ury + 1) A.pitch_y - 1 - bb.ury < A.pitch_y
    omega
  · intro u hu hle
    have := c4 (u + 1) hu (by omega)
    show snap_up (bb.urx + 1) A.pitch_x - 1 ≤ u
    omega
  · intro u hu hle
    have := d4 (u + 1) hu (by omega)
    show snap_up (bb.ury + 1) A.pitch_y - 1 ≤ u
    omega

/-- C20, on the content box `(-7, 1) - (12, 9)` with pitches `5` and `4`: the
boundary box `(-10, 0) - (14, 11)` moves the sides by `3`, `1`, `2`, `2`. -/
theorem boundary_smallest_enclosing_witness :
    computeLEFBoundary exAlign (some exContent)
      = .ok (.merged { llx := -10, lly := 0, urx := 14, ury := 11 }) ∧
    ∃ box, computeLEFBoundary exAlign (some exContent) = .ok (.merged box) ∧
      (box.llx ≤ exContent.llx ∧ box.lly ≤ exContent.lly ∧
        exContent.urx ≤ box.urx ∧ exContent.ury ≤ box.ury) ∧
      (exContent.llx - box.llx < exAlign.pitch_x ∧ exContent.lly - box.lly < exAlign.pitch_y ∧
        box.urx - exContent.urx < exAlign.pitch_x ∧
        box.ury - exContent.ury < exAlign.pitch_y) ∧
      (∀ l : Int, (exAlign.pitch_x : Int) ∣ l → l ≤ exContent.llx → l ≤ box.llx) ∧
      (∀ l : Int, (exAlign.pitch_y : Int) ∣ l → l ≤ exContent.lly → l ≤ box.lly) ∧
      (∀ u : Int, (exAlign.pitch_x : Int) ∣ u + 1 → exContent.urx ≤ u → box.urx ≤ u) ∧
      (∀ u : Int, (exAlign.pitch_y : Int) ∣ u + 1 → exContent.ury ≤ u → box.ury ≤ u) :=
  ⟨by rfl,
   boundary_smallest_enclosing exAlign exContent (by decide) (by decide) (by decide)
     (by decide) (by decide)⟩

/-! ## C13 to C16: the diffusion-separation model -/

theorem max_overhang_append (C : Env) (acc : Int) (l1 l2 : List (edge_t × edge_t)) :
    max_overhang C acc (l1 ++ l2) = max_overhang C (max_overhang C acc l1) l2 := by
  induction l1 generalizing acc with
  | nil => rfl
  | cons np rest ih =>
    show max_overhang C _ (rest ++ l2) = _
    rw [ih]
    rfl

theorem gates_differ_append (l1 l2 : List (edge_t × edge_t)) :
    gates_differ (l1 ++ l2) = (gates_differ l1 || gates_differ l2) := by
  simp [gates_differ, List.any_append]

theorem Scanned.refl (C : Env) (st : SepState) : Scanned C st [] st := by
  simp [Scanned, max_overhang, gates_differ]

theorem Scanned.trans (C : Env) (st st1 st2 : SepState) (l1 l2 : List (edge_t × edge_t))
    (h1 : Scanned C st l1 st1) (h2 : Scanned C st1 l2 st2) : Scanned C st (l1 ++ l2) st2 := by
  obtain ⟨a1, b1⟩ := h1
  obtain ⟨a2, b2⟩ := h2
  refine ⟨?_, ?_⟩
  · rw [max_overhang_append, ← a1, a2]
  · rw [gates_differ_append, b2, b1]
    simp only [Bool.or_eq_true]
    tauto

theorem sep_flavor_scanned (C : Env) (st : SepState) (t : EdgeType) (fl : Nat) :
    Scanned C st [] (sep_flavor C st t fl) := by
  unfold sep_flavor
  split <;> simp [Scanned, max_overhang, gates_differ]

theorem sep_poly_scanned (C : Env) (st : SepState) (n p : edge_t) :
    Scanned C st [(n, p)] (sep_poly C st n p) := by
  refine ⟨?_, ?_⟩
  · simp [sep_poly, max_overhang, MAX_eq_max]
  · by_cases hg : n.g.id = p.g.id <;> simp [sep_poly, gates_differ, hg]

theorem sep_basepair_scanned (C : Env) (st st1 : SepState) (en ep : Option edge_t)
    (l_n l_p : Option node_t) (n_start p_start : Int)
    (h : sep_basepair C st en ep = .ok st1) :
    Scanned C st (gate_pairs.basepair en ep l_n l_p n_start p_start).both st1 := by
  cases en with
  | none =>
    cases ep with
    | none =>
      simp only [sep_basepair, Except.ok.injEq] at h
      subst h
      exact Scanned.refl C st
    | some p => simp [sep_basepair] at h
  | some n =>
    cases ep with
    | none =>
      simp only [sep_basepair, Except.ok.injEq] at h
      subst h
      exact sep_flavor_scanned C st .EDGE_NFET n.flavor
    | some p =>
      simp only [sep_basepair, Except.ok.injEq] at h
      subst h
      have h1 := sep_poly_scanned C st n p
      have h2 := sep_flavor_scanned C (sep_poly C st n p) .EDGE_NFET n.flavor
      have h3 := sep_flavor_scanned C
        (sep_flavor C (sep_poly C st n p) .EDGE_NFET n.flavor) .EDGE_PFET n.flavor
      have := Scanned.trans C _ _ _ _ _ (Scanned.trans C _ _ _ _ _ h1 h2) h3
      simpa [gate_pairs.both] using this

theorem sep_composite_pair_scanned (C : Env) (st st1 : SepState) (tmp : gate_pairs)
    (h : sep_composite_pair C st tmp = .ok st1) : Scanned C st tmp.both st1 := by
  cases tmp with
  | composite l a b => simp [sep_composite_pair] at h
  | basepair en ep a b ns ps =>
    cases en with
    | none =>
      cases ep with
      | none =>
        simp only [sep_composite_pair, Except.ok.injEq] at h
        subst h
        exact Scanned.refl C st
      | some p =>
        simp only [sep_composite_pair, Except.ok.injEq] at h
        subst h
        exact sep_flavor_scanned C st .EDGE_PFET p.flavor
    | some n =>
      cases ep with
      | none =>
        simp only [sep_composite_pair, Except.ok.injEq] at h
        subst h
        exact sep_flavor_scanned C st .EDGE_NFET n.flavor
      | some p =>
        simp only [sep_composite_pair, Except.ok.injEq] at h
        subst h
        have h1 := sep_poly_scanned C st n p
        have h2 := sep_flavor_scanned C (sep_poly C st n p) .EDGE_NFET n.flavor
        have h3 := sep_flavor_scanned C
          (sep_flavor C (sep_poly C st n p) .EDGE_NFET n.flavor) .EDGE_PFET p.flavor
        have := Scanned.trans C _ _ _ _ _ (Scanned.trans C _ _ _ _ _ h1 h2) h3
        simpa [gate_pairs.both] using this

theorem sep_composite_scanned (C : Env) :
    ∀ (l : List gate_pairs) (st st1 : SepState),
      sep_composite C st l = .ok st1 → Scanned C st (both_of_cells l) st1 := by
  intro l
  induction l with
  | nil =>
    intro st st1 h
    simp only [sep_composite, Except.ok.injEq] at h
    subst h
    exact Scanned.refl C st
  | cons tmp rest ih =>
    intro st st1 h
    simp only [sep_composite] at h
    split at h
    · exact absurd h (by simp)
    rename_i st2 h2
    exact Scanned.trans C _ _ _ _ _ (sep_composite_pair_scanned C st st2 tmp h2) (ih st2 st1 h)

theorem sep_stack_scanned (C : Env) (st st1 : SepState) (gp : gate_pairs)
    (h : sep_stack C st gp = .ok st1) : Scanned C st (both_of_stack gp) st1 := by
  cases gp with
  | basepair en ep a b ns ps => exact sep_basepair_scanned C st st1 en ep a b ns ps h
  | composite l a b => exact sep_composite_scanned C l st st1 h

theorem sep_scan_scanned (C : Env) :
    ∀ (l : List gate_pairs) (st st1 : SepState),
      sep_scan C st l = .ok st1 → Scanned C st (both_of_stacks l) st1 := by
  intro l
  induction l with
  | nil =>
    intro st st1 h
    simp only [sep_scan, Except.ok.injEq] at h
    subst h
    exact Scanned.refl C st
  | cons gp rest ih =>
    intro st st1 h
    simp only [sep_scan] at h
    split at h
    · exact absurd h (by simp)
    rename_i st2 h2
    exact Scanned.trans C _ _ _ _ _ (sep_stack_scanned C st st2 gp h2) (ih st2 st1 h)

theorem sep_composite_total (C : Env) (l : List gate_pairs) :
    ∀ st : SepState,
      (l.all (fun tmp =>
        match tmp with
        | .basepair _ _ _ _ _ _ => true
        | .composite _ _ _ => false)) = true →
      ∃ st1, sep_composite C st l = .ok st1 := by
  induction l with
  | nil => intro st _; exact ⟨st, rfl⟩
  | cons tmp rest ih =>
    intro st h
    simp only [List.all_cons, Bool.and_eq_true] at h
    obtain ⟨h1, h2⟩ := h
    cases tmp with
    | composite _ _ _ => simp at h1
    | basepair en ep _ _ _ _ =>
      simp only [sep_composite, sep_composite_pair]
      exact ih _ h2

theorem sep_stack_total (C : Env) (st : SepState) (gp : gate_pairs)
    (h : gp.scannable = true) : ∃ st1, sep_stack C st gp = .ok st1 := by
  cases gp with
  | composite l _ _ =>
    simp only [gate_pairs.scannable] at h
    simpa [sep_stack] using sep_composite_total C l st h
  | basepair en ep _ _ _ _ =>
    cases en with
    | none =>
      cases ep with
      | none => exact ⟨_, rfl⟩
      | some p => simp [gate_pairs.scannable] at h
    | some n =>
      cases ep with
      | none => exact ⟨_, rfl⟩
      | some p => exact ⟨_, rfl⟩

theorem sep_scan_total (C : Env) (l : List gate_pairs) :
    ∀ st : SepState, (l.all gate_pairs.scannable) = true →
      ∃ st1, sep_scan C st l = .ok st1 := by
  induction l with
  | nil => intro st _; exact ⟨st, rfl⟩
  | cons gp rest ih =>
    intro st h
    simp only [List.all_cons, Bool.and_eq_true] at h
    obtain ⟨st1, h1⟩ := sep_stack_total C st gp h.1
    simp only [sep_scan, h1]
    exact ih st1 h.2

theorem localdiffspace_of_scan (C : Env) (l : List gate_pairs) (rest : List StackGroup)
    (st : SepState) (hscan : sep_scan C sepInit l = .ok st) :
    _localdiffspace C (some (.dual l :: rest)) =
      .ok (if gates_differ (both_of_stacks l) = true then
             max st.spc_default
               (2 * max_overhang C 0 (both_of_stacks l) +
                 max C.getPoly.getEol (C.getPoly.getSpacing 0))
           else st.spc_default) := by
  have hs := sep_scan_scanned C l sepInit st hscan
  obtain ⟨ho, hp⟩ := hs
  have hp0 : sepInit.poly_potential = 0 := rfl
  have ho0 : sepInit.poly_overhang = 0 := rfl
  rw [ho0] at ho
  simp only [hp0, ne_eq, not_true_eq_false, false_or] at hp
  have hscanned : (if l.length > 0 then sep_scan C sepInit l else .ok sepInit) = .ok st := by
    cases l with
    | nil => simpa [sep_scan] using hscan
    | cons a b => simpa using hscan
  simp only [_localdiffspace, hscanned]
  by_cases hg : gates_differ (both_of_stacks l) = true
  · have : st.poly_potential ≠ 0 := hp.2 hg
    simp only [ne_eq, this, not_false_eq_true, if_true, hg, MAX_eq_max, ho]
    congr 1
    rw [max_comm, mul_comm]
  · have : ¬ st.poly_potential ≠ 0 := fun h => hg (hp.1 h)
    simp [this, hg]

/-- C13. For a cell whose dual stacks can be scanned, `_localdiffspace` returns:
with `S` the opposite-diffusion spacing accumulated by the scan and `O` the
running maximum (from `0`) of the poly overhang over both edges of every base
pair that has both an N and a P edge, the value `max S (2 * O + max eol
(spacing 0))` when some such pair has different gates, and `S` when every such
pair shares its gate. -/
theorem localdiffspace_value (C : Env) (l : List gate_pairs) (rest : List StackGroup)
    (hwf : (l.all gate_pairs.scannable) = true) :
    ∃ st, sep_scan C sepInit l = .ok st ∧
      _localdiffspace C (some (.dual l :: rest)) =
        .ok (if gates_differ (both_of_stacks l) = true then
               max st.spc_default
                 (2 * max_overhang C 0 (both_of_stacks l) +
                   max C.getPoly.getEol (C.getPoly.getSpacing 0))
             else st.spc_default) := by
  obtain ⟨st, hst⟩ := sep_scan_total C l sepInit hwf
  exact ⟨st, hst, localdiffspace_of_scan C l rest st hst⟩

theorem localdiffspace_value_witness :
    ([gate_pairs.basepair (some (exEdgeG .EDGE_NFET 100 0 1 2))
        (some (exEdgeG .EDGE_PFET 101 0 11 12))
        (some (exNode 1)) (some (exNode 11)) 0 0].all gate_pairs.scannable) = true ∧
    ∃ st, sep_scan sepEnv sepInit
        [gate_pairs.basepair (some (exEdgeG .EDGE_NFET 100 0 1 2))
          (some (exEdgeG .EDGE_PFET 101 0 11 12))
          (some (exNode 1)) (some (exNode 11)) 0 0] = .ok st ∧
      _localdiffspace sepEnv exCellTwoGates =
        .ok (if gates_differ (both_of_stacks
                [gate_pairs.basepair (some (exEdgeG .EDGE_NFET 100 0 1 2))
                  (some (exEdgeG .EDGE_PFET 101 0 11 12))
                  (some (exNode 1)) (some (exNode 11)) 0 0]) = true then
               max st.spc_default
                 (2 * max_overhang sepEnv 0 (both_of_stacks
                   [gate_pairs.basepair (some (exEdgeG .EDGE_NFET 100 0 1 2))
                     (some (exEdgeG .EDGE_PFET 101 0 11 12))
                     (some (exNode 1)) (some (exNode 11)) 0 0]) +
                   max sepEnv.getPoly.getEol (sepEnv.getPoly.getSpacing 0))
             else st.spc_default) :=
  ⟨by rfl, localdiffspace_value sepEnv _ [.single [], .single []] (by rfl)⟩

/-- The cell `exCellTwoGates` under `sepEnv`: `S = 6`, `O = 3`, the gates differ,
and the separation is `max 6 (2 * 3 + max 2 3) = 9`. -/
theorem localdiffspace_two_gates : _localdiffspace sepEnv exCellTwoGates = .ok 9 := by rfl

/-- C14. With no stack list, with an empty stack list, or with an empty
dual-stack group (whatever the single-polarity groups hold), `_localdiffspace`
returns `0` for every rule set. -/
theorem localdiffspace_no_dual (C : Env) :
    _localdiffspace C none = .ok 0 ∧
    _localdiffspace C (some []) = .ok 0 ∧
    ∀ rest : List StackGroup, _localdiffspace C (some (.dual [] :: rest)) = .ok 0 := by
  refine ⟨rfl, rfl, ?_⟩
  intro rest
  simp [_localdiffspace, sepInit]

/-- C15. The base pair `exMixedPair` has an N edge of flavor `0` and a P edge of
flavor `1`; under `sepEnv` the P diffusion of flavor `1` requires `10`.  As a
dual stack of its own the pair gets the separation `6`: the block for its P edge
compares and loads the flavor of the N edge.  As the single cell of a composite
the same pair gets `10`.  A base pair with a P edge and no N edge dereferences a
null pointer. -/
theorem localdiffspace_misses_p_flavor :
    _localdiffspace sepEnv exCellMixedBase = .ok 6 ∧
    (sepEnv.getDiff .EDGE_PFET 1).getOppDiffSpacing 1 = 10 ∧
    (sepEnv.getDiff .EDGE_NFET 1).getOppDiffSpacing 1 = 10 ∧
    _localdiffspace sepEnv exCellMixedComposite = .ok 10 ∧
    _localdiffspace sepEnv exCellOnlyP = .error .nullDeref :=
  ⟨by rfl, by decide, by decide, by rfl, by rfl⟩

/-- C16. The cell `exCellTwoGates` with the pass's `lambda_to_scale = 1`: the
call from `_readlocalRect`, made while the file-level scale still is `0`,
returns `6` (the poly overhang is taken at length `0`), the call from
`_createlocallayout` returns `9`, and so does the call from `run` once the
file-level scale has been set. -/
theorem localdiffspace_depends_on_call_time :
    readlocalRect_diffspace sepEnvUnset exCellTwoGates = .ok 6 ∧
    createlocallayout_diffspace sepEnvUnset 1 exCellTwoGates = .ok 9 ∧
    run_diffspace { sepEnvUnset with _lambda_to_scale := 1 } exCellTwoGates = .ok 9 ∧
    run_diffspace sepEnvUnset exCellTwoGates = .ok 6 :=
  ⟨by rfl, by rfl, by rfl, by rfl⟩

/-! ## C17: the poly rectangles of a base pair -/

theorem polys_append (l1 l2 : List Draw) : polys (l1 ++ l2) = polys l1 ++ polys l2 := by
  simp [polys, List.filterMap_append]

/-- The poly rectangles of one `emit_rectangle`: on the N row (`yup < 0`) the one
over the centre line and the one beyond the diffusion; on the P row the facing
one, clipped at `oup + oppoverhang` when that overhang and its own would reach
`dy`, and the one beyond the diffusion. -/
theorem emit_draw_polys (C : Env) (pad dx dy : Int) (flags : Nat) (left : node_t)
    (e : edge_t) (eopp : Option edge_t) (oup e_w yup : Int) (b : BBox)
    (rect prev_w : Int) :
    polys (emit_draw C pad dx dy flags left e eopp oup e_w yup b 0 rect prev_w).2.2 =
      if yup < 0 then
        [(dy, -yup * C.getPoly.getOverhang (getlength C e)),
         (dy + yup * (e_w + C.getPoly.getOverhang (getlength C e)),
          -yup * C.getPoly.getOverhang (getlength C e))]
      else
        [(match eopp with
          | some eo =>
            if oup + C.getPoly.getOverhang (getlength C eo)
                + C.getPoly.getOverhang (getlength C e) ≥ dy then
              (C.getPoly.getOverhang (getlength C eo) + oup,
               dy - (C.getPoly.getOverhang (getlength C eo) + oup))
            else
              (dy - yup * C.getPoly.getOverhang (getlength C e),
               yup * C.getPoly.getOverhang (getlength C e))
          | none =>
            (dy - yup * C.getPoly.getOverhang (getlength C e),
             yup * C.getPoly.getOverhang (getlength C e))),
         (dy + yup * e_w, yup * C.getPoly.getOverhang (getlength C e))] := by
  simp only [emit_draw, polys]
  by_cases hy : yup < 0
  · by_cases hr : flags &&& EDGE_FLAGS_RIGHT = 0 <;>
      simp [hy, hr, Draw.polyExtent, List.filterMap_append, List.filterMap_cons]
  · cases eopp with
    | none =>
      by_cases hr : flags &&& EDGE_FLAGS_RIGHT = 0 <;>
        simp [hy, hr, Draw.polyExtent, List.filterMap_append, List.filterMap_cons]
    | some eo =>
      by_cases hc : oup + C.getPoly.getOverhang (getlength C eo)
          + C.getPoly.getOverhang (getlength C e) ≥ dy <;>
        by_cases hr : flags &&& EDGE_FLAGS_RIGHT = 0 <;>
        simp [hy, hr, hc, Draw.polyExtent, List.filterMap_append, List.filterMap_cons]

/-- One `emit_rectangle` on the left boundary, under positive rules: it returns,
and its poly rectangles are those of `emit_draw_polys`. -/
theorem emit_rectangle_left_polys (C : Env) (hpos : RulesPositive C) (pad dx dy : Int)
    (left : node_t) (e : edge_t) (eopp : Option edge_t) (oup eidx yup : Int)
    (ret : Option BBox) :
    ∃ r, emit_rectangle C pad dx dy (EDGE_FLAGS_LEFT ||| EDGE_FLAGS_RIGHT) none 0 left e eopp
          oup eidx yup ret = .ok r ∧
      polys r.drawn =
        if yup < 0 then
          [(dy, -yup * C.getPoly.getOverhang (getlength C e)),
           (dy + yup * (getwidth C eidx e + C.getPoly.getOverhang (getlength C e)),
            -yup * C.getPoly.getOverhang (getlength C e))]
        else
          [(match eopp with
            | some eo =>
              if oup + C.getPoly.getOverhang (getlength C eo)
                  + C.getPoly.getOverhang (getlength C e) ≥ dy then
                (C.getPoly.getOverhang (getlength C eo) + oup,
                 dy - (C.getPoly.getOverhang (getlength C eo) + oup))
              else
                (dy - yup * C.getPoly.getOverhang (getlength C e),
                 yup * C.getPoly.getOverhang (getlength C e))
            | none =>
              (dy - yup * C.getPoly.getOverhang (getlength C e),
               yup * C.getPoly.getOverhang (getlength C e))),
           (dy + yup * getwidth C eidx e, yup * C.getPoly.getOverhang (getlength C e))] := by
  have hL : (EDGE_FLAGS_LEFT ||| EDGE_FLAGS_RIGHT) &&& EDGE_FLAGS_LEFT ≠ 0 := by decide
  have h1 := first_of_pos C hpos (EDGE_FLAGS_LEFT ||| EDGE_FLAGS_RIGHT) none 0 e
    (getwidth C eidx e) left.contact
  rw [emit_rectangle_eq C pad dx dy _ none 0 left e eopp oup eidx yup ret (Or.inl hL), if_pos h1]
  refine ⟨_, rfl, ?_⟩
  have hf : fet_type_of (EDGE_FLAGS_LEFT ||| EDGE_FLAGS_RIGHT) (prev_width C none 0)
      (getwidth C eidx e) = 0 := by
    simp [fet_type_of, hL]
  simp only [hf]
  exact emit_draw_polys C pad dx dy _ left e eopp oup (getwidth C eidx e) yup _ _ _

/-- C17. A base pair with both edges, under positive rules: `print_dualstack`
returns, and it draws four poly rectangles.  The N row's facing one spans from
`yn` up by the N overhang.  The P row's facing one starts at `yn + overhang (N)`
with the height `yp - (yn + overhang (N))` when `yn + overhang (N) + overhang
(P) >= yp`, and else spans from `yp - overhang (P)` with its full overhang.  In
the first case the height is non-negative exactly when `yn + overhang (N) <=
yp`; in the second the rectangle starts above the top of the N row's facing
one. -/
theorem basepair_facing_poly (C : Env) (hpos : RulesPositive C) (n p : edge_t)
    (ln lp : node_t) (n_start p_start diffspace : Int) :
    ∃ r facing,
      print_dualstack_run C (.basepair (some n) (some p) (some ln) (some lp) n_start p_start)
        diffspace = .ok r ∧
      polys r.drawn =
        [(row_yn diffspace, C.getPoly.getOverhang (getlength C n)),
         (row_yn diffspace - (getwidth C n_start n + C.getPoly.getOverhang (getlength C n)),
          C.getPoly.getOverhang (getlength C n)),
         facing,
         (row_yp diffspace + getwidth C p_start p, C.getPoly.getOverhang (getlength C p))] ∧
      facing =
        (if row_yn diffspace + C.getPoly.getOverhang (getlength C n)
            + C.getPoly.getOverhang (getlength C p) ≥ row_yp diffspace then
          (row_yn diffspace + C.getPoly.getOverhang (getlength C n),
           row_yp diffspace - (row_yn diffspace + C.getPoly.getOverhang (getlength C n)))
         else
          (row_yp diffspace - C.getPoly.getOverhang (getlength C p),
           C.getPoly.getOverhang (getlength C p))) ∧
      (row_yn diffspace + C.getPoly.getOverhang (getlength C n)
          + C.getPoly.getOverhang (getlength C p) ≥ row_yp diffspace →
        (0 ≤ facing.2 ↔
          row_yn diffspace + C.getPoly.getOverhang (getlength C n) ≤ row_yp diffspace)) ∧
      (¬ (row_yn diffspace + C.getPoly.getOverhang (getlength C n)
          + C.getPoly.getOverhang (getlength C p) ≥ row_yp diffspace) →
        row_yn diffspace + C.getPoly.getOverhang (getlength C n) < facing.1) := by
  have hL : (EDGE_FLAGS_LEFT ||| EDGE_FLAGS_RIGHT) &&& EDGE_FLAGS_LEFT ≠ 0 := by decide
  have h1 := first_of_pos C hpos (EDGE_FLAGS_LEFT ||| EDGE_FLAGS_RIGHT) none 0 n
    (getwidth C 0 n) ln.contact
  have h2 := first_of_pos C hpos (EDGE_FLAGS_LEFT ||| EDGE_FLAGS_RIGHT) none 0 p
    (getwidth C 0 p) lp.contact
  have hfn := locate_fetedge_eq C 0 _ none 0 ln n n_start (Or.inl hL)
  have hfp := locate_fetedge_eq C 0 _ none 0 lp p p_start (Or.inl hL)
  rw [if_pos h1] at hfn
  rw [if_pos h2] at hfp
  obtain ⟨rn, hrn, hpn⟩ := emit_rectangle_left_polys C hpos
    (compute_pad
      (0 + first_of (C.getDiff n.type n.flavor) (spc_of C none n)
            (EDGE_FLAGS_LEFT ||| EDGE_FLAGS_RIGHT) (prev_width C none 0) (getwidth C 0 n)
            ln.contact
        + second_of (C.getDiff n.type n.flavor) (EDGE_FLAGS_LEFT ||| EDGE_FLAGS_RIGHT)
            (prev_width C none 0) (getwidth C 0 n) ln.contact)
      (0 + first_of (C.getDiff p.type p.flavor) (spc_of C none p)
            (EDGE_FLAGS_LEFT ||| EDGE_FLAGS_RIGHT) (prev_width C none 0) (getwidth C 0 p)
            lp.contact
        + second_of (C.getDiff p.type p.flavor) (EDGE_FLAGS_LEFT ||| EDGE_FLAGS_RIGHT)
            (prev_width C none 0) (getwidth C 0 p) lp.contact)).1
    0 (row_yn diffspace) ln n (some p) (row_yp diffspace) n_start (-1) (some zeroBBox)
  obtain ⟨rp, hrp, hpp⟩ := emit_rectangle_left_polys C hpos
    (compute_pad
      (0 + first_of (C.getDiff n.type n.flavor) (spc_of C none n)
            (EDGE_FLAGS_LEFT ||| EDGE_FLAGS_RIGHT) (prev_width C none 0) (getwidth C 0 n)
            ln.contact
        + second_of (C.getDiff n.type n.flavor) (EDGE_FLAGS_LEFT ||| EDGE_FLAGS_RIGHT)
            (prev_width C none 0) (getwidth C 0 n) ln.contact)
      (0 + first_of (C.getDiff p.type p.flavor) (spc_of C none p)
            (EDGE_FLAGS_LEFT ||| EDGE_FLAGS_RIGHT) (prev_width C none 0) (getwidth C 0 p)
            lp.contact
        + second_of (C.getDiff p.type p.flavor) (EDGE_FLAGS_LEFT ||| EDGE_FLAGS_RIGHT)
            (prev_width C none 0) (getwidth C 0 p) lp.contact)).2
    0 (row_yp diffspace) lp p (some n) (row_yn diffspace) p_start 1
    (some (rn.ret.getD zeroBBox))
  refine ⟨{ b := rp.ret.getD (rn.ret.getD zeroBBox), xpos := rn.dx, xpos_p := rp.dx,
            drawn := rn.drawn ++ rp.drawn }, _, ?_, ?_, rfl, ?_, ?_⟩
  · simp only [print_dualstack_run, locate_fetedge_at, emit_rectangle_at, hfn, hfp]
    simp only [row_yn, row_yp] at hrn hrp
    rw [hrn]
    simp only []
    rw [hrp]
  · rw [polys_append, hpn, hpp]
    simp only [show ((-1 : Int) < 0) from by decide, show ¬ ((1 : Int) < 0) from by decide,
      if_true, if_false, List.cons_append, List.nil_append]
    congr 1
    · congr 1
      ring
    · congr 1
      · congr 1 <;> ring
      · congr 1
        · split_ifs <;> (congr 1 <;> ring)
        · congr 1
          congr 1 <;> ring
  · intro hc
    rw [if_pos hc]
    show 0 ≤ row_yp diffspace - (row_yn diffspace + C.getPoly.getOverhang (getlength C n)) ↔ _
    omega
  · intro hc
    rw [if_neg hc]
    show _ < row_yp diffspace - C.getPoly.getOverhang (getlength C p)
    omega

theorem basepair_facing_poly_witness :
    RulesPositive exEnv ∧
    ∃ r facing,
      print_dualstack_run exEnv
        (.basepair (some (exEdgeG .EDGE_NFET 100 0 1 2)) (some (exEdgeG .EDGE_PFET 100 0 11 12))
          (some (exNode 1)) (some (exNode 11)) 0 0) 6 = .ok r ∧
      polys r.drawn =
        [(row_yn 6, exEnv.getPoly.getOverhang (getlength exEnv (exEdgeG .EDGE_NFET 100 0 1 2))),
         (row_yn 6 - (getwidth exEnv 0 (exEdgeG .EDGE_NFET 100 0 1 2)
            + exEnv.getPoly.getOverhang (getlength exEnv (exEdgeG .EDGE_NFET 100 0 1 2))),
          exEnv.getPoly.getOverhang (getlength exEnv (exEdgeG .EDGE_NFET 100 0 1 2))),
         facing,
         (row_yp 6 + getwidth exEnv 0 (exEdgeG .EDGE_PFET 100 0 11 12),
          exEnv.getPoly.getOverhang (getlength exEnv (exEdgeG .EDGE_PFET 100 0 11 12)))] ∧
      facing =
        (if row_yn 6 + exEnv.getPoly.getOverhang (getlength exEnv (exEdgeG .EDGE_NFET 100 0 1 2))
            + exEnv.getPoly.getOverhang (getlength exEnv (exEdgeG .EDGE_PFET 100 0 11 12))
              ≥ row_yp 6 then
          (row_yn 6 + exEnv.getPoly.getOverhang (getlength exEnv (exEdgeG .EDGE_NFET 100 0 1 2)),
           row_yp 6 - (row_yn 6
             + exEnv.getPoly.getOverhang (getlength exEnv (exEdgeG .EDGE_NFET 100 0 1 2))))
         else
          (row_yp 6 - exEnv.getPoly.getOverhang (getlength exEnv (exEdgeG .EDGE_PFET 100 0 11 12)),
           exEnv.getPoly.getOverhang (getlength exEnv (exEdgeG .EDGE_PFET 100 0 11 12)))) ∧
      (row_yn 6 + exEnv.getPoly.getOverhang (getlength exEnv (exEdgeG .EDGE_NFET 100 0 1 2))
          + exEnv.getPoly.getOverhang (getlength exEnv (exEdgeG .EDGE_PFET 100 0 11 12))
            ≥ row_yp 6 →
        (0 ≤ facing.2 ↔
          row_yn 6 + exEnv.getPoly.getOverhang (getlength exEnv (exEdgeG .EDGE_NFET 100 0 1 2))
            ≤ row_yp 6)) ∧
      (¬ (row_yn 6 + exEnv.getPoly.getOverhang (getlength exEnv (exEdgeG .EDGE_NFET 100 0 1 2))
          + exEnv.getPoly.getOverhang (getlength exEnv (exEdgeG .EDGE_PFET 100 0 11 12))
            ≥ row_yp 6) →
        row_yn 6 + exEnv.getPoly.getOverhang (getlength exEnv (exEdgeG .EDGE_NFET 100 0 1 2))
          < facing.1) :=
  ⟨exEnv_positive,
   basepair_facing_poly exEnv exEnv_positive (exEdgeG .EDGE_NFET 100 0 1 2)
     (exEdgeG .EDGE_PFET 100 0 11 12) (exNode 1) (exNode 11) 0 0 6⟩

/-- C17, as stated, fails: under `tightEnv` (poly overhang `3`, opposite-diffusion
spacing `2`) the separation of `exTightPair` is `2`, the rows are centred at
`yn = -1` and `yp = 1`, and the P row's facing poly rectangle is drawn at `y = 2`
with the height `-1`: it starts above `yp`. -/
theorem facing_poly_negative_height :
    _localdiffspace tightEnv (some [.dual [exTightPair]]) = .ok 2 ∧
    row_yn 2 = -1 ∧ row_yp 2 = 1 ∧
    row_yn 2 + 3 + 3 ≥ row_yp 2 ∧
    (print_dualstack_run tightEnv exTightPair 2).map (fun r => polys r.drawn) =
      .ok [(-1, 3), (-6, 3), (2, -1), (3, 3)] :=
  ⟨by rfl, by decide, by decide, by decide, by rfl⟩

/-! ## C11: the boundary flags of a composite dual stack -/

/-- One iteration of the loop is the flag computation followed by
`dualstack_emit`. -/
theorem dualstack_step_split (C : Env) (gp_l_n gp_l_p : Option node_t) (yn yp : Int)
    (s : DualState) (en ep : Option edge_t) (l_n l_p : Option node_t) (n_start p_start : Int)
    (next : Option gate_pairs) :
    dualstack_step C gp_l_n gp_l_p yn yp s (.basepair en ep l_n l_p n_start p_start) next =
      dualstack_emit C gp_l_n gp_l_p yn yp s en ep n_start p_start
        (boundary_flags s.firstn en (next.map gate_pairs.e_n))
        (boundary_flags s.firstp ep (next.map gate_pairs.e_p))
        (first_after s.firstn en) (first_after s.firstp ep) := by
  cases next <;> rfl

theorem dualstack_emit_first (C : Env) (gp_l_n gp_l_p : Option node_t) (yn yp : Int)
    (s s1 : DualState) (en ep : Option edge_t) (n_start p_start : Int)
    (flagsn flagsp : Nat) (firstn firstp : Bool)
    (h : dualstack_emit C gp_l_n gp_l_p yn yp s en ep n_start p_start flagsn flagsp
      firstn firstp = .ok s1) :
    s1.firstn = firstn ∧ s1.firstp = firstp := by
  cases en with
  | none =>
    cases ep with
    | none =>
      simp only [dualstack_emit] at h
      split at h
      · cases h
      split at h
      · cases h
      cases h
      exact ⟨rfl, rfl⟩
    | some p =>
      simp only [dualstack_emit] at h
      split at h
      · cases h
      split at h
      · cases h
      split at h
      · cases h
      cases h
      exact ⟨rfl, rfl⟩
  | some n =>
    cases ep with
    | none =>
      simp only [dualstack_emit] at h
      split at h
      · cases h
      split at h
      · cases h
      split at h
      · cases h
      rename_i s2 hs2
      cases h
      split at hs2
      · cases hs2
      cases hs2
      exact ⟨rfl, rfl⟩
    | some p =>
      simp only [dualstack_emit] at h
      split at h
      · cases h
      split at h
      · cases h
      split at h
      · cases h
      split at h
      · cases h
      rename_i s2 hs2
      split at hs2
      · cases hs2
      cases hs2
      split at h
      · cases h
      cases h
      exact ⟨rfl, rfl⟩

theorem dualstack_step_first (C : Env) (gp_l_n gp_l_p : Option node_t) (yn yp : Int)
    (s s1 : DualState) (tmp : gate_pairs) (next : Option gate_pairs)
    (h : dualstack_step C gp_l_n gp_l_p yn yp s tmp next = .ok s1) :
    s1.firstn = first_after s.firstn tmp.e_n ∧ s1.firstp = first_after s.firstp tmp.e_p := by
  cases tmp with
  | composite _ _ _ => cases h
  | basepair en ep l_n l_p n_start p_start =>
    rw [dualstack_step_split] at h
    exact dualstack_emit_first C gp_l_n gp_l_p yn yp s s1 en ep n_start p_start _ _ _ _ h

theorem head_map_e (f : gate_pairs → Option edge_t) (l : List gate_pairs) :
    (l.map f).head? = l.head?.map f := by
  cases l <;> rfl

/-- The flags logged by the loop are, row by row, those of `row_trace`. -/
theorem dualstack_calls_rows (C : Env) (gp_l_n gp_l_p : Option node_t) (yn yp : Int) :
    ∀ (l : List gate_pairs) (s : DualState) (log : List (Option Nat × Option Nat)),
      dualstack_calls C gp_l_n gp_l_p yn yp s l = .ok log →
      log.map Prod.fst = row_trace s.firstn (l.map gate_pairs.e_n) ∧
      log.map Prod.snd = row_trace s.firstp (l.map gate_pairs.e_p) := by
  intro l
  induction l with
  | nil =>
    intro s log h
    cases h
    exact ⟨rfl, rfl⟩
  | cons tmp rest ih =>
    intro s log h
    simp only [dualstack_calls] at h
    split at h
    · cases h
    rename_i s1 hs1
    split at h
    · cases h
    rename_i log1 hlog1
    cases h
    obtain ⟨hn, hp⟩ := dualstack_step_first C gp_l_n gp_l_p yn yp s s1 tmp _ hs1
    obtain ⟨ihn, ihp⟩ := ih s1 log1 hlog1
    rw [hn] at ihn
    rw [hp] at ihp
    simp [row_trace, head_map_e, ihn, ihp]

/-- The log exists whenever the loop itself returns. -/
theorem dualstack_calls_total (C : Env) (gp_l_n gp_l_p : Option node_t) (yn yp : Int) :
    ∀ (l : List gate_pairs) (s s1 : DualState),
      dualstack_loop C gp_l_n gp_l_p yn yp s l = .ok s1 →
      ∃ log, dualstack_calls C gp_l_n gp_l_p yn yp s l = .ok log := by
  intro l
  induction l with
  | nil => intro s s1 _; exact ⟨[], rfl⟩
  | cons tmp rest ih =>
    intro s s1 h
    simp only [dualstack_loop] at h
    split at h
    · cases h
    rename_i s2 hs2
    obtain ⟨log, hlog⟩ := ih s2 s1 h
    refine ⟨(tmp.e_n.map (fun _ =>
                boundary_flags s.firstn tmp.e_n (rest.head?.map gate_pairs.e_n)),
              tmp.e_p.map (fun _ =>
                boundary_flags s.firstp tmp.e_p (rest.head?.map gate_pairs.e_p))) :: log, ?_⟩
    simp only [dualstack_calls, hs2, hlog]

theorem boundary_flags_left (first : Bool) (e : edge_t) (next : Option (Option edge_t)) :
    boundary_flags first (some e) next &&& EDGE_FLAGS_LEFT ≠ 0 ↔ first = true := by
  cases first <;> rcases next with _ | _ | _ <;>
    simp [boundary_flags, EDGE_FLAGS_LEFT, EDGE_FLAGS_RIGHT]

theorem boundary_flags_right (first : Bool) (e : edge_t) (next : Option (Option edge_t)) :
    boundary_flags first (some e) next &&& EDGE_FLAGS_RIGHT ≠ 0 ↔
      (next = none ∨ next = some none) := by
  cases first <;> rcases next with _ | _ | _ <;>
    simp [boundary_flags, EDGE_FLAGS_LEFT, EDGE_FLAGS_RIGHT]

theorem populated_zero (e : Option edge_t) (rest : List (Option edge_t)) :
    populated (e :: rest) 0 = e.isSome := by
  cases e <;> simp [populated]

theorem populated_succ (e : Option edge_t) (rest : List (Option edge_t)) (j : Nat) :
    populated (e :: rest) (j + 1) = populated rest j := by
  simp [populated]

theorem populated_head (rest : List (Option edge_t)) :
    populated rest 0 = false ↔ (rest.head? = none ∨ rest.head? = some none) := by
  rcases rest with _ | ⟨_ | _, _⟩ <;> simp [populated]

/-- The flags of a row, cell by cell: a cell has flags exactly when it holds an
edge; the left flag is set when `first` still holds and no earlier cell holds
an edge; the right flag is set when the next cell is absent or holds no edge. -/
theorem row_trace_flags :
    ∀ (r : List (Option edge_t)) (first : Bool) (i : Nat) (f : Nat),
      (row_trace first r)[i]? = some (some f) →
      populated r i = true ∧
      (f &&& EDGE_FLAGS_LEFT ≠ 0 ↔ (first = true ∧ ∀ j, j < i → populated r j = false)) ∧
      (f &&& EDGE_FLAGS_RIGHT ≠ 0 ↔ populated r (i + 1) = false) := by
  intro r
  induction r with
  | nil => intro first i f h; simp [row_trace] at h
  | cons e rest ih =>
    intro first i f h
    cases i with
    | zero =>
      cases e with
      | none => simp [row_trace] at h
      | some ed =>
        simp only [row_trace, List.getElem?_cons_zero, Option.map_some', Option.some.injEq] at h
        subst h
        refine ⟨by simp [populated], ?_, ?_⟩
        · rw [boundary_flags_left]
          simp
        · rw [boundary_flags_right, populated_succ, populated_head]
    | succ k =>
      simp only [row_trace, List.getElem?_cons_succ] at h
      obtain ⟨h1, h2, h3⟩ := ih (first_after first e) k f h
      refine ⟨by rw [populated_succ]; exact h1, ?_, ?_⟩
      · rw [h2]
        constructor
        · rintro ⟨hf, hj⟩
          have he : first = true ∧ e = none := by
            cases first <;> cases e <;> simp_all [first_after]
          refine ⟨he.1, ?_⟩
          intro j hjk
          cases j with
          | zero => rw [populated_zero, he.2]; rfl
          | succ j => rw [populated_succ]; exact hj j (by omega)
        · rintro ⟨hf, hj⟩
          have h0 := hj 0 (by omega)
          rw [populated_zero] at h0
          refine ⟨by cases e <;> simp_all [first_after], ?_⟩
          intro j hjk
          have := hj (j + 1) (by omega)
          rwa [populated_succ] at this
      · rw [h3, populated_succ]

theorem row_trace_populated :
    ∀ (r : List (Option edge_t)) (first : Bool) (i : Nat),
      populated r i = true → ∃ f, (row_trace first r)[i]? = some (some f) := by
  intro r
  induction r with
  | nil => intro first i h; simp [populated] at h
  | cons e rest ih =>
    intro first i h
    cases i with
    | zero =>
      cases e with
      | none => simp [populated] at h
      | some ed => exact ⟨boundary_flags first (some ed) rest.head?, by simp [row_trace]⟩
    | succ k =>
      rw [populated_succ] at h
      obtain ⟨f, hf⟩ := ih (first_after first e) k h
      exact ⟨f, by simpa [row_trace] using hf⟩

/-- In a row whose populated cells are consecutive, a populated cell is followed
by an empty or absent cell exactly when no later cell is populated. -/
theorem consecutive_last (r : List (Option edge_t)) (hc : Consecutive r) (i : Nat)
    (hi : populated r i = true) :
    populated r (i + 1) = false ↔ ∀ j, i < j → populated r j = false := by
  constructor
  · intro h j hij
    by_cases hj : j = i + 1
    · rw [hj]; exact h
    · by_contra hne
      have hpj : populated r j = true := by simpa using hne
      have := hc i (i + 1) j (by omega) (by omega) hi hpj
      rw [h] at this
      cases this
  · intro h
    exact h (i + 1) (by omega)

theorem row_trace_local (r : List (Option edge_t)) (hc : Consecutive r) :
    RowFlagsLocal r (row_trace true r) := by
  intro i
  refine ⟨⟨row_trace_populated r true i, ?_⟩, ?_⟩
  · rintro ⟨f, hf⟩
    exact (row_trace_flags r true i f hf).1
  · intro f hf
    obtain ⟨h1, h2, h3⟩ := row_trace_flags r true i f hf
    refine ⟨?_, ?_⟩
    · rw [h2]
      simp
    · rw [h3]
      exact consecutive_last r hc i h1

theorem populated_lt (r : List (Option edge_t)) (k : Nat) (h : populated r k = true) :
    k < r.length := by
  by_contra hk
  have : r[k]? = none := List.getElem?_eq_none (by omega)
  simp [populated, this] at h

theorem exThreeOne_n_consecutive : Consecutive (exThreeOneCells.map gate_pairs.e_n) := by
  intro i j k hij hjk _ hk
  have hlt := populated_lt _ k hk
  simp only [exThreeOneCells, List.map_cons, List.map_nil, List.length_cons, List.length_nil]
    at hlt
  have hj : j = 1 := by omega
  subst hj
  simp [populated, exThreeOneCells, gate_pairs.e_n]

theorem exThreeOne_p_consecutive : Consecutive (exThreeOneCells.map gate_pairs.e_p) := by
  intro i j k hij hjk hi hk
  have hlt := populated_lt _ k hk
  simp only [exThreeOneCells, List.map_cons, List.map_nil, List.length_cons, List.length_nil]
    at hlt
  have hi0 : i = 0 := by omega
  subst hi0
  simp [populated, exThreeOneCells, gate_pairs.e_p] at hi

/-- C11. A composite dual stack on which `print_dualstack` returns, each row's
populated base pairs being consecutive: the loop calls `emit_rectangle` for a
row exactly on the base pairs where the row has an edge, with the left flag set
exactly on the row's first populated base pair and the right flag set exactly
on its last populated base pair. -/
theorem composite_boundary_flags (C : Env) (l : List gate_pairs) (l_n l_p : Option node_t)
    (diffspace : Int)
    (hr : (print_dualstack_run C (.composite l l_n l_p) diffspace).isOk = true)
    (hn : Consecutive (l.map gate_pairs.e_n)) (hp : Consecutive (l.map gate_pairs.e_p)) :
    ∃ log,
      dualstack_calls C l_n l_p (row_yn diffspace) (row_yp diffspace) dualInit l = .ok log ∧
      RowFlagsLocal (l.map gate_pairs.e_n) (log.map Prod.fst) ∧
      RowFlagsLocal (l.map gate_pairs.e_p) (log.map Prod.snd) := by
  have hloop : ∃ s, dualstack_loop C l_n l_p (row_yn diffspace) (row_yp diffspace) dualInit l
      = .ok s := by
    cases l with
    | nil => simp [print_dualstack_run, Except.isOk, Except.toBool] at hr
    | cons tmp rest =>
      simp only [print_dualstack_run] at hr
      split at hr
      · simp [Except.isOk, Except.toBool] at hr
      · split at hr
        · simp [Except.isOk, Except.toBool] at hr
        · rename_i s hs
          exact ⟨s, hs⟩
  obtain ⟨s, hs⟩ := hloop
  obtain ⟨log, hlog⟩ := dualstack_calls_total C l_n l_p _ _ l dualInit s hs
  obtain ⟨h1, h2⟩ := dualstack_calls_rows C l_n l_p _ _ l dualInit log hlog
  refine ⟨log, hlog, ?_, ?_⟩
  · rw [h1]
    exact row_trace_local _ hn
  · rw [h2]
    exact row_trace_local _ hp

theorem composite_boundary_flags_witness :
    (print_dualstack_run exEnv (.composite exThreeOneCells (some (exNode 1)) (some (exNode 11)))
      6).isOk = true ∧
    ∃ log,
      dualstack_calls exEnv (some (exNode 1)) (some (exNode 11)) (row_yn 6) (row_yp 6) dualInit
        exThreeOneCells = .ok log ∧
      RowFlagsLocal (exThreeOneCells.map gate_pairs.e_n) (log.map Prod.fst) ∧
      RowFlagsLocal (exThreeOneCells.map gate_pairs.e_p) (log.map Prod.snd) :=
  ⟨by rfl,
   composite_boundary_flags exEnv exThreeOneCells (some (exNode 1)) (some (exNode 11)) 6
     (by rfl) exThreeOne_n_consecutive exThreeOne_p_consecutive⟩

/-- The flags of the calls on `exThreeOneCells`: the N row gets the left flag on its
first edge, none on the second and the right flag on the third; the single edge
of the P row gets both. -/
theorem exThreeOne_calls :
    dualstack_calls exEnv (some (exNode 1)) (some (exNode 11)) (row_yn 6) (row_yp 6) dualInit
      exThreeOneCells = .ok [(some 1, none), (some 0, some 3), (some 2, none)] := by rfl

/-! ## C12: the accumulator and the rectangles drawn -/

theorem update_rect_swap_y (r : Rect) (x y rx ry : Int) :
    update_rect r x ry rx y = update_rect r x y rx ry := by
  unfold update_rect
  simp only [MIN_eq_min, MAX_eq_max]
  have h1 : min ry y = min y ry := min_comm _ _
  have h2 : max ry y = max y ry := max_comm _ _
  have h3 : min (min r.lly ry) y = min (min r.lly y) ry := by omega
  have h4 : max (max r.ury ry) y = max (max r.ury y) ry := by omega
  rw [h1, h2, h3, h4]

theorem update_bbox_swap_y (b : BBox) (t : EdgeType) (x y rx ry : Int) :
    update_bbox b t x ry rx y = update_bbox b t x y rx ry := by
  unfold update_bbox
  rw [update_rect_swap_y b.p, update_rect_swap_y b.n]

/-- The corners given to `update_bbox` for a rectangle drawn below the centre
line are those of the rectangle drawn. -/
theorem update_bbox_below (b : BBox) (t : EdgeType) (x dy rx yup w : Int) :
    update_bbox b t x (dy + yup * w) rx (dy + yup * w + -yup * w) =
      update_bbox b t x dy rx (dy + yup * w) := by
  have : dy + yup * w + -yup * w = dy := by ring
  rw [this, update_bbox_swap_y]

theorem grow_above (b : BBox) (fl : Nat) (t : EdgeType) (x dy wx yup w : Int)
    (net : Option node_t) :
    grow b (.DrawDiff fl t x dy wx (yup * w) net) =
      update_bbox b t x dy (x + wx) (dy + yup * w) := rfl

theorem grow_fet (b : BBox) (fl : Nat) (t : EdgeType) (x y wx wy : Int) (net : Option node_t) :
    grow b (.DrawFet fl t x y wx wy net) = b := rfl

theorem grow_poly (b : BBox) (x y wx wy : Int) (net : Option node_t) :
    grow b (.DrawPoly x y wx wy net) = b := rfl

theorem grow_poly_ite (b : BBox) (c : Prop) [Decidable c] (x y wx wy x1 y1 wx1 wy1 : Int)
    (net net1 : Option node_t) :
    grow b (if c then .DrawPoly x y wx wy net else .DrawPoly x1 y1 wx1 wy1 net1) = b := by
  split_ifs <;> rfl

/-- The accumulator after `emit_draw` is the accumulator grown by the diffusion
rectangles of its log, in order; the gate and poly rectangles leave it as it
is. -/
theorem emit_draw_grow (C : Env) (pad dx dy : Int) (flags : Nat) (left : node_t) (e : edge_t)
    (eopp : Option edge_t) (oup e_w yup : Int) (b : BBox) (fet_type rect prev_w : Int) :
    (emit_draw C pad dx dy flags left e eopp oup e_w yup b fet_type rect prev_w).2.1 =
      (emit_draw C pad dx dy flags left e eopp oup e_w yup b fet_type rect prev_w).2.2.foldl
        grow b := by
  simp only [emit_draw, List.foldl_append]
  by_cases h0 : fet_type = 0 <;> by_cases hy : yup < 0 <;>
    by_cases hr : flags &&& EDGE_FLAGS_RIGHT = 0 <;>
    simp only [h0, hy, hr, if_true, if_false, ne_eq, not_true_eq_false, not_false_eq_true,
      List.foldl_cons, List.foldl_nil, grow_above, update_bbox_below, grow_fet, grow_poly,
      grow_poly_ite]

theorem emit_rectangle_grow (C : Env) (pad dx dy : Int) (flags : Nat) (prev : Option edge_t)
    (previdx : Int) (left : node_t) (e : edge_t) (eopp : Option edge_t) (oup eidx yup : Int)
    (b : BBox) (r : EmitResult)
    (h : emit_rectangle C pad dx dy flags prev previdx left e eopp oup eidx yup (some b)
      = .ok r) :
    r.ret = some (r.drawn.foldl grow (start_box (some b) e)) := by
  simp only [emit_rectangle] at h
  split at h
  · cases h
  split at h
  · cases h
    simp only [Option.map_some']
    rw [emit_draw_grow]
    rfl
  · cases h

theorem grow_fold_p (ds : List Draw) :
    ∀ b : BBox, (ds.foldl grow b).p = (diff_rects .EDGE_PFET ds).foldl absorb b.p := by
  induction ds with
  | nil => intro b; rfl
  | cons d rest ih =>
    intro b
    rw [List.foldl_cons, ih]
    cases d with
    | DrawDiff fl t x y wx wy net =>
      cases t <;>
        simp [diff_rects, Draw.isDiffOf, grow, update_bbox, absorb, Draw.rect]
    | DrawFet fl t x y wx wy net => simp [diff_rects, Draw.isDiffOf, grow]
    | DrawPoly x y wx wy net => simp [diff_rects, Draw.isDiffOf, grow]

theorem grow_fold_n (ds : List Draw) :
    ∀ b : BBox, (ds.foldl grow b).n = (diff_rects .EDGE_NFET ds).foldl absorb b.n := by
  induction ds with
  | nil => intro b; rfl
  | cons d rest ih =>
    intro b
    rw [List.foldl_cons, ih]
    cases d with
    | DrawDiff fl t x y wx wy net =>
      cases t <;>
        simp [diff_rects, Draw.isDiffOf, grow, update_bbox, absorb, Draw.rect]
    | DrawFet fl t x y wx wy net => simp [diff_rects, Draw.isDiffOf, grow]
    | DrawPoly x y wx wy net => simp [diff_rects, Draw.isDiffOf, grow]

theorem diff_rects_append (t : EdgeType) (l1 l2 : List Draw) :
    diff_rects t (l1 ++ l2) = diff_rects t l1 ++ diff_rects t l2 := by
  simp [diff_rects]

/-- A sequence of calls grows each polarity's rectangle by the diffusion
rectangles the calls draw for that polarity, in order. -/
theorem emit_seq_grow (C : Env) :
    ∀ (calls : List EmitCall) (b b1 : BBox) (ds ds1 : List Draw),
      emit_seq C b ds calls = .ok (b1, ds1) →
      ∃ new, ds1 = ds ++ new ∧
        b1.p = (diff_rects .EDGE_PFET new).foldl absorb b.p ∧
        b1.n = (diff_rects .EDGE_NFET new).foldl absorb b.n := by
  intro calls
  induction calls with
  | nil =>
    intro b b1 ds ds1 h
    cases h
    exact ⟨[], by simp, rfl, rfl⟩
  | cons c rest ih =>
    intro b b1 ds ds1 h
    simp only [emit_seq] at h
    split at h
    · cases h
    rename_i r hr
    obtain ⟨new, hnew, hp, hn⟩ := ih _ _ _ _ h
    have hg := emit_rectangle_grow C _ _ _ _ _ _ _ _ _ _ _ _ b r hr
    refine ⟨r.drawn ++ new, by rw [hnew, List.append_assoc], ?_, ?_⟩
    · rw [hp, hg, diff_rects_append, List.foldl_append, Option.getD_some, grow_fold_p]
      rfl
    · rw [hn, hg, diff_rects_append, List.foldl_append, Option.getD_some, grow_fold_n]
      rfl

theorem absorb_empty (r c : Rect) (he : r.isEmpty) (hx : c.llx < c.urx) (hy : c.lly < c.ury) :
    absorb r c = c := by
  unfold absorb
  rw [update_rect_empty r _ _ _ _ he (by omega) (by omega)]

theorem absorb_nonempty (r c : Rect) (he : ¬ r.isEmpty) (hx : c.llx < c.urx)
    (hy : c.lly < c.ury) :
    absorb r c = hull r c := by
  unfold absorb
  rw [update_rect_nonempty r _ _ _ _ he (by omega) (by omega)]
  rfl

theorem hull_nonempty (r c : Rect) (he : ¬ r.isEmpty) : ¬ (hull r c).isEmpty := by
  simp only [Rect.isEmpty, hull] at *
  omega

theorem absorb_fold_nonempty :
    ∀ (cs : List Rect) (r : Rect), ¬ r.isEmpty →
      (∀ c ∈ cs, c.llx < c.urx ∧ c.lly < c.ury) →
      cs.foldl absorb r = cs.foldl hull r := by
  intro cs
  induction cs with
  | nil => intro r _ _; rfl
  | cons c rest ih =>
    intro r he hc
    have h1 := hc c (List.mem_cons_self c rest)
    rw [List.foldl_cons, List.foldl_cons, absorb_nonempty r c he h1.1 h1.2]
    exact ih _ (hull_nonempty r c he) (fun d hd => hc d (List.mem_cons_of_mem c hd))

/-- From the empty state, the `update_bbox` steps over rectangles of positive
width and height end in their bounding box. -/
theorem absorb_fold_empty (cs : List Rect) (r : Rect) (he : r.isEmpty)
    (hc : ∀ c ∈ cs, c.llx < c.urx ∧ c.lly < c.ury) :
    cs.foldl absorb r = (bounding cs).getD r := by
  cases cs with
  | nil => rfl
  | cons c rest =>
    have h1 := hc c (List.mem_cons_self c rest)
    rw [List.foldl_cons, absorb_empty r c he h1.1 h1.2]
    have hne : ¬ c.isEmpty := by
      simp only [Rect.isEmpty]
      omega
    rw [absorb_fold_nonempty rest c hne (fun d hd => hc d (List.mem_cons_of_mem c hd))]
    rfl

theorem diff_rects_positive (t : EdgeType) (ds : List Draw)
    (hpos : ∀ d ∈ ds, d.isDiff = true → 0 < d.size.1 ∧ 0 < d.size.2) :
    ∀ c ∈ diff_rects t ds, c.llx < c.urx ∧ c.lly < c.ury := by
  intro c hc
  simp only [diff_rects, List.mem_map, List.mem_filter] at hc
  obtain ⟨d, ⟨hd, hdt⟩, rfl⟩ := hc
  cases d with
  | DrawDiff fl t1 x y wx wy net =>
    have := hpos _ hd rfl
    simp only [Draw.size] at this
    simp only [Draw.rect]
    omega
  | DrawFet fl t1 x y wx wy net => simp [Draw.isDiffOf] at hdt
  | DrawPoly x y wx wy net => simp [Draw.isDiffOf] at hdt

/-- C12. After any sequence of `emit_rectangle` calls that returns, started on an
accumulator whose two rectangles are empty, and whose diffusion rectangles all
have positive width and height: the rectangle of each polarity is the bounding
box of the diffusion rectangles drawn for that polarity, and it is the initial
(empty) one when none was drawn.  Gate and poly rectangles are not counted. -/
theorem accumulator_is_diffusion_bbox (C : Env) (calls : List EmitCall) (b0 b : BBox)
    (ds : List Draw)
    (hrun : emit_seq C b0 [] calls = .ok (b, ds))
    (hp0 : b0.p.isEmpty) (hn0 : b0.n.isEmpty)
    (hpos : ∀ d ∈ ds, d.isDiff = true → 0 < d.size.1 ∧ 0 < d.size.2) :
    b.p = (bounding (diff_rects .EDGE_PFET ds)).getD b0.p ∧
    b.n = (bounding (diff_rects .EDGE_NFET ds)).getD b0.n ∧
    (diff_rects .EDGE_PFET ds = [] → b.p.isEmpty) ∧
    (diff_rects .EDGE_NFET ds = [] → b.n.isEmpty) := by
  obtain ⟨new, hnew, hp, hn⟩ := emit_seq_grow C calls b0 b [] ds hrun
  rw [List.nil_append] at hnew
  subst hnew
  have h1 := absorb_fold_empty _ b0.p hp0 (diff_rects_positive .EDGE_PFET ds hpos)
  have h2 := absorb_fold_empty _ b0.n hn0 (diff_rects_positive .EDGE_NFET ds hpos)
  rw [h1] at hp
  rw [h2] at hn
  refine ⟨hp, hn, ?_, ?_⟩
  · intro h
    rw [hp, h]
    exact hp0
  · intro h
    rw [hn, h]
    exact hn0

theorem accumulator_is_diffusion_bbox_witness :
    emit_seq exEnv zeroBBox [] [exCallN] = .ok (exCallNBox, exCallNDrawn) ∧
    zeroBBox.p.isEmpty ∧ zeroBBox.n.isEmpty ∧
    (∀ d ∈ exCallNDrawn, d.isDiff = true → 0 < d.size.1 ∧ 0 < d.size.2) ∧
    (exCallNBox.p = (bounding (diff_rects .EDGE_PFET exCallNDrawn)).getD zeroBBox.p ∧
     exCallNBox.n = (bounding (diff_rects .EDGE_NFET exCallNDrawn)).getD zeroBBox.n ∧
     (diff_rects .EDGE_PFET exCallNDrawn = [] → exCallNBox.p.isEmpty) ∧
     (diff_rects .EDGE_NFET exCallNDrawn = [] → exCallNBox.n.isEmpty)) :=
  ⟨by rfl, Or.inl (by decide), Or.inl (by decide), by decide,
   accumulator_is_diffusion_bbox exEnv [exCallN] zeroBBox exCallNBox exCallNDrawn (by rfl)
     (Or.inl (by decide)) (Or.inl (by decide)) (by decide)⟩

/-- C12, as stated, fails: after the single call `exCallN` the N rectangle of
the accumulator is `[0, 7] x [-2, 0]`, the bounding box of the two diffusion
rectangles, while the rectangles drawn for the row, with the two poly
rectangles, span `[0, 7] x [-3, 1]`. -/
theorem accumulator_misses_poly :
    emit_seq exEnv zeroBBox [] [exCallN] = .ok (exCallNBox, exCallNDrawn) ∧
    exCallNBox.n = ⟨0, -2, 7, 0⟩ ∧
    bounding (exCallNDrawn.map Draw.rect) = some ⟨0, -3, 7, 1⟩ ∧
    bounding (diff_rects .EDGE_NFET exCallNDrawn) = some ⟨0, -2, 7, 0⟩ :=
  ⟨by rfl, by rfl, by decide, by decide⟩

/-! ## C21: repeated boundary computation -/

theorem snap_dn_fixed (m : Int) (p : Nat) (hp : 0 < p) (hm : (p : Int) ∣ m) :
    snap_dn m p = m := by
  rw [snap_dn_eq m p hp, Int.emod_eq_zero_of_dvd hm]
  omega

theorem snap_up_fixed (m : Int) (p : Nat) (hp : 0 < p) (hm : (p : Int) ∣ m) :
    snap_up m p = m := by
  rw [snap_up_eq m p hp, Int.emod_eq_zero_of_dvd ((Int.dvd_neg).mpr hm)]
  omega

/-- C21. For every non-empty box and positive pitches (on a technology with at
least three metal layers), `computeLEFBoundary` applied to the box it has set
sets the same box again: `snap_dn` leaves the snapped low corner where it is,
and `snap_up (high + 1) - 1` leaves the snapped high corner where it is. -/
theorem boundary_idempotent (A : Align) (bb : Rect)
    (hx : bb.llx ≤ bb.urx) (hy : bb.lly ≤ bb.ury)
    (hpx : 0 < A.pitch_x) (hpy : 0 < A.pitch_y) (hm : 3 ≤ A.nmetals) :
    ∃ box, computeLEFBoundary A (some bb) = .ok (.merged box) ∧
      computeLEFBoundary A (some box) = .ok (.merged box) := by
  obtain ⟨a1, a2, _, _⟩ := snap_dn_spec bb.llx A.pitch_x hpx
  obtain ⟨b1, b2, _, _⟩ := snap_dn_spec bb.lly A.pitch_y hpy
  obtain ⟨c1, c2, _, _⟩ := snap_up_spec (bb.urx + 1) A.pitch_x hpx
  obtain ⟨d1, d2, _, _⟩ := snap_up_spec (bb.ury + 1) A.pitch_y hpy
  refine ⟨_, computeLEFBoundary_eq A bb hx hy hm, ?_⟩
  rw [computeLEFBoundary_eq A _ (by simp only; omega) (by simp only; omega) hm]
  simp only [sub_add_cancel]
  rw [snap_dn_fixed _ _ hpx a1, snap_dn_fixed _ _ hpy b1, snap_up_fixed _ _ hpx c1,
    snap_up_fixed _ _ hpy d1]

theorem boundary_idempotent_witness :
    exContent.llx ≤ exContent.urx ∧ exContent.lly ≤ exContent.ury ∧
    ∃ box, computeLEFBoundary exAlign (some exContent) = .ok (.merged box) ∧
      computeLEFBoundary exAlign (some box) = .ok (.merged box) :=
  ⟨by decide, by decide,
   boundary_idempotent exAlign exContent (by decide) (by decide) (by decide) (by decide)
     (by decide)⟩

/-! ## C22: the top band -/

/-- The loop of the top band from `t0`, for a positive pitch: it exits after `k`
rounds, `k` being the least number of pitches that clears the two pin rows. -/
theorem top_band_loop_exits (A : Align) (M : PinMetal) (hp : 0 < A.pitch_y) :
    ∀ (n : Nat) (t0 : Int),
      (A.pitch_y : Int) + M.minWidth + M.minSpacing + M.minWidth - t0 < n →
      ∃ k : Nat,
        (∀ fuel, k < fuel →
          top_band_loop A M fuel t0 = some (t0 + k * (A.pitch_y : Int))) ∧
        (t0 + k * (A.pitch_y : Int)) - M.minWidth
          > (A.pitch_y : Int) + M.minWidth + M.minSpacing ∧
        ∀ j : Nat, j < k →
          ¬ ((t0 + j * (A.pitch_y : Int)) - M.minWidth
              > (A.pitch_y : Int) + M.minWidth + M.minSpacing) := by
  have hp' : (0 : Int) < (A.pitch_y : Int) := by exact_mod_cast hp
  intro n
  induction n with
  | zero =>
    intro t0 h
    refine ⟨0, ?_, ?_, ?_⟩
    · intro fuel hf
      obtain ⟨f, rfl⟩ : ∃ f, fuel = f + 1 := ⟨fuel - 1, by omega⟩
      have hc : ¬ (t0 - M.minWidth ≤ (A.pitch_y : Int) + M.minWidth + M.minSpacing) := by
        push_cast at h
        omega
      simp [top_band_loop, hc]
    · push_cast at h ⊢
      omega
    · intro j hj
      omega
  | succ n ih =>
    intro t0 h
    by_cases hc : t0 - M.minWidth ≤ (A.pitch_y : Int) + M.minWidth + M.minSpacing
    · obtain ⟨k, h1, h2, h3⟩ := ih (t0 + (A.pitch_y : Int)) (by push_cast at h ⊢; omega)
      refine ⟨k + 1, ?_, ?_, ?_⟩
      · intro fuel hf
        obtain ⟨f, rfl⟩ : ∃ f, fuel = f + 1 := ⟨fuel - 1, by omega⟩
        simp only [top_band_loop, if_pos hc]
        rw [h1 f (by omega)]
        congr 1
        push_cast
        ring
      · have e : t0 + ((k + 1 : Nat) : Int) * (A.pitch_y : Int)
            = t0 + (A.pitch_y : Int) + (k : Int) * (A.pitch_y : Int) := by
          push_cast
          ring
        rw [e]
        exact h2
      · intro j hj
        cases j with
        | zero =>
          simp only [Nat.cast_zero, zero_mul, add_zero]
          omega
        | succ j =>
          have := h3 j (by omega)
          have e : t0 + ((j + 1 : Nat) : Int) * (A.pitch_y : Int)
              = t0 + (A.pitch_y : Int) + (j : Int) * (A.pitch_y : Int) := by
            push_cast
            ring
          rw [e]
          exact this
    · refine ⟨0, ?_, ?_, ?_⟩
      · intro fuel hf
        obtain ⟨f, rfl⟩ : ∃ f, fuel = f + 1 := ⟨fuel - 1, by omega⟩
        simp [top_band_loop, hc]
      · simp only [Nat.cast_zero, zero_mul, add_zero]
        omega
      · intro j hj
        omega

/-- C22. For every cell height and every positive y pitch the top-band loop of
`_createlocallayout` exits: with enough fuel it returns the offset `tedge =
snap_up_y (height) + k * pitch_y` for the least `k >= 0` with `tedge - minWidth
> pitch_y + minWidth + minSpacing`.  This `tedge` is a multiple of `pitch_y`,
and the gap between the top of the bottom pin row (`pitch_y + minWidth`) and
the bottom of the top pin row (`tedge - minWidth`) exceeds `minSpacing`. -/
theorem top_band_offset (A : Align) (M : PinMetal) (hp : 0 < A.pitch_y) (height : Int) :
    ∃ (k : Nat) (tedge : Int),
      tedge = snap_up_y A height + k * (A.pitch_y : Int) ∧
      (∀ fuel, k < fuel → createlocallayout_tedge A M fuel height = some tedge) ∧
      tedge - M.minWidth > (A.pitch_y : Int) + M.minWidth + M.minSpacing ∧
      (∀ j : Nat, j < k →
        ¬ ((snap_up_y A height + j * (A.pitch_y : Int)) - M.minWidth
            > (A.pitch_y : Int) + M.minWidth + M.minSpacing)) ∧
      (A.pitch_y : Int) ∣ tedge ∧
      (tedge - M.minWidth) - ((A.pitch_y : Int) + M.minWidth) > M.minSpacing := by
  obtain ⟨k, h1, h2, h3⟩ := top_band_loop_exits A M hp
    (((A.pitch_y : Int) + M.minWidth + M.minSpacing + M.minWidth
        - snap_up_y A height).toNat + 1) (snap_up_y A height)
    (by push_cast; omega)
  refine ⟨k, _, rfl, h1, h2, h3, ?_, by omega⟩
  have hd := (snap_up_spec height A.pitch_y hp).1
  exact Int.dvd_add hd (Dvd.intro_left _ rfl)

theorem top_band_offset_witness :
    0 < exPinAlign.pitch_y ∧
    ∃ (k : Nat) (tedge : Int),
      tedge = snap_up_y exPinAlign 3 + k * (exPinAlign.pitch_y : Int) ∧
      (∀ fuel, k < fuel → createlocallayout_tedge exPinAlign exPinMetal fuel 3 = some tedge) ∧
      tedge - exPinMetal.minWidth
        > (exPinAlign.pitch_y : Int) + exPinMetal.minWidth + exPinMetal.minSpacing ∧
      (∀ j : Nat, j < k →
        ¬ ((snap_up_y exPinAlign 3 + j * (exPinAlign.pitch_y : Int)) - exPinMetal.minWidth
            > (exPinAlign.pitch_y : Int) + exPinMetal.minWidth + exPinMetal.minSpacing)) ∧
      (exPinAlign.pitch_y : Int) ∣ tedge ∧
      (tedge - exPinMetal.minWidth) - ((exPinAlign.pitch_y : Int) + exPinMetal.minWidth)
        > exPinMetal.minSpacing :=
  ⟨by decide, top_band_offset exPinAlign exPinMetal (by decide) 3⟩

/-- The top offset of a cell of height `3` with y pitch `4`, pin width `1` and
pin spacing `1`: `snap_up_y (3) = 4`, grown once to `8`. -/
theorem top_band_example : createlocallayout_tedge exPinAlign exPinMetal 5 3 = some 8 := by
  rfl

/-! ## C23: the stride of the pins -/

theorem stride_loop_exits (pitch n redge : Int) (hp : 0 < pitch) (hn : 0 < n) :
    ∀ (m : Nat) (s0 : Int),
      redge - (pitch + n * s0 * pitch) < m →
      ∃ k : Nat,
        (∀ fuel, k < fuel → stride_loop pitch n redge fuel s0 = some (s0 + k)) ∧
        ¬ StrideFits pitch n redge (s0 + k) ∧
        ∀ j : Nat, j < k → StrideFits pitch n redge (s0 + j) := by
  have hc : 0 < n * pitch := mul_pos hn hp
  intro m
  induction m with
  | zero =>
    intro s0 h
    have hx : ¬ (pitch + n * s0 * pitch ≤ redge) := by
      push_cast at h
      omega
    refine ⟨0, ?_, ?_, ?_⟩
    · intro fuel hf
      obtain ⟨f, rfl⟩ : ∃ f, fuel = f + 1 := ⟨fuel - 1, by omega⟩
      simp [stride_loop, hx]
    · simpa [StrideFits] using hx
    · intro j hj
      omega
  | succ m ih =>
    intro s0 h
    by_cases hx : pitch + n * s0 * pitch ≤ redge
    · have e : n * (s0 + 1) * pitch = n * s0 * pitch + n * pitch := by ring
      obtain ⟨k, h1, h2, h3⟩ := ih (s0 + 1) (by rw [e]; push_cast at h ⊢; omega)
      refine ⟨k + 1, ?_, ?_, ?_⟩
      · intro fuel hf
        obtain ⟨f, rfl⟩ : ∃ f, fuel = f + 1 := ⟨fuel - 1, by omega⟩
        simp only [stride_loop, if_pos hx]
        rw [h1 f (by omega)]
        congr 1
        push_cast
        ring
      · have e2 : s0 + ((k + 1 : Nat) : Int) = s0 + 1 + (k : Int) := by
          push_cast
          ring
        rw [e2]
        exact h2
      · intro j hj
        cases j with
        | zero => simpa [StrideFits] using hx
        | succ j =>
          have e2 : s0 + ((j + 1 : Nat) : Int) = s0 + 1 + (j : Int) := by
            push_cast
            ring
          rw [e2]
          exact h3 j (by omega)
    · refine ⟨0, ?_, ?_, ?_⟩
      · intro fuel hf
        obtain ⟨f, rfl⟩ : ∃ f, fuel = f + 1 := ⟨fuel - 1, by omega⟩
        simp [stride_loop, hx]
      · simpa [StrideFits] using hx
      · intro j hj
        omega

/-- A larger stride fits only if a smaller one does. -/
theorem StrideFits.antitone (pitch n redge s t : Int) (hp : 0 < pitch) (hn : 0 < n)
    (hst : s ≤ t) (h : StrideFits pitch n redge t) : StrideFits pitch n redge s := by
  unfold StrideFits at *
  have hc : 0 < n * pitch := mul_pos hn hp
  have e1 : n * s * pitch = n * pitch * s := by ring
  have e2 : n * t * pitch = n * pitch * t := by ring
  have := mul_le_mul_of_nonneg_left hst (le_of_lt hc)
  rw [e1]
  rw [e2] at h
  omega

/-- The chosen stride for `n > 0` pins and a positive pitch: with enough fuel
`choose_stride` returns a stride `s >= 1` that is the largest one that fits when
some stride fits, and `1` when none does. -/
theorem choose_stride_spec (pitch n redge : Int) (hp : 0 < pitch) (hn : 0 < n) :
    ∃ (s : Int) (bound : Nat),
      1 ≤ s ∧
      (∀ fuel, bound < fuel → choose_stride pitch n redge fuel = some s) ∧
      ((∃ t, 1 ≤ t ∧ StrideFits pitch n redge t) →
        StrideFits pitch n redge s ∧ ∀ t, 1 ≤ t → StrideFits pitch n redge t → t ≤ s) ∧
      ((¬ ∃ t, 1 ≤ t ∧ StrideFits pitch n redge t) → s = 1) := by
  obtain ⟨k, h1, h2, h3⟩ := stride_loop_exits pitch n redge hp hn
    ((redge - (pitch + n * 1 * pitch)).toNat + 1) 1 (by push_cast; omega)
  have hlarge : ∀ t, (1 : Int) + k ≤ t → ¬ StrideFits pitch n redge t :=
    fun t ht hfit => h2 (StrideFits.antitone pitch n redge _ t hp hn ht hfit)
  cases k with
  | zero =>
    refine ⟨1, 0, le_refl _, ?_, ?_, ?_⟩
    · intro fuel hf
      simp only [choose_stride, if_pos hn, h1 fuel hf]
      rfl
    · rintro ⟨t, ht, hfit⟩
      exact absurd hfit (hlarge t (by simpa using ht))
    · intro _
      rfl
  | succ k =>
    have hk : StrideFits pitch n redge ((k : Int) + 1) := by
      have := h3 k (by omega)
      rwa [add_comm] at this
    refine ⟨(k : Int) + 1, k + 1, by omega, ?_, ?_, ?_⟩
    · intro fuel hf
      simp only [choose_stride, if_pos hn, h1 fuel hf]
      have e : (1 : Int) + ((k + 1 : Nat) : Int) - 1 = (k : Int) + 1 := by
        push_cast
        ring
      have hne : ¬ ((k : Int) + 1 = 0) := by omega
      simp only [e, if_neg hne]
    · intro _
      refine ⟨hk, ?_⟩
      intro t _ hfit
      by_contra hc
      exact hlarge t (by push_cast; omega) hfit
    · intro hno
      exact absurd ⟨_, by omega, hk⟩ hno

theorem foldExcept_inv {σ α : Type} (f : σ → α → Except Fatal σ) (P : σ → Prop)
    (hstep : ∀ st a st1, P st → f st a = .ok st1 → P st1) :
    ∀ (l : List α) (st st1 : σ), P st → foldExcept f st l = .ok st1 → P st1 := by
  intro l
  induction l with
  | nil =>
    intro st st1 hP h
    cases h
    exact hP
  | cons a rest ih =>
    intro st st1 hP h
    simp only [foldExcept] at h
    split at h
    · cases h
    rename_i st2 h2
    exact ih st2 st1 (hstep st a st2 hP h2) h

theorem top_pins_append (l1 l2 : List MetalPin) :
    top_pins (l1 ++ l2) = top_pins l1 ++ top_pins l2 := by
  simp [top_pins]

theorem draw_top_offsets (A : Align) (M : PinMetal) (G : PinGeom) (st : DrawState) (net : Nat)
    (h : TopOffsets A G st) : TopOffsets A G (draw_top A M G st net) := by
  obtain ⟨m, h1, h2⟩ := h
  refine ⟨m + 1, ?_, ?_⟩
  · simp only [draw_top, h1]
    push_cast
    ring
  · simp only [draw_top, top_pins_append, List.map_append, h2, List.range_succ]
    simp [top_pins, h1]

theorem draw_bottom_offsets (A : Align) (M : PinMetal) (G : PinGeom) (st : DrawState)
    (net : Nat) (h : TopOffsets A G st) : TopOffsets A G (draw_bottom A M G st net) := by
  obtain ⟨m, h1, h2⟩ := h
  refine ⟨m, h1, ?_⟩
  simp only [draw_bottom, top_pins_append, List.map_append, h2]
  simp [top_pins]

theorem found_offsets (A : Align) (G : PinGeom) (nl : PinNetlist) (st : DrawState) (id : Nat)
    (h : TopOffsets A G st) : TopOffsets A G (st.found nl id) := h

theorem flag_offsets (A : Align) (G : PinGeom) (st : DrawState) (v g : Bool)
    (h : TopOffsets A G st) :
    TopOffsets A G { st with found_vdd := v, found_gnd := g } := h

/-- The top pins drawn by the second pass lie at the offsets `pitch + k * (pitch *
s_in)`, `k = 0, 1, ...`, from the low corner. -/
theorem draw_pins_top_offsets (A : Align) (M : PinMetal) (G : PinGeom) (nl : PinNetlist)
    (pins : List MetalPin) (h : draw_pins A M G nl = .ok pins) :
    (top_pins pins).map MetalPin.x =
      (List.range (top_pins pins).length).map
        (fun (k : Nat) =>
          G.bllx + ((A.pitch_x : Int) + (k : Int) * ((A.pitch_x : Int) * G.s_in))) := by
  have h0 : TopOffsets A G
      { p_in := (A.pitch_x : Int), p_out := (A.pitch_x : Int),
        found_vdd := false, found_gnd := false, pins := [] } :=
    ⟨0, by simp, by simp [top_pins]⟩
  have hport : ∀ st a st1, TopOffsets A G st → draw_port A M G nl st a = .ok st1 →
      TopOffsets A G st1 := by
    intro st a st1 hP hs
    unfold draw_port at hs
    split at hs
    · cases hs; exact hP
    split at hs
    · cases hs; exact hP
    · cases hs
    · cases hs
      apply found_offsets
      split
      · exact draw_top_offsets A M G st _ hP
      · exact draw_bottom_offsets A M G st _ hP
  have hglobal : ∀ st a st1, TopOffsets A G st → draw_global A M G nl st a = .ok st1 →
      TopOffsets A G st1 := by
    intro st a st1 hP hs
    unfold draw_global at hs
    split at hs
    · cases hs
    · cases hs
    · cases hs
      exact found_offsets A G nl _ _ (draw_top_offsets A M G st _ hP)
  have hsup : ∀ st, TopOffsets A G st → TopOffsets A G (draw_supplies A M G nl st) := by
    intro st hP
    have h1 : TopOffsets A G (draw_vdd A M G nl st) := by
      unfold draw_vdd
      split
      · split
        · exact draw_top_offsets A M G _ _ hP
        · exact hP
      · exact hP
    unfold draw_supplies draw_gnd
    split
    · split
      · exact draw_top_offsets A M G _ _ h1
      · exact h1
    · exact h1
  unfold draw_pins at h
  split at h
  · cases h
  rename_i st1 hs1
  split at h
  · cases h
  rename_i st2 hs2
  cases h
  have i1 := foldExcept_inv _ (TopOffsets A G) hport _ _ _ h0 hs1
  have i2 := foldExcept_inv _ (TopOffsets A G) hglobal _ _ _ i1 hs2
  obtain ⟨m, _, hm⟩ := hsup st2 i2
  have hlen : (top_pins (draw_supplies A M G nl st2).pins).length = m := by
    have := congrArg List.length hm
    rwa [List.length_map, List.length_map, List.length_range] at this
  rw [hlen]
  exact hm

/-- C23. For `n > 0` pins, a positive x pitch and every edge length `redge`: with
enough fuel the stride loop of `_createlocallayout` returns a stride `s >= 1`,
the largest one with `pitch + n * s * pitch <= redge` when a stride fits and `1`
when none does.  When `pitch + n * pitch <= redge`, each offset `pitch + k *
(pitch * s)`, `k < n`, is a multiple of the pitch and smaller than `redge`; and
these are the offsets from the low corner at which the second pass draws the
top pins. -/
theorem stride_is_largest (A : Align) (n redge : Int) (hp : 0 < A.pitch_x) (hn : 0 < n) :
    ∃ (s : Int) (bound : Nat),
      1 ≤ s ∧
      (∀ fuel, bound < fuel → choose_stride (A.pitch_x : Int) n redge fuel = some s) ∧
      ((∃ t, 1 ≤ t ∧ StrideFits (A.pitch_x : Int) n redge t) →
        StrideFits (A.pitch_x : Int) n redge s ∧
        ∀ t, 1 ≤ t → StrideFits (A.pitch_x : Int) n redge t → t ≤ s) ∧
      ((¬ ∃ t, 1 ≤ t ∧ StrideFits (A.pitch_x : Int) n redge t) → s = 1) ∧
      ((A.pitch_x : Int) + n * (A.pitch_x : Int) ≤ redge →
        ∀ k : Nat, (k : Int) < n →
          (A.pitch_x : Int) ∣ (A.pitch_x : Int) + (k : Int) * ((A.pitch_x : Int) * s) ∧
          (A.pitch_x : Int) + (k : Int) * ((A.pitch_x : Int) * s) < redge) ∧
      (∀ (M : PinMetal) (G : PinGeom) (nl : PinNetlist) (pins : List MetalPin),
        G.s_in = s → draw_pins A M G nl = .ok pins →
        (top_pins pins).map MetalPin.x =
          (List.range (top_pins pins).length).map
            (fun (k : Nat) =>
              G.bllx + ((A.pitch_x : Int) + (k : Int) * ((A.pitch_x : Int) * s)))) := by
  have hp' : (0 : Int) < (A.pitch_x : Int) := by exact_mod_cast hp
  obtain ⟨s, bound, hs1, hfuel, hfit, hnone⟩ := choose_stride_spec (A.pitch_x : Int) n redge hp' hn
  refine ⟨s, bound, hs1, hfuel, hfit, hnone, ?_, ?_⟩
  · intro h1 k hk
    have hone : StrideFits (A.pitch_x : Int) n redge 1 := by
      unfold StrideFits
      rw [mul_one]
      exact h1
    have hs := (hfit ⟨1, le_refl _, hone⟩).1
    unfold StrideFits at hs
    refine ⟨⟨1 + (k : Int) * s, by ring⟩, ?_⟩
    have hps : 0 < (A.pitch_x : Int) * s := mul_pos hp' (by omega)
    have hle : ((k : Int) + 1) * ((A.pitch_x : Int) * s) ≤ n * ((A.pitch_x : Int) * s) :=
      mul_le_mul_of_nonneg_right (by omega) (le_of_lt hps)
    have e1 : ((k : Int) + 1) * ((A.pitch_x : Int) * s)
        = (k : Int) * ((A.pitch_x : Int) * s) + (A.pitch_x : Int) * s := by ring
    have e2 : n * s * (A.pitch_x : Int) = n * ((A.pitch_x : Int) * s) := by ring
    rw [e1] at hle
    rw [e2] at hs
    omega
  · intro M G nl pins hG hdraw
    have := draw_pins_top_offsets A M G nl pins hdraw
    rw [hG] at this
    exact this

theorem stride_is_largest_witness :
    0 < exPinAlign.pitch_x ∧ (0 : Int) < 3 ∧
    ∃ (s : Int) (bound : Nat),
      1 ≤ s ∧
      (∀ fuel, bound < fuel → choose_stride (exPinAlign.pitch_x : Int) 3 20 fuel = some s) ∧
      ((∃ t, 1 ≤ t ∧ StrideFits (exPinAlign.pitch_x : Int) 3 20 t) →
        StrideFits (exPinAlign.pitch_x : Int) 3 20 s ∧
        ∀ t, 1 ≤ t → StrideFits (exPinAlign.pitch_x : Int) 3 20 t → t ≤ s) ∧
      ((¬ ∃ t, 1 ≤ t ∧ StrideFits (exPinAlign.pitch_x : Int) 3 20 t) → s = 1) ∧
      ((exPinAlign.pitch_x : Int) + 3 * (exPinAlign.pitch_x : Int) ≤ 20 →
        ∀ k : Nat, (k : Int) < 3 →
          (exPinAlign.pitch_x : Int) ∣
            (exPinAlign.pitch_x : Int) + (k : Int) * ((exPinAlign.pitch_x : Int) * s) ∧
          (exPinAlign.pitch_x : Int) + (k : Int) * ((exPinAlign.pitch_x : Int) * s) < 20) ∧
      (∀ (M : PinMetal) (G : PinGeom) (nl : PinNetlist) (pins : List MetalPin),
        G.s_in = s → draw_pins exPinAlign M G nl = .ok pins →
        (top_pins pins).map MetalPin.x =
          (List.range (top_pins pins).length).map
            (fun (k : Nat) =>
              G.bllx + ((exPinAlign.pitch_x : Int)
                + (k : Int) * ((exPinAlign.pitch_x : Int) * s)))) :=
  ⟨by decide, by decide, stride_is_largest exPinAlign 3 20 (by decide) (by decide)⟩

/-- Three pins on an edge of length `20` with pitch `2`: the stride is `3`
(`2 + 3 * 3 * 2 = 20`); on an edge of length `5` nothing fits and the stride is
`1`. -/
theorem stride_examples :
    choose_stride 2 3 20 10 = some 3 ∧ choose_stride 2 3 5 10 = some 1 := by
  exact ⟨by rfl, by rfl⟩

/-! ## C27: the pins counted and the pins drawn -/

/-- C27. The netlist `exNetSupplies` has no ports and no globals, and its `Vdd`
and `GND` nodes both have edges.  The count finds one input pin (the test for
`GND` reads `found_vdd`, which the `Vdd` pin has just set), the edge of length
`6` fits it (`2 + 1 * 2 <= 6`) and the stride is `2`; the second pass draws two
input pins, at the offsets `2` and `6`, the second one at the end of the edge.
On `exNetWeak` the count finds one input pin and none is drawn. -/
theorem gnd_pin_not_counted :
    count_pins exNetSupplies
      = .ok { p_in := 1, p_out := 0, found_vdd := true, found_gnd := false } ∧
    snap_up_x exPinAlign (5 - 0 + 1) = 6 ∧
    (exPinAlign.pitch_x : Int) + 1 * (exPinAlign.pitch_x : Int) ≤ 6 ∧
    choose_stride (exPinAlign.pitch_x : Int) 1 6 10 = some 2 ∧
    createlocallayout_pins exPinAlign exPinMetal 10 (some exNetSupplies) 0 0 5 8
      = some (.ok [{ x := 2, y := 11, w := 1, h := 1, net := 1, dir := 0 },
                   { x := 6, y := 11, w := 1, h := 1, net := 2, dir := 0 }]) ∧
    count_pins exNetWeak
      = .ok { p_in := 1, p_out := 0, found_vdd := false, found_gnd := false } ∧
    createlocallayout_pins exPinAlign exPinMetal 10 (some exNetWeak) 0 0 5 8 = some (.ok []) :=
  ⟨by rfl, by rfl, by decide, by rfl, by rfl, by rfl, by rfl⟩

/-! ## C24 and C25: the position of the gate -/

theorem isFet_DrawDiff (fl : Nat) (t : EdgeType) (x y wx wy : Int) (net : Option node_t) :
    (Draw.DrawDiff fl t x y wx wy net).isFet = false := rfl

theorem isFet_DrawFet (fl : Nat) (t : EdgeType) (x y wx wy : Int) (net : Option node_t) :
    (Draw.DrawFet fl t x y wx wy net).isFet = true := rfl

theorem isFet_DrawPoly (x y wx wy : Int) (net : Option node_t) :
    (Draw.DrawPoly x y wx wy net).isFet = false := rfl

/-- The gate rectangle of `emit_draw` is drawn after the padding and the pre-gate
diffusion rectangles. -/
theorem emit_draw_gate_x (C : Env) (pad dx dy : Int) (flags : Nat) (left : node_t) (e : edge_t)
    (eopp : Option edge_t) (oup e_w yup : Int) (b : BBox) (fet_type rect prev_w : Int) :
    gate_xs (emit_draw C pad dx dy flags left e eopp oup e_w yup b fet_type rect prev_w).2.2 =
      [dx + pad + rect
        + (if fet_type = 0 then 0
           else if fet_type < 0 then notch_of (C.getDiff e.type e.flavor) e_w left.contact
           else (C.getDiff e.type e.flavor).effOverhang e_w false)] := by
  simp only [emit_draw, notch_of, MAX_eq_max, gate_xs]
  by_cases h0 : fet_type = 0
  · subst h0
    by_cases hy : yup < 0 <;> by_cases hr : flags &&& EDGE_FLAGS_RIGHT = 0 <;>
      cases eopp <;>
      simp [hy, hr, isFet_DrawDiff, isFet_DrawFet, isFet_DrawPoly, Draw.x,
        apply_ite Draw.isFet] <;> omega
  · by_cases h1 : fet_type = -1
    · subst h1
      by_cases hy : yup < 0 <;> by_cases hr : flags &&& EDGE_FLAGS_RIGHT = 0 <;>
        cases hc : left.contact <;> cases eopp <;>
        simp [hy, hr, hc, isFet_DrawDiff, isFet_DrawFet, isFet_DrawPoly, Draw.x,
          apply_ite Draw.isFet] <;> omega
    · by_cases hy : yup < 0 <;> by_cases hr : flags &&& EDGE_FLAGS_RIGHT = 0 <;>
        by_cases hn : fet_type < 0 <;> cases hc : left.contact <;> cases eopp <;>
        simp [hy, hr, hc, h0, h1, hn, isFet_DrawDiff, isFet_DrawFet, isFet_DrawPoly, Draw.x,
          apply_ite Draw.isFet] <;> omega

/-- The gate rectangle of a call of `emit_rectangle` that returns: at the
incoming cursor plus the padding and the two transition increments, the width
being read at the fold index `eidx`. -/
theorem emit_rectangle_gate_x (C : Env) (pad dx dy : Int) (flags : Nat) (prev : Option edge_t)
    (previdx : Int) (left : node_t) (e : edge_t) (eopp : Option edge_t) (oup eidx yup : Int)
    (ret : Option BBox) (r : EmitResult)
    (h : emit_rectangle C pad dx dy flags prev previdx left e eopp oup eidx yup ret = .ok r) :
    gate_xs r.drawn =
      [dx + pad
        + first_of (C.getDiff e.type e.flavor) (spc_of C prev e) flags
            (prev_width C prev previdx) (getwidth C eidx e) left.contact
        + second_of (C.getDiff e.type e.flavor) flags
            (prev_width C prev previdx) (getwidth C eidx e) left.contact] := by
  rcases prev_cases flags prev with hprev | ⟨hl, rfl⟩
  · rw [emit_rectangle_eq C pad dx dy flags prev previdx left e eopp oup eidx yup ret hprev] at h
    split at h
    · have h' := congrArg EmitResult.drawn (Except.ok.inj h)
      rw [← h', emit_draw_gate_x, second_of_eq]
    · cases h
  · rw [emit_rectangle_no_prev C pad dx dy flags previdx left e eopp oup eidx yup ret hl] at h
    cases h

/-- Planning and emission agree for an edge that is as wide at its fold index as
at fold `0`. -/
theorem locate_agrees_same_width (C : Env) (dx dy : Int) (flags : Nat) (prev : Option edge_t)
    (previdx : Int) (left : node_t) (e : edge_t) (eopp : Option edge_t) (oup eidx yup : Int)
    (ret : Option BBox) (r : EmitResult) (f : Int)
    (hw : getwidth C 0 e = getwidth C eidx e)
    (hl : locate_fetedge C dx flags prev previdx left e eidx = .ok f)
    (he : emit_rectangle C 0 dx dy flags prev previdx left e eopp oup eidx yup ret = .ok r) :
    gate_xs r.drawn = [f] := by
  rw [emit_rectangle_gate_x C 0 dx dy flags prev previdx left e eopp oup eidx yup ret r he]
  rcases prev_cases flags prev with hprev | ⟨hl0, rfl⟩
  · rw [locate_fetedge_eq C dx flags prev previdx left e eidx hprev, hw] at hl
    split at hl
    · have := Except.ok.inj hl
      rw [← this]
      congr 1
      omega
    · cases hl
  · rw [locate_fetedge_no_prev C dx flags previdx left e eidx hl0] at hl
    cases hl

/-- C24. Planning and emission disagree on an edge whose width at its fold index
differs from its width at fold `0`.  Under `foldEnv` the edge of total width `5`
is `3` wide at fold `0` and `2` wide at fold `1`.  On the left boundary
`locate_fetedge` returns `4` for fold `1` and `emit_rectangle` draws the gate at
`3`; after a previous edge of width `2` (same fold widths) `locate_fetedge`
plans an up-notch and returns `7`, `emit_rectangle` sees equal widths and draws
the gate at `3`. -/
theorem planning_disagrees_with_emission :
    locate_fetedge foldEnv 0 (EDGE_FLAGS_LEFT ||| EDGE_FLAGS_RIGHT) none 0 (exNode 1)
      (exEdge .EDGE_NFET 1 2 5 1) 1 = .ok 4 ∧
    (emit_rectangle foldEnv 0 0 0 (EDGE_FLAGS_LEFT ||| EDGE_FLAGS_RIGHT) none 0 (exNode 1)
      (exEdge .EDGE_NFET 1 2 5 1) none 0 1 1 none).map (fun r => gate_xs r.drawn)
      = .ok [3] ∧
    locate_fetedge foldEnv 0 0 (some (exEdge .EDGE_NFET 1 2 4 1)) 0 (exNode 2)
      (exEdge .EDGE_NFET 2 3 5 1) 1 = .ok 7 ∧
    (emit_rectangle foldEnv 0 0 0 0 (some (exEdge .EDGE_NFET 1 2 4 1)) 0 (exNode 2)
      (exEdge .EDGE_NFET 2 3 5 1) none 0 1 1 none).map (fun r => gate_xs r.drawn)
      = .ok [3] :=
  ⟨by rfl, by rfl, by rfl, by rfl⟩

/-- C25. For an edge that is not on the left boundary, a call of `emit_rectangle`
that returns draws one gate rectangle.  With a non-negative padding and a
non-negative diffusion overhang, the gate starts at least `spc` after the
incoming cursor when the transition is same-width or an up-notch.  In a
down-notch the distance is the padding plus the overhang of the narrower width
plus the notch spacing; `spc` does not enter. -/
theorem gate_distance (C : Env) (pad dx dy : Int) (flags : Nat) (prev : Option edge_t)
    (previdx : Int) (left : node_t) (e : edge_t) (eopp : Option edge_t) (oup eidx yup : Int)
    (ret : Option BBox) (r : EmitResult)
    (h : emit_rectangle C pad dx dy flags prev previdx left e eopp oup eidx yup ret = .ok r)
    (hl : flags &&& EDGE_FLAGS_LEFT = 0) (hpad : 0 ≤ pad)
    (hov : 0 ≤ (C.getDiff e.type e.flavor).effOverhang (getwidth C eidx e) false) :
    ∃ x, gate_xs r.drawn = [x] ∧
      (prev_width C prev previdx ≤ getwidth C eidx e → spc_of C prev e ≤ x - dx) ∧
      (getwidth C eidx e < prev_width C prev previdx →
        x - dx = pad + (C.getDiff e.type e.flavor).effOverhang (getwidth C eidx e) false
          + notch_of (C.getDiff e.type e.flavor) (getwidth C eidx e) left.contact) := by
  refine ⟨_, emit_rectangle_gate_x C pad dx dy flags prev previdx left e eopp oup eidx yup
    ret r h, ?_, ?_⟩
  · intro hw
    simp only [first_of, second_of, hl, ne_eq, not_true_eq_false, if_false]
    by_cases h1 : prev_width C prev previdx = getwidth C eidx e
    · simp only [h1, if_true]
      split_ifs <;> omega
    · have h2 : prev_width C prev previdx < getwidth C eidx e := by omega
      simp only [h1, h2, if_true, if_false]
      omega
  · intro hw
    have h1 : ¬ prev_width C prev previdx = getwidth C eidx e := by omega
    have h2 : ¬ prev_width C prev previdx < getwidth C eidx e := by omega
    simp only [first_of, second_of, hl, ne_eq, not_true_eq_false, if_false, h1, h2]
    omega

theorem gate_distance_witness :
    (0 : Nat) &&& EDGE_FLAGS_LEFT = 0 ∧
    0 ≤ (exEnv.getDiff .EDGE_NFET 0).effOverhang
          (getwidth exEnv 0 (exEdge .EDGE_NFET 2 3 4 1)) false ∧
    ∃ r, emit_rectangle exEnv 0 0 0 0 (some (exEdge .EDGE_NFET 1 2 2 1)) 0 (exNode 2)
        (exEdge .EDGE_NFET 2 3 4 1) none 0 0 1 none = .ok r ∧
      ∃ x, gate_xs r.drawn = [x] ∧
        (prev_width exEnv (some (exEdge .EDGE_NFET 1 2 2 1)) 0
            ≤ getwidth exEnv 0 (exEdge .EDGE_NFET 2 3 4 1) →
          spc_of exEnv (some (exEdge .EDGE_NFET 1 2 2 1)) (exEdge .EDGE_NFET 2 3 4 1) ≤ x - 0) ∧
        (getwidth exEnv 0 (exEdge .EDGE_NFET 2 3 4 1)
            < prev_width exEnv (some (exEdge .EDGE_NFET 1 2 2 1)) 0 →
          x - 0 = 0 + (exEnv.getDiff .EDGE_NFET 0).effOverhang
                (getwidth exEnv 0 (exEdge .EDGE_NFET 2 3 4 1)) false
            + notch_of (exEnv.getDiff .EDGE_NFET 0)
                (getwidth exEnv 0 (exEdge .EDGE_NFET 2 3 4 1)) (exNode 2).contact) :=
  ⟨by decide, by decide,
   ⟨_, rfl,
    gate_distance exEnv 0 0 0 0 (some (exEdge .EDGE_NFET 1 2 2 1)) 0 (exNode 2)
      (exEdge .EDGE_NFET 2 3 4 1) none 0 0 1 none _ rfl (by decide) (by decide) (by decide)⟩⟩

/-- C25, as stated, fails in a down-notch: under `spcEnv` the fet spacing is `10`,
so `spc = 10`; after an edge of width `4` the edge of width `2` gets the overhang
`3` and the notch spacing `2`, and its gate is drawn `5` after the cursor. -/
theorem down_notch_closer_than_spc :
    spc_of spcEnv (some (exEdge .EDGE_NFET 1 2 4 1)) (exEdge .EDGE_NFET 2 3 2 1) = 10 ∧
    (emit_rectangle spcEnv 0 0 0 0 (some (exEdge .EDGE_NFET 1 2 4 1)) 0 (exNode 2)
      (exEdge .EDGE_NFET 2 3 2 1) none 0 0 1 none).map (fun r => gate_xs r.drawn)
      = .ok [5] :=
  ⟨by decide, by rfl⟩

/-! ## C26: the diffusion box of a single stack -/

/-- C26. The P stack `exStackP` (one edge of width `4`): `print_singlestack` draws
diffusion over `[0, 9] x [0, 4]`, ends at the cursor `9` and records that box in
the P rectangle of the accumulator; the N rectangle stays `(0, 0, 0, 0)`, and
that is the rectangle `_createlocallayout` passes to `DrawDiffBBox` for
`EDGE_PFET`: width `0`, height `0`.  For the N stack `exStackN` the call gets
the box of the diffusion drawn, `7` wide and `2` high. -/
theorem pstack_box_is_empty :
    (print_singlestack_run exEnv exStackP).map
        (fun r => (r.xpos, r.b.n, r.b.p, bounding (diff_rects .EDGE_PFET r.drawn)))
      = .ok (9, ⟨0, 0, 0, 0⟩, ⟨0, 0, 9, 4⟩, some ⟨0, 0, 9, 4⟩) ∧
    createlocallayout_pstack exEnv exStackP
      = .ok { flavor := 0, type := .EDGE_PFET, x := 0, y := 0, wx := 0, wy := 0 } ∧
    (print_singlestack_run exEnv exStackN).map
        (fun r => (r.xpos, r.b.n, bounding (diff_rects .EDGE_NFET r.drawn)))
      = .ok (7, ⟨0, 0, 7, 2⟩, some ⟨0, 0, 7, 2⟩) ∧
    createlocallayout_nstack exEnv exStackN
      = .ok { flavor := 0, type := .EDGE_NFET, x := 0, y := 0, wx := 7, wy := 2 } :=
  ⟨by rfl, by rfl, by rfl, by rfl⟩

/-! ## C28: the well-tap rectangle -/

/-- The height of a well-tap rectangle for a positive width and a non-negative
minimum area: the larger of the width and the quotient of area and width; the
area of the rectangle may fall short of the minimum area by less than the
width. -/
theorem welltap_height_eq (d : WellDiff) (hw : 0 < d.getWidth) (ha : 0 ≤ d.minArea) :
    welltap_height d = max d.getWidth (d.minArea / d.getWidth) ∧
    d.minArea - d.getWidth < d.getWidth * welltap_height d := by
  have hdiv : Int.tdiv d.minArea d.getWidth = d.minArea / d.getWidth :=
    Int.tdiv_eq_ediv ha (le_of_lt hw)
  have h1 := Int.emod_add_ediv d.minArea d.getWidth
  have h2 := Int.emod_lt_of_pos d.minArea hw
  have h3 := Int.emod_nonneg d.minArea (ne_of_gt hw)
  have hq : 0 ≤ d.minArea / d.getWidth := Int.ediv_nonneg ha (le_of_lt hw)
  have hval : welltap_height d = max d.getWidth (d.minArea / d.getWidth) := by
    unfold welltap_height
    simp only [hdiv]
    by_cases h0 : d.minArea > 0
    · simp only [h0, if_true]
      split_ifs <;> omega
    · have hz : d.minArea = 0 := by omega
      simp only [hz, gt_iff_lt, lt_self_iff_false, if_false, Int.zero_ediv]
      split_ifs
      omega
  refine ⟨hval, ?_⟩
  rw [hval]
  have hmax : d.minArea / d.getWidth ≤ max d.getWidth (d.minArea / d.getWidth) := le_max_right _ _
  have := mul_le_mul_of_nonneg_left hmax (le_of_lt hw)
  omega

/-- C28. A well diffusion of width `3` and minimum area `10`: the well-tap
rectangle drawn by `run` is `3` wide and `max (3, 10 / 3) = 3` high, and its
area `9` is smaller than the minimum area. -/
theorem welltap_area_short :
    welltap_height { minArea := 10, getWidth := 3 } = 3 ∧
    run_welltap_nplus 0 { minArea := 10, getWidth := 3 } none 6
      = { flavor := 0, type := .EDGE_PFET, x := 0, y := 3, wx := 3, wy := 3 } ∧
    run_welltap_pplus 0 { minArea := 10, getWidth := 3 } none 6
      = { flavor := 0, type := .EDGE_NFET, x := 0, y := -6, wx := 3, wy := 3 } ∧
    (3 : Int) * welltap_height { minArea := 10, getWidth := 3 } < 10 :=
  ⟨by decide, by decide, by decide, by decide⟩

/-! ## C30: the VIA rectangles -/

/-- C30. The via `exViaWide` is not asymmetric.  On the lower layer its rectangle
is the square of half-side `(4 + 2 * 1) * 1 / 2 = 3`.  On the upper layer `w` is
`3` as well, but `w2` is set to the constant `2`, and the pass stops with the
fatal error for an asymmetric overhang.  For `exViaSmall` the upper rectangle
has the half-extents `1/2` and `2`: it is not a square. -/
theorem via_upper_not_square :
    via_lower exViaWide 1 = .ok (3, 3) ∧
    via_upper exViaWide 1 = .error .fatalError ∧
    via_lower exViaSmall 1 = .ok (1 / 2, 1 / 2) ∧
    via_upper exViaSmall 1 = .ok (1 / 2, 2) := by
  refine ⟨?_, ?_, ?_, ?_⟩ <;>
    norm_num [via_lower, via_upper, exViaWide, exViaSmall]

/-! ## C29: the calls without a previous edge -/

theorem emit_rectangle_not_assertPrev (C : Env) (pad dx dy : Int) (flags : Nat)
    (prev : Option edge_t) (previdx : Int) (left : node_t) (e : edge_t) (eopp : Option edge_t)
    (oup eidx yup : Int) (ret : Option BBox)
    (hprev : flags &&& EDGE_FLAGS_LEFT ≠ 0 ∨ prev.isSome = true) :
    emit_rectangle C pad dx dy flags prev previdx left e eopp oup eidx yup ret
      ≠ .error .assertPrev := by
  rw [emit_rectangle_eq C pad dx dy flags prev previdx left e eopp oup eidx yup ret hprev]
  split
  · intro h; cases h
  · intro h; cases h

theorem locate_fetedge_not_assertPrev (C : Env) (dx : Int) (flags : Nat)
    (prev : Option edge_t) (previdx : Int) (left : node_t) (e : edge_t) (eidx : Int)
    (hprev : flags &&& EDGE_FLAGS_LEFT ≠ 0 ∨ prev.isSome = true) :
    locate_fetedge C dx flags prev previdx left e eidx ≠ .error .assertPrev := by
  rw [locate_fetedge_eq C dx flags prev previdx left e eidx hprev]
  split
  · intro h; cases h
  · intro h; cases h

theorem flags_first_left (c : Prop) [Decidable c] :
    ((if true = true then EDGE_FLAGS_LEFT else 0) ||| (if c then EDGE_FLAGS_RIGHT else 0))
      &&& EDGE_FLAGS_LEFT ≠ 0 := by
  by_cases h : c <;> simp [h, EDGE_FLAGS_LEFT, EDGE_FLAGS_RIGHT]

/-- The loop of `print_singlestack` never fails `Assert (prev)`: the first call
has the left flag, the later ones have a previous edge. -/
theorem singlestack_loop_not_assertPrev (C : Env) :
    ∀ (k : Nat) (l : List StkItem) (first : Bool) (prev : Option edge_t) (previdx xpos : Int)
      (b : BBox) (drawn : List Draw),
      l.length ≤ k → (first = true ∨ prev.isSome = true) →
      singlestack_loop C first prev previdx xpos b drawn l ≠ .error .assertPrev := by
  intro k
  induction k with
  | zero =>
    intro l first prev previdx xpos b drawn hl _
    have : l = [] := List.length_eq_zero.mp (by omega)
    subst this
    intro h
    simp [singlestack_loop] at h
  | succ k ih =>
    intro l first prev previdx xpos b drawn hl hfp
    match l with
    | [] => intro h; simp [singlestack_loop] at h
    | [_] => intro h; simp [singlestack_loop] at h
    | [_, _] => intro h; simp [singlestack_loop] at h
    | [_, _, _] => intro h; simp [singlestack_loop] at h
    | a :: b1 :: c :: m :: rest =>
      cases a <;> cases b1 <;> cases c <;>
        first
        | (intro h; simp [singlestack_loop] at h; done)
        | skip
      rename_i n e idx
      simp only [singlestack_loop]
      have hprev : ((if first = true then EDGE_FLAGS_LEFT else 0) |||
          (if rest.isEmpty = true then EDGE_FLAGS_RIGHT else 0)) &&& EDGE_FLAGS_LEFT ≠ 0
          ∨ prev.isSome = true := by
        rcases hfp with hf | hp
        · subst hf
          exact Or.inl (flags_first_left _)
        · exact Or.inr hp
      have hne := emit_rectangle_not_assertPrev C 0 xpos 0 _ prev previdx n e none 0 idx 1
        (some b) hprev
      split
      · rename_i err herr
        intro h
        cases h
        exact hne herr
      · rename_i r hr
        exact ih (m :: rest) false (some e) idx r.dx _ _
          (by simp only [List.length_cons] at hl ⊢; omega) (Or.inr rfl)

theorem stack_of_head (m : node_t) (rest : List (edge_t × Int × node_t)) :
    ∃ tl, stack_of m rest = .node m :: tl ∧ (tl.isEmpty = true ↔ rest = []) := by
  cases rest with
  | nil => exact ⟨[], rfl, by simp⟩
  | cons t rest1 =>
    obtain ⟨e, i, m1⟩ := t
    exact ⟨.edge e :: .idx i :: stack_of m1 rest1, rfl, by simp⟩

theorem single_flags_bits (first : Bool) (c : Prop) [Decidable c] :
    ((((if first = true then EDGE_FLAGS_LEFT else 0) ||| (if c then EDGE_FLAGS_RIGHT else 0))
        &&& EDGE_FLAGS_LEFT ≠ 0) ↔ first = true) ∧
    ((((if first = true then EDGE_FLAGS_LEFT else 0) ||| (if c then EDGE_FLAGS_RIGHT else 0))
        &&& EDGE_FLAGS_RIGHT ≠ 0) ↔ c) := by
  cases first <;> by_cases h : c <;> simp [h, EDGE_FLAGS_LEFT, EDGE_FLAGS_RIGHT]

/-- The calls of the loop of `print_singlestack` on a well-formed stack list: one
per edge; the left flag is set on call `0` when `first` holds and on no other
call; the right flag is set on the last call only; a call without the left flag
has a previous edge when the loop is entered with `first` or with one. -/
theorem singlestack_calls_flags (C : Env) :
    ∀ (es : List (edge_t × Int × node_t)) (n0 : node_t) (first : Bool) (prev : Option edge_t)
      (previdx xpos : Int) (b : BBox) (log : List (Nat × Option edge_t)),
      singlestack_calls C first prev previdx xpos b (stack_of n0 es) = .ok log →
      log.length = es.length ∧
      ∀ (j : Nat) (f : Nat) (p : Option edge_t), log[j]? = some (f, p) →
        (f &&& EDGE_FLAGS_LEFT ≠ 0 ↔ (first = true ∧ j = 0)) ∧
        (f &&& EDGE_FLAGS_RIGHT ≠ 0 ↔ j + 1 = es.length) ∧
        ((first = true ∨ prev.isSome = true) →
          (f &&& EDGE_FLAGS_LEFT ≠ 0 ∨ p.isSome = true)) := by
  intro es
  induction es with
  | nil =>
    intro n0 first prev previdx xpos b log h
    simp only [stack_of, singlestack_calls] at h
    cases h
    refine ⟨rfl, ?_⟩
    intro j f p hj
    simp at hj
  | cons t rest ih =>
    obtain ⟨e, i, m⟩ := t
    intro n0 first prev previdx xpos b log h
    obtain ⟨tl, htl, hempty⟩ := stack_of_head m rest
    simp only [stack_of, htl, singlestack_calls] at h
    split at h
    · cases h
    rename_i r hr
    split at h
    · cases h
    rename_i log1 hlog1
    cases h
    rw [← htl] at hlog1
    obtain ⟨hlen, hrest⟩ := ih m false (some e) i r.dx _ log1 hlog1
    refine ⟨by simp [hlen], ?_⟩
    intro j f p hj
    obtain ⟨hb1, hb2⟩ := single_flags_bits first (tl.isEmpty = true)
    cases j with
    | zero =>
      simp only [List.getElem?_cons_zero, Option.some.injEq, Prod.mk.injEq] at hj
      obtain ⟨hf, hp⟩ := hj
      subst hf
      subst hp
      refine ⟨?_, ?_, ?_⟩
      · rw [hb1]
        simp
      · rw [hb2, hempty]
        simp only [List.length_cons]
        constructor
        · intro h0; subst h0; rfl
        · intro h0
          have : rest.length = 0 := by omega
          exact List.length_eq_zero.mp this
      · intro hfp
        rcases hfp with hf | hp
        · exact Or.inl (hb1.mpr hf)
        · exact Or.inr hp
    | succ j =>
      simp only [List.getElem?_cons_succ] at hj
      obtain ⟨h1, h2, h3⟩ := hrest j f p hj
      refine ⟨?_, ?_, ?_⟩
      · rw [h1]
        simp
      · rw [h2]
        simp only [List.length_cons]
        omega
      · intro _
        exact h3 (Or.inr rfl)

/-- The log of calls exists whenever the loop itself returns. -/
theorem singlestack_calls_total (C : Env) :
    ∀ (es : List (edge_t × Int × node_t)) (n0 : node_t) (first : Bool) (prev : Option edge_t)
      (previdx xpos : Int) (b : BBox) (drawn : List Draw) (res : StackResult),
      singlestack_loop C first prev previdx xpos b drawn (stack_of n0 es) = .ok res →
      ∃ log, singlestack_calls C first prev previdx xpos b (stack_of n0 es) = .ok log := by
  intro es
  induction es with
  | nil =>
    intro n0 first prev previdx xpos b drawn res _
    exact ⟨[], rfl⟩
  | cons t rest ih =>
    obtain ⟨e, i, m⟩ := t
    intro n0 first prev previdx xpos b drawn res h
    obtain ⟨tl, htl, _⟩ := stack_of_head m rest
    simp only [stack_of, htl, singlestack_loop] at h
    split at h
    · cases h
    rename_i r hr
    rw [← htl] at h
    obtain ⟨log1, hlog1⟩ := ih m false (some e) i r.dx _ _ res h
    refine ⟨(((if first = true then EDGE_FLAGS_LEFT else 0) |||
        (if tl.isEmpty = true then EDGE_FLAGS_RIGHT else 0)), prev) :: log1, ?_⟩
    simp only [stack_of, htl, singlestack_calls, hr]
    rw [← htl, hlog1]

theorem advance_left_not_assertPrev (hasEdge : Bool) (left gp_l : Option node_t)
    (prev : Option edge_t) :
    advance_left hasEdge left gp_l prev ≠ .error .assertPrev := by
  unfold advance_left
  intro h
  split at h
  · split at h
    · cases h
    · split at h
      · cases h
      · split at h
        · cases h
        · split at h
          · cases h
          · cases h
  · cases h

theorem locate_fetedge_at_not_assertPrev (C : Env) (dx : Int) (flags : Nat)
    (prev : Option edge_t) (previdx : Int) (left : Option node_t) (e : edge_t) (eidx : Int)
    (hprev : flags &&& EDGE_FLAGS_LEFT ≠ 0 ∨ prev.isSome = true) :
    locate_fetedge_at C dx flags prev previdx left e eidx ≠ .error .assertPrev := by
  cases left with
  | none => intro h; cases h
  | some ln => exact locate_fetedge_not_assertPrev C dx flags prev previdx ln e eidx hprev

theorem emit_rectangle_at_not_assertPrev (C : Env) (pad dx dy : Int) (flags : Nat)
    (prev : Option edge_t) (previdx : Int) (left : Option node_t) (e : edge_t)
    (eopp : Option edge_t) (oup eidx yup : Int) (ret : Option BBox)
    (hprev : flags &&& EDGE_FLAGS_LEFT ≠ 0 ∨ prev.isSome = true) :
    emit_rectangle_at C pad dx dy flags prev previdx left e eopp oup eidx yup ret
      ≠ .error .assertPrev := by
  cases left with
  | none => intro h; cases h
  | some ln =>
    exact emit_rectangle_not_assertPrev C pad dx dy flags prev previdx ln e eopp oup eidx yup
      ret hprev

/-- One iteration of the loop from line 744 on, each row that has an edge having
the left flag or a previous edge: `Assert (prev)` does not fail, and afterwards a
row that had an edge has a previous edge, the other row keeps its own. -/
theorem dualstack_emit_prev (C : Env) (gp_l_n gp_l_p : Option node_t) (yn yp : Int)
    (s : DualState) (en ep : Option edge_t) (n_start p_start : Int)
    (flagsn flagsp : Nat) (firstn firstp : Bool)
    (hn : en.isSome = true → (flagsn &&& EDGE_FLAGS_LEFT ≠ 0 ∨ s.prevn.isSome = true))
    (hp : ep.isSome = true → (flagsp &&& EDGE_FLAGS_LEFT ≠ 0 ∨ s.prevp.isSome = true)) :
    ∀ res, dualstack_emit C gp_l_n gp_l_p yn yp s en ep n_start p_start flagsn flagsp
        firstn firstp = res →
      res ≠ .error .assertPrev ∧
      ∀ s1, res = .ok s1 →
        (en.isSome = true → s1.prevn.isSome = true) ∧ (en = none → s1.prevn = s.prevn) ∧
        (ep.isSome = true → s1.prevp.isSome = true) ∧ (ep = none → s1.prevp = s.prevp) := by
  intro res h
  have ha1 := advance_left_not_assertPrev en.isSome s.leftn gp_l_n s.prevn
  have ha2 := advance_left_not_assertPrev ep.isSome s.leftp gp_l_p s.prevp
  cases en with
  | none =>
    cases ep with
    | none =>
      simp only [dualstack_emit] at h
      split at h
      · rename_i err herr
        subst h
        exact ⟨fun hc => by cases hc; exact ha1 herr, fun s1 hs => by cases hs⟩
      split at h
      · rename_i err herr
        subst h
        exact ⟨fun hc => by cases hc; exact ha2 herr, fun s1 hs => by cases hs⟩
      subst h
      refine ⟨fun hc => (by cases hc), ?_⟩
      intro s1 hs
      cases hs
      simp
    | some p =>
      have hp' := hp rfl
      simp only [dualstack_emit] at h
      split at h
      · rename_i err herr
        subst h
        exact ⟨fun hc => by cases hc; exact ha1 herr, fun s1 hs => by cases hs⟩
      split at h
      · rename_i err herr
        subst h
        exact ⟨fun hc => by cases hc; exact ha2 herr, fun s1 hs => by cases hs⟩
      rename_i leftn _ _ leftp _
      split at h
      · rename_i err herr
        subst h
        exact ⟨fun hc => by
          cases hc
          exact emit_rectangle_at_not_assertPrev C _ _ _ flagsp s.prevp _ _ p _ _ _ _ _ hp' herr,
          fun s1 hs => by cases hs⟩
      subst h
      refine ⟨fun hc => (by cases hc), ?_⟩
      intro s1 hs
      cases hs
      simp
  | some n =>
    have hn' := hn rfl
    cases ep with
    | none =>
      simp only [dualstack_emit] at h
      split at h
      · rename_i err herr
        subst h
        exact ⟨fun hc => by cases hc; exact ha1 herr, fun s1 hs => by cases hs⟩
      split at h
      · rename_i err herr
        subst h
        exact ⟨fun hc => by cases hc; exact ha2 herr, fun s1 hs => by cases hs⟩
      split at h
      · rename_i err herr
        subst h
        refine ⟨fun hc => ?_, fun s1 hs => by cases hs⟩
        cases hc
        split at herr
        · rename_i err1 herr1
          cases herr
          exact emit_rectangle_at_not_assertPrev C _ _ _ flagsn s.prevn _ _ n _ _ _ _ _ hn'
            herr1
        · cases herr
      rename_i s2 hs2
      subst h
      split at hs2
      · cases hs2
      cases hs2
      refine ⟨fun hc => (by cases hc), ?_⟩
      intro s1 hs
      cases hs
      simp
    | some p =>
      have hp' := hp rfl
      simp only [dualstack_emit] at h
      split at h
      · rename_i err herr
        subst h
        exact ⟨fun hc => by cases hc; exact ha1 herr, fun s1 hs => by cases hs⟩
      split at h
      · rename_i err herr
        subst h
        exact ⟨fun hc => by cases hc; exact ha2 herr, fun s1 hs => by cases hs⟩
      split at h
      · rename_i err herr
        subst h
        refine ⟨fun hc => ?_, fun s1 hs => by cases hs⟩
        cases hc
        split at herr
        · rename_i err1 herr1
          cases herr
          exact locate_fetedge_at_not_assertPrev C _ flagsn s.prevn _ _ n _ hn' herr1
        · split at herr
          · rename_i err1 herr1
            cases herr
            exact locate_fetedge_at_not_assertPrev C _ flagsp s.prevp _ _ p _ hp' herr1
          · cases herr
      split at h
      · rename_i err herr
        subst h
        refine ⟨fun hc => ?_, fun s1 hs => by cases hs⟩
        cases hc
        split at herr
        · rename_i err1 herr1
          cases herr
          exact emit_rectangle_at_not_assertPrev C _ _ _ flagsn s.prevn _ _ n _ _ _ _ _ hn'
            herr1
        · cases herr
      rename_i s2 hs2
      split at hs2
      · cases hs2
      cases hs2
      split at h
      · rename_i err herr
        subst h
        refine ⟨fun hc => ?_, fun s1 hs => by cases hs⟩
        cases hc
        exact emit_rectangle_at_not_assertPrev C _ _ _ flagsp s.prevp _ _ p _ _ _ _ _ hp' herr
      subst h
      refine ⟨fun hc => (by cases hc), ?_⟩
      intro s1 hs
      cases hs
      simp

theorem dualstack_step_prev (C : Env) (gp_l_n gp_l_p : Option node_t) (yn yp : Int)
    (s : DualState) (tmp : gate_pairs) (next : Option gate_pairs) (hs : PrevKnown s) :
    dualstack_step C gp_l_n gp_l_p yn yp s tmp next ≠ .error .assertPrev ∧
    ∀ s1, dualstack_step C gp_l_n gp_l_p yn yp s tmp next = .ok s1 → PrevKnown s1 := by
  cases tmp with
  | composite _ _ _ =>
    exact ⟨fun h => (by cases h), fun s1 h => (by cases h)⟩
  | basepair en ep l_n l_p n_start p_start =>
    rw [dualstack_step_split]
    have hn : en.isSome = true →
        (boundary_flags s.firstn en (next.map gate_pairs.e_n) &&& EDGE_FLAGS_LEFT ≠ 0
          ∨ s.prevn.isSome = true) := by
      intro he
      cases en with
      | none => cases he
      | some n =>
        cases hf : s.firstn with
        | true => exact Or.inl ((boundary_flags_left true n _).mpr rfl)
        | false => exact Or.inr (hs.1 hf)
    have hp : ep.isSome = true →
        (boundary_flags s.firstp ep (next.map gate_pairs.e_p) &&& EDGE_FLAGS_LEFT ≠ 0
          ∨ s.prevp.isSome = true) := by
      intro he
      cases ep with
      | none => cases he
      | some p =>
        cases hf : s.firstp with
        | true => exact Or.inl ((boundary_flags_left true p _).mpr rfl)
        | false => exact Or.inr (hs.2 hf)
    obtain ⟨h1, h2⟩ := dualstack_emit_prev C gp_l_n gp_l_p yn yp s en ep n_start p_start _ _
      (first_after s.firstn en) (first_after s.firstp ep) hn hp _ rfl
    refine ⟨h1, ?_⟩
    intro s1 hs1
    obtain ⟨a1, a2, a3, a4⟩ := h2 s1 hs1
    obtain ⟨f1, f2⟩ := dualstack_emit_first C gp_l_n gp_l_p yn yp s s1 en ep n_start p_start
      _ _ _ _ hs1
    refine ⟨?_, ?_⟩
    · intro hf
      cases en with
      | none =>
        rw [a2 rfl]
        apply hs.1
        rw [f1] at hf
        simpa [first_after] using hf
      | some n => exact a1 rfl
    · intro hf
      cases ep with
      | none =>
        rw [a4 rfl]
        apply hs.2
        rw [f2] at hf
        simpa [first_after] using hf
      | some p => exact a3 rfl

theorem dualstack_loop_not_assertPrev (C : Env) (gp_l_n gp_l_p : Option node_t) (yn yp : Int) :
    ∀ (l : List gate_pairs) (s : DualState), PrevKnown s →
      dualstack_loop C gp_l_n gp_l_p yn yp s l ≠ .error .assertPrev := by
  intro l
  induction l with
  | nil =>
    intro s _ h
    cases h
  | cons tmp rest ih =>
    intro s hs
    obtain ⟨h1, h2⟩ := dualstack_step_prev C gp_l_n gp_l_p yn yp s tmp rest.head? hs
    simp only [dualstack_loop]
    split
    · rename_i err herr
      intro h
      cases h
      exact h1 herr
    · rename_i s1 hs1
      exact ih s1 (h2 s1 hs1)

theorem dualInit_prevKnown : PrevKnown dualInit :=
  ⟨fun h => (by cases h), fun h => (by cases h)⟩

/-- C29. `Assert (prev)` is unreachable.  `print_singlestack` never stops on it,
whatever the list; `print_dualstack` never stops on it on a composite, in
`emit_rectangle` and in `locate_fetedge` alike.  On a stack list of `3 k + 1`
cells (`k >= 1` edges) on which `print_singlestack` returns, `emit_rectangle` is
called exactly `k` times, with the left flag on the first call only, with the
right flag on the last call only, and with a previous edge on every call
without the left flag. -/
theorem assert_prev_unreachable (C : Env) :
    (∀ l : List StkItem, print_singlestack_run C l ≠ .error .assertPrev) ∧
    (∀ (l : List gate_pairs) (l_n l_p : Option node_t) (diffspace : Int),
      print_dualstack_run C (.composite l l_n l_p) diffspace ≠ .error .assertPrev) ∧
    (∀ (n0 : node_t) (es : List (edge_t × Int × node_t)), es ≠ [] →
      (print_singlestack_run C (stack_of n0 es)).isOk = true →
      ∃ log, singlestack_calls C true none 0 0 zeroBBox (stack_of n0 es) = .ok log ∧
        log.length = es.length ∧
        ∀ (j : Nat) (f : Nat) (p : Option edge_t), log[j]? = some (f, p) →
          (f &&& EDGE_FLAGS_LEFT ≠ 0 ↔ j = 0) ∧
          (f &&& EDGE_FLAGS_RIGHT ≠ 0 ↔ j + 1 = es.length) ∧
          (f &&& EDGE_FLAGS_LEFT ≠ 0 ∨ p.isSome = true)) := by
  refine ⟨?_, ?_, ?_⟩
  · intro l
    unfold print_singlestack_run
    split
    · intro h; cases h
    · exact singlestack_loop_not_assertPrev C l.length l true none 0 0 zeroBBox []
        (le_refl _) (Or.inl rfl)
  · intro l l_n l_p diffspace
    simp only [print_dualstack_run]
    cases l with
    | nil => intro h; cases h
    | cons tmp rest =>
      simp only
      split
      · intro h; cases h
      · have hne := dualstack_loop_not_assertPrev C l_n l_p
          (Int.tdiv diffspace 2 - diffspace) (Int.tdiv diffspace 2) (tmp :: rest) dualInit
          dualInit_prevKnown
        split
        · rename_i err herr
          intro h
          cases h
          exact hne herr
        · intro h; cases h
  · intro n0 es hes hok
    have hlen : ¬ (stack_of n0 es).length < 4 := by
      cases es with
      | nil => exact absurd rfl hes
      | cons t rest =>
        obtain ⟨e, i, m⟩ := t
        obtain ⟨tl, htl, _⟩ := stack_of_head m rest
        simp only [stack_of, htl, List.length_cons]
        omega
    unfold print_singlestack_run at hok
    rw [if_neg hlen] at hok
    cases hrun : singlestack_loop C true none 0 0 zeroBBox [] (stack_of n0 es) with
    | error err =>
      rw [hrun] at hok
      simp [Except.isOk, Except.toBool] at hok
    | ok res =>
      obtain ⟨log, hlog⟩ := singlestack_calls_total C es n0 true none 0 0 zeroBBox [] res hrun
      obtain ⟨h1, h2⟩ := singlestack_calls_flags C es n0 true none 0 0 zeroBBox log hlog
      refine ⟨log, hlog, h1, ?_⟩
      intro j f p hj
      obtain ⟨a, b, c⟩ := h2 j f p hj
      refine ⟨?_, b, c (Or.inl rfl)⟩
      rw [a]
      simp

theorem assert_prev_unreachable_witness :
    exEdges242 ≠ [] ∧
    (print_singlestack_run exEnv (stack_of (exNode 1) exEdges242)).isOk = true ∧
    ∃ log, singlestack_calls exEnv true none 0 0 zeroBBox (stack_of (exNode 1) exEdges242)
        = .ok log ∧
      log.length = exEdges242.length ∧
      ∀ (j : Nat) (f : Nat) (p : Option edge_t), log[j]? = some (f, p) →
        (f &&& EDGE_FLAGS_LEFT ≠ 0 ↔ j = 0) ∧
        (f &&& EDGE_FLAGS_RIGHT ≠ 0 ↔ j + 1 = exEdges242.length) ∧
        (f &&& EDGE_FLAGS_LEFT ≠ 0 ∨ p.isSome = true) :=
  ⟨by simp [exEdges242], by rfl,
   (assert_prev_unreachable exEnv).2.2 (exNode 1) exEdges242 (by simp [exEdges242]) (by rfl)⟩

/-! ## C9: the end of the two rows -/

theorem gate_xs_append (l1 l2 : List Draw) : gate_xs (l1 ++ l2) = gate_xs l1 ++ gate_xs l2 := by
  simp [gate_xs]

/-- For an edge that is as wide at its fold index as at fold `0`, the gate is
drawn at the planned position moved by the padding. -/
theorem gate_after_locate (C : Env) (pad dx dy : Int) (flags : Nat) (prev : Option edge_t)
    (previdx : Int) (left : node_t) (e : edge_t) (eopp : Option edge_t) (oup eidx yup : Int)
    (ret : Option BBox) (r : EmitResult) (f : Int)
    (he : emit_rectangle C pad dx dy flags prev previdx left e eopp oup eidx yup ret = .ok r)
    (hl : locate_fetedge C dx flags prev previdx left e eidx = .ok f)
    (hw : getwidth C 0 e = getwidth C eidx e) :
    gate_xs r.drawn = [f + pad] := by
  rw [emit_rectangle_gate_x C pad dx dy flags prev previdx left e eopp oup eidx yup ret r he]
  rcases prev_cases flags prev with hprev | ⟨hl0, rfl⟩
  · rw [locate_fetedge_eq C dx flags prev previdx left e eidx hprev, hw] at hl
    split at hl
    · have := Except.ok.inj hl
      rw [← this]
      congr 1
      omega
    · cases hl
  · rw [locate_fetedge_no_prev C dx flags previdx left e eidx hl0] at hl
    cases hl

/-- The row variables after one iteration of the loop from line 744 on: the left
node is the one `advance_left` gives, the previous edge is the row's edge of the
base pair when there is one. -/
theorem dualstack_emit_row (C : Env) (gp_l_n gp_l_p : Option node_t) (yn yp : Int)
    (s s1 : DualState) (en ep : Option edge_t) (n_start p_start : Int)
    (flagsn flagsp : Nat) (firstn firstp : Bool)
    (h : dualstack_emit C gp_l_n gp_l_p yn yp s en ep n_start p_start flagsn flagsp
      firstn firstp = .ok s1) :
    advance_left en.isSome s.leftn gp_l_n s.prevn = .ok s1.leftn ∧
    s1.prevn = (if en.isSome = true then en else s.prevn) ∧
    advance_left ep.isSome s.leftp gp_l_p s.prevp = .ok s1.leftp ∧
    s1.prevp = (if ep.isSome = true then ep else s.prevp) := by
  cases en with
  | none =>
    cases ep with
    | none =>
      simp only [dualstack_emit] at h
      split at h
      · cases h
      rename_i ln hln
      split at h
      · cases h
      rename_i lp hlp
      cases h
      exact ⟨hln, rfl, hlp, rfl⟩
    | some p =>
      simp only [dualstack_emit] at h
      split at h
      · cases h
      rename_i ln hln
      split at h
      · cases h
      rename_i lp hlp
      split at h
      · cases h
      cases h
      exact ⟨hln, rfl, hlp, rfl⟩
  | some n =>
    cases ep with
    | none =>
      simp only [dualstack_emit] at h
      split at h
      · cases h
      rename_i ln hln
      split at h
      · cases h
      rename_i lp hlp
      split at h
      · cases h
      rename_i s2 hs2
      cases h
      split at hs2
      · cases hs2
      cases hs2
      exact ⟨hln, rfl, hlp, rfl⟩
    | some p =>
      simp only [dualstack_emit] at h
      split at h
      · cases h
      rename_i ln hln
      split at h
      · cases h
      rename_i lp hlp
      split at h
      · cases h
      split at h
      · cases h
      rename_i s2 hs2
      split at hs2
      · cases hs2
      cases hs2
      split at h
      · cases h
      cases h
      exact ⟨hln, rfl, hlp, rfl⟩

theorem dualstack_step_row (C : Env) (gp_l_n gp_l_p : Option node_t) (yn yp : Int)
    (s s1 : DualState) (tmp : gate_pairs) (next : Option gate_pairs)
    (h : dualstack_step C gp_l_n gp_l_p yn yp s tmp next = .ok s1) :
    advance_left tmp.e_n.isSome s.leftn gp_l_n s.prevn = .ok s1.leftn ∧
    s1.prevn = (if tmp.e_n.isSome = true then tmp.e_n else s.prevn) ∧
    advance_left tmp.e_p.isSome s.leftp gp_l_p s.prevp = .ok s1.leftp ∧
    s1.prevp = (if tmp.e_p.isSome = true then tmp.e_p else s.prevp) := by
  cases tmp with
  | composite _ _ _ => cases h
  | basepair en ep l_n l_p n_start p_start =>
    rw [dualstack_step_split] at h
    exact dualstack_emit_row C gp_l_n gp_l_p yn yp s s1 en ep n_start p_start _ _ _ _ h

/-- A run of the loop over a non-empty list ends with the step on its last cell,
each row having there the left node given by `row_left_at_last`. -/
theorem dualstack_loop_last_left (C : Env) (gp_l_n gp_l_p : Option node_t) (yn yp : Int) :
    ∀ (l : List gate_pairs) (s s1 : DualState) (tmp : gate_pairs),
      dualstack_loop C gp_l_n gp_l_p yn yp s l = .ok s1 →
      l.getLast? = some tmp →
      ∃ s0, dualstack_step C gp_l_n gp_l_p yn yp s0 tmp none = .ok s1 ∧
        advance_left tmp.e_n.isSome s0.leftn gp_l_n s0.prevn
          = row_left_at_last gp_l_n s.leftn s.prevn (l.map gate_pairs.e_n) ∧
        advance_left tmp.e_p.isSome s0.leftp gp_l_p s0.prevp
          = row_left_at_last gp_l_p s.leftp s.prevp (l.map gate_pairs.e_p) := by
  intro l
  induction l with
  | nil =>
    intro s s1 tmp _ hlast
    exact absurd hlast (by simp)
  | cons a rest ih =>
    intro s s1 tmp h hlast
    simp only [dualstack_loop] at h
    split at h
    · cases h
    rename_i s2 hstep
    cases rest with
    | nil =>
      simp only [List.getLast?_singleton, Option.some.injEq] at hlast
      subst hlast
      simp only [dualstack_loop, Except.ok.injEq] at h
      subst h
      exact ⟨s, hstep, rfl, rfl⟩
    | cons b rest2 =>
      rw [List.getLast?_cons_cons] at hlast
      obtain ⟨s0, hs0, hn, hp⟩ := ih s2 s1 tmp h hlast
      obtain ⟨r1, r2, r3, r4⟩ := dualstack_step_row C gp_l_n gp_l_p yn yp s s2 a _ hstep
      refine ⟨s0, hs0, ?_, ?_⟩
      · rw [hn]
        simp only [List.map_cons, row_left_at_last, r1, r2]
      · rw [hp]
        simp only [List.map_cons, row_left_at_last, r3, r4]

/-- What `print_dualstack` returns for a composite is what the step on its last
base pair leaves, the rows having there the left nodes `last_left_n` and
`last_left_p`. -/
theorem dualstack_run_last_left (C : Env) (l : List gate_pairs) (l_n l_p : Option node_t)
    (diffspace : Int) (r : DualResult) (tmp : gate_pairs)
    (hr : print_dualstack_run C (.composite l l_n l_p) diffspace = .ok r)
    (hlast : l.getLast? = some tmp) :
    ∃ s0 s1, dualstack_step C l_n l_p (Int.tdiv diffspace 2 - diffspace) (Int.tdiv diffspace 2)
        s0 tmp none = .ok s1 ∧
      r.xpos = s1.xpos ∧ r.xpos_p = s1.xpos_p ∧ r.drawn = s1.drawn ∧
      advance_left tmp.e_n.isSome s0.leftn l_n s0.prevn = last_left_n (.composite l l_n l_p) ∧
      advance_left tmp.e_p.isSome s0.leftp l_p s0.prevp = last_left_p (.composite l l_n l_p) := by
  simp only [print_dualstack_run] at hr
  split at hr
  · cases hr
  split at hr
  · cases hr
  split at hr
  · cases hr
  rename_i s1 hloop
  obtain ⟨s0, hs0, hn, hp⟩ := dualstack_loop_last_left C l_n l_p _ _ _ _ _ tmp hloop hlast
  cases hr
  exact ⟨s0, s1, hs0, rfl, rfl, rfl, hn, hp⟩

/-- A base pair with both edges at the end of the list, each edge as wide at its
fold index as at fold `0`: both gates are drawn at the same `x`, the larger of
the two planned positions, and each row ends at that `x` plus its gate length
plus its closing overhang. -/
theorem dualstack_step_both_ends (C : Env) (gp_l_n gp_l_p : Option node_t) (yn yp : Int)
    (s s1 : DualState) (n p : edge_t) (l_n l_p : Option node_t) (n_start p_start : Int)
    (h : dualstack_step C gp_l_n gp_l_p yn yp s
      (.basepair (some n) (some p) l_n l_p n_start p_start) none = .ok s1)
    (hwn : getwidth C 0 n = getwidth C n_start n)
    (hwp : getwidth C 0 p = getwidth C p_start p) :
    ∃ (ln lp : node_t) (g : Int),
      advance_left true s.leftn gp_l_n s.prevn = .ok (some ln) ∧
      advance_left true s.leftp gp_l_p s.prevp = .ok (some lp) ∧
      gate_xs s1.drawn = gate_xs s.drawn ++ [g, g] ∧
      s1.xpos = g + getlength C n + closing_overhang C n n_start ln ∧
      s1.xpos_p = g + getlength C p + closing_overhang C p p_start lp := by
  simp only [dualstack_step] at h
  split at h
  · cases h
  rename_i leftn hleftn
  split at h
  · cases h
  rename_i leftp hleftp
  split at h
  · cases h
  rename_i padn padp hpads
  split at h
  · cases h
  rename_i sN hN
  split at h
  · cases h
  rename_i rp hrp
  split at hpads
  · cases hpads
  rename_i fposn hfn
  split at hpads
  · cases hpads
  rename_i fposp hfp
  have hpad := Except.ok.inj hpads
  split at hN
  · cases hN
  rename_i rn hrn
  have hsN := Except.ok.inj hN
  subst hsN
  have hs1 := Except.ok.inj h
  subst hs1
  simp only [Option.isNone_some, Bool.false_eq_true, if_false] at hrp ⊢
  obtain ⟨ln, hln, hfn'⟩ := locate_fetedge_at_ok _ _ _ _ _ _ _ _ _ hfn
  obtain ⟨lp, hlp, hfp'⟩ := locate_fetedge_at_ok _ _ _ _ _ _ _ _ _ hfp
  subst hln
  subst hlp
  obtain ⟨ln', hln', hrn'⟩ := emit_rectangle_at_ok _ _ _ _ _ _ _ _ _ _ _ _ _ _ _ hrn
  obtain ⟨lp', hlp', hrp'⟩ := emit_rectangle_at_ok _ _ _ _ _ _ _ _ _ _ _ _ _ _ _ hrp
  cases hln'
  cases hlp'
  have en := emit_after_locate _ _ _ _ _ _ _ _ _ _ _ _ _ _ _ _ hrn' hfn' hwn
  have ep := emit_after_locate _ _ _ _ _ _ _ _ _ _ _ _ _ _ _ _ hrp' hfp' hwp
  rw [closing_of_right _ _ _ _ _ (flags_with_right _)] at en ep
  have gn := gate_after_locate _ _ _ _ _ _ _ _ _ _ _ _ _ _ _ _ hrn' hfn' hwn
  have gp := gate_after_locate _ _ _ _ _ _ _ _ _ _ _ _ _ _ _ _ hrp' hfp' hwp
  have hp1 := (compute_pad_spec fposn fposp).2.2.2.2
  rw [hpad] at hp1
  simp only at hp1
  refine ⟨ln, lp, max fposn fposp, hleftn, hleftp, ?_, ?_, ?_⟩
  · rw [gate_xs_append, gate_xs_append, gn, gp, hp1.1, hp1.2]
    simp
  · rw [en, ← hp1.1]
    rfl
  · rw [ep, ← hp1.2]
    rfl

/-- A dual stack that is one base pair, each edge as wide at its fold index as
at fold `0`: both gates are drawn at the same `x` and each row ends at that `x`
plus its gate length plus its closing overhang. -/
theorem basepair_run_ends (C : Env) (n p : edge_t) (l_n l_p : Option node_t)
    (n_start p_start diffspace : Int) (r : DualResult)
    (hr : print_dualstack_run C (.basepair (some n) (some p) l_n l_p n_start p_start) diffspace
      = .ok r)
    (hwn : getwidth C 0 n = getwidth C n_start n)
    (hwp : getwidth C 0 p = getwidth C p_start p) :
    ∃ (ln lp : node_t) (g : Int),
      l_n = some ln ∧ l_p = some lp ∧
      gate_xs r.drawn = [g, g] ∧
      r.xpos = g + getlength C n + closing_overhang C n n_start ln ∧
      r.xpos_p = g + getlength C p + closing_overhang C p p_start lp := by
  simp only [print_dualstack_run] at hr
  split at hr
  · cases hr
  rename_i fposn hfn
  split at hr
  · cases hr
  rename_i fposp hfp
  split at hr
  · cases hr
  rename_i rn hrn
  split at hr
  · cases hr
  rename_i rp hrp
  have h := Except.ok.inj hr
  subst h
  obtain ⟨ln, hln, hfn'⟩ := locate_fetedge_at_ok _ _ _ _ _ _ _ _ _ hfn
  obtain ⟨lp, hlp, hfp'⟩ := locate_fetedge_at_ok _ _ _ _ _ _ _ _ _ hfp
  subst hln
  subst hlp
  obtain ⟨ln', hln', hrn'⟩ := emit_rectangle_at_ok _ _ _ _ _ _ _ _ _ _ _ _ _ _ _ hrn
  obtain ⟨lp', hlp', hrp'⟩ := emit_rectangle_at_ok _ _ _ _ _ _ _ _ _ _ _ _ _ _ _ hrp
  cases hln'
  cases hlp'
  have en := emit_after_locate _ _ _ _ _ _ _ _ _ _ _ _ _ _ _ _ hrn' hfn' hwn
  have ep := emit_after_locate _ _ _ _ _ _ _ _ _ _ _ _ _ _ _ _ hrp' hfp' hwp
  have hR : (EDGE_FLAGS_LEFT ||| EDGE_FLAGS_RIGHT) &&& EDGE_FLAGS_RIGHT ≠ 0 := by decide
  rw [closing_of_right _ _ _ _ _ hR] at en ep
  have gn := gate_after_locate _ _ _ _ _ _ _ _ _ _ _ _ _ _ _ _ hrn' hfn' hwn
  have gp := gate_after_locate _ _ _ _ _ _ _ _ _ _ _ _ _ _ _ _ hrp' hfp' hwp
  have hp1 := (compute_pad_spec fposn fposp).2.2.2.2
  refine ⟨ln, lp, max fposn fposp, rfl, rfl, ?_, ?_, ?_⟩
  · show gate_xs (rn.drawn ++ rp.drawn) = _
    rw [gate_xs_append, gn, gp, hp1.1, hp1.2]
    rfl
  · show rn.dx = _
    rw [en, ← hp1.1]
    rfl
  · show rp.dx = _
    rw [ep, ← hp1.2]
    rfl

/-- C9, amended. When `print_dualstack` finishes on a dual stack whose last base
pair has an edge on one row only, the final cursors of the two rows are equal.
When the last base pair (or the single base pair) has edges on both rows, each
as wide at its own fold index as at fold `0`, the two gates are drawn at the
same `x`, and each row ends at that `x` plus its gate length plus its closing
overhang (the overhang at the contact flag of the edge's right node, the left
nodes being `last_left_n` and `last_left_p`); so the final cursors are equal
exactly when gate length plus closing overhang is the same for the two edges.
The rows are aligned at the start of the gates, not at the end of the closing
diffusion. -/
theorem print_dualstack_final_cursors (C : Env) (gp : gate_pairs) (diffspace : Int)
    (r : DualResult) (tmp : gate_pairs)
    (hr : print_dualstack_run C gp diffspace = .ok r)
    (hlast : gp.lastPair = some tmp) :
    (∀ (n : edge_t) (a b : Option node_t) (ns ps : Int),
      tmp = .basepair (some n) none a b ns ps → r.xpos = r.xpos_p) ∧
    (∀ (p : edge_t) (a b : Option node_t) (ns ps : Int),
      tmp = .basepair none (some p) a b ns ps → r.xpos = r.xpos_p) ∧
    (∀ (n p : edge_t) (a b : Option node_t) (ns ps : Int),
      tmp = .basepair (some n) (some p) a b ns ps →
      getwidth C 0 n = getwidth C ns n → getwidth C 0 p = getwidth C ps p →
      ∃ (ln lp : node_t) (g : Int) (pre : List Int),
        last_left_n gp = .ok (some ln) ∧ last_left_p gp = .ok (some lp) ∧
        gate_xs r.drawn = pre ++ [g, g] ∧
        r.xpos = g + getlength C n + closing_overhang C n ns ln ∧
        r.xpos_p = g + getlength C p + closing_overhang C p ps lp ∧
        (r.xpos = r.xpos_p ↔
          getlength C n + closing_overhang C n ns ln
            = getlength C p + closing_overhang C p ps lp)) := by
  cases gp with
  | basepair n0 p0 l_n l_p n_start p_start =>
    simp only [gate_pairs.lastPair, Option.some.injEq] at hlast
    subst hlast
    refine ⟨?_, ?_, ?_⟩
    · intro n a b ns ps ht
      cases ht
      exact absurd hr (by simp [print_dualstack_run])
    · intro p a b ns ps ht
      cases ht
      exact absurd hr (by simp [print_dualstack_run])
    · intro n p a b ns ps ht hwn hwp
      cases ht
      obtain ⟨ln, lp, g, h1, h2, h3, h4, h5⟩ :=
        basepair_run_ends C n p _ _ _ _ diffspace r hr hwn hwp
      refine ⟨ln, lp, g, [], ?_, ?_, ?_, h4, h5, ?_⟩
      · rw [h1]; rfl
      · rw [h2]; rfl
      · rw [h3]; rfl
      · rw [h4, h5]
        constructor <;> intro h <;> omega
  | composite l l_n l_p =>
    simp only [gate_pairs.lastPair] at hlast
    obtain ⟨s0, s1, hstep, hx, hxp, hd, hn, hp⟩ :=
      dualstack_run_last_left C l l_n l_p diffspace r tmp hr hlast
    refine ⟨?_, ?_, ?_⟩
    · intro n a b ns ps ht
      subst ht
      rw [hx, hxp]
      exact dualstack_step_only_n C l_n l_p _ _ s0 s1 n a b ns ps none hstep
    · intro p a b ns ps ht
      subst ht
      rw [hx, hxp]
      exact dualstack_step_only_p C l_n l_p _ _ s0 s1 p a b ns ps none hstep
    · intro n p a b ns ps ht hwn hwp
      subst ht
      obtain ⟨ln, lp, g, h1, h2, h3, h4, h5⟩ :=
        dualstack_step_both_ends C l_n l_p _ _ s0 s1 n p a b ns ps hstep hwn hwp
      refine ⟨ln, lp, g, gate_xs s0.drawn, ?_, ?_, ?_, ?_, ?_, ?_⟩
      · rw [← hn]; exact h1
      · rw [← hp]; exact h2
      · rw [hd]; exact h3
      · rw [hx]; exact h4
      · rw [hxp]; exact h5
      · rw [hx, hxp, h4, h5]
        constructor <;> intro h <;> omega

/-- C9, amended, on two stacks whose last base pair has edges on both rows: the
base pair `exEvenPair` (equal widths) and the composite `exOneTwoCells` (widths
`2` and `4` in its last base pair). -/
theorem print_dualstack_final_cursors_witness :
    (exEvenPair.lastPair = some exEvenPair ∧
     getwidth exEnv 0 (exEdge .EDGE_NFET 1 2 2 1) = getwidth exEnv 0 (exEdge .EDGE_NFET 1 2 2 1) ∧
     getwidth exEnv 0 (exEdge .EDGE_PFET 11 12 2 1)
       = getwidth exEnv 0 (exEdge .EDGE_PFET 11 12 2 1) ∧
     ∃ r, print_dualstack_run exEnv exEvenPair 10 = .ok r ∧
       ∃ (ln lp : node_t) (g : Int) (pre : List Int),
         last_left_n exEvenPair = .ok (some ln) ∧ last_left_p exEvenPair = .ok (some lp) ∧
         gate_xs r.drawn = pre ++ [g, g] ∧
         r.xpos = g + getlength exEnv (exEdge .EDGE_NFET 1 2 2 1)
           + closing_overhang exEnv (exEdge .EDGE_NFET 1 2 2 1) 0 ln ∧
         r.xpos_p = g + getlength exEnv (exEdge .EDGE_PFET 11 12 2 1)
           + closing_overhang exEnv (exEdge .EDGE_PFET 11 12 2 1) 0 lp ∧
         (r.xpos = r.xpos_p ↔
           getlength exEnv (exEdge .EDGE_NFET 1 2 2 1)
               + closing_overhang exEnv (exEdge .EDGE_NFET 1 2 2 1) 0 ln
             = getlength exEnv (exEdge .EDGE_PFET 11 12 2 1)
               + closing_overhang exEnv (exEdge .EDGE_PFET 11 12 2 1) 0 lp)) ∧
    ((gate_pairs.composite exOneTwoCells (some (exNode 1)) (some (exNode 11))).lastPair
       = some (.basepair (some (exEdge .EDGE_NFET 2 3 2 1))
           (some (exEdge .EDGE_PFET 11 12 4 1)) none none 0 0) ∧
     ∃ r, print_dualstack_run exEnv
         (.composite exOneTwoCells (some (exNode 1)) (some (exNode 11))) 10 = .ok r ∧
       ∃ (ln lp : node_t) (g : Int) (pre : List Int),
         last_left_n (.composite exOneTwoCells (some (exNode 1)) (some (exNode 11)))
           = .ok (some ln) ∧
         last_left_p (.composite exOneTwoCells (some (exNode 1)) (some (exNode 11)))
           = .ok (some lp) ∧
         gate_xs r.drawn = pre ++ [g, g] ∧
         r.xpos = g + getlength exEnv (exEdge .EDGE_NFET 2 3 2 1)
           + closing_overhang exEnv (exEdge .EDGE_NFET 2 3 2 1) 0 ln ∧
         r.xpos_p = g + getlength exEnv (exEdge .EDGE_PFET 11 12 4 1)
           + closing_overhang exEnv (exEdge .EDGE_PFET 11 12 4 1) 0 lp ∧
         (r.xpos = r.xpos_p ↔
           getlength exEnv (exEdge .EDGE_NFET 2 3 2 1)
               + closing_overhang exEnv (exEdge .EDGE_NFET 2 3 2 1) 0 ln
             = getlength exEnv (exEdge .EDGE_PFET 11 12 4 1)
               + closing_overhang exEnv (exEdge .EDGE_PFET 11 12 4 1) 0 lp)) :=
  ⟨⟨rfl, rfl, rfl, _, rfl,
     (print_dualstack_final_cursors exEnv exEvenPair 10 _ exEvenPair rfl rfl).2.2
       (exEdge .EDGE_NFET 1 2 2 1) (exEdge .EDGE_PFET 11 12 2 1)
       (some (exNode 1)) (some (exNode 11)) 0 0 rfl rfl rfl⟩,
   ⟨rfl, _, rfl,
     (print_dualstack_final_cursors exEnv
         (.composite exOneTwoCells (some (exNode 1)) (some (exNode 11))) 10 _
         (.basepair (some (exEdge .EDGE_NFET 2 3 2 1)) (some (exEdge .EDGE_PFET 11 12 4 1))
            none none 0 0) rfl rfl).2.2
       (exEdge .EDGE_NFET 2 3 2 1) (exEdge .EDGE_PFET 11 12 4 1) none none 0 0 rfl rfl rfl⟩⟩

/-- The two stacks of the witness under `exEnv`.  On `exEvenPair` both gates are
drawn at `x = 3` and both rows end at `7`.  On the composite the gates of the
last base pair are both drawn at `x = 8`, the N row ends at `12` and the P row,
whose edge is wider, at `13`. -/
theorem final_cursors_examples :
    (print_dualstack_run exEnv exEvenPair 10).map
        (fun r => (r.xpos, r.xpos_p, gate_xs r.drawn)) = .ok (7, 7, [3, 3]) ∧
    (print_dualstack_run exEnv
        (.composite exOneTwoCells (some (exNode 1)) (some (exNode 11))) 10).map
        (fun r => (r.xpos, r.xpos_p, gate_xs r.drawn)) = .ok (12, 13, [3, 8, 8]) ∧
    last_left_n (.composite exOneTwoCells (some (exNode 1)) (some (exNode 11)))
      = .ok (some (exNode 2)) ∧
    last_left_p (.composite exOneTwoCells (some (exNode 1)) (some (exNode 11)))
      = .ok (some (exNode 11)) :=
  ⟨by rfl, by rfl, by rfl, by rfl⟩

end StkLayout
